import Mathlib

/-!
# hilogd log buffer: a shallow embedding of `services/hilogd/log_buffer.cpp`

The definitions follow `HilogBuffer::Insert`, `Query`, `Delete`, `SetBuffLen` and
`ConditionMatch` statement by statement.  A `std::list` is a Lean list of nodes, each node
carrying an identity, so that list iterators (which stay valid across insertions and across
erasures of other nodes) are modelled by node identities.
-/

namespace Hilog

/-! ## `hilog_common.h` -/

def MAX_LOG_LEN : Nat := 1024
def MAX_TAG_LEN : Nat := 32
def SENDIDN : Nat := 0
def SENDIDA : Nat := 1
def ERR_LOG_TYPE_INVALID : Int := -2
def ERR_BUFF_SIZE_INVALID : Int := -7

/-- Size of the packed header `HilogMsg`: two 16-bit words and five 32-bit words. -/
def HILOG_MSG_SIZE : Nat := 2 + 2 + 4 * 5

/-- Number of values of `size_t` (and of `uint64_t`): arithmetic on them is modulo this. -/
def SIZE_MOD : Nat := 2 ^ 64

/-- Addition in `size_t`. -/
def addSz (a b : Nat) : Nat := (a + b) % SIZE_MOD

/-- Subtraction in `size_t`, wrapping around below zero. -/
def subSz (a b : Nat) : Nat := (a % SIZE_MOD + (SIZE_MOD - b % SIZE_MOD)) % SIZE_MOD

/-- Conversion of a signed `int` to `size_t`. -/
def intToSz (i : Int) : Nat := (i % (SIZE_MOD : Int)).toNat

/-- Conversion of an unsigned 64-bit value to a 32-bit signed `int`. -/
def toInt32 (i : Int) : Int := (i + 2 ^ 31) % 2 ^ 32 - 2 ^ 31

/-- The header of a log message together with its tag and content (`HilogMsg`).
`len` is a `uint16_t`, `type` a 4-bit field, `level` a 3-bit field, `tag_len` a 6-bit field. -/
structure HilogMsg where
  len : Nat
  version : Nat
  type : Nat
  level : Nat
  tag_len : Nat
  tv_sec : Nat
  tv_nsec : Nat
  pid : Nat
  tid : Nat
  domain : Nat
  tag : String
  content : List Nat
  deriving DecidableEq, Repr

/-- The fields of a message are within the ranges of their C types. -/
def HilogMsg.inRange (m : HilogMsg) : Prop :=
  m.len < 2 ^ 16 ∧ m.version < 8 ∧ m.type < 16 ∧ m.level < 8 ∧ m.tag_len < 64

instance (m : HilogMsg) : Decidable m.inRange := by
  unfold HilogMsg.inRange; infer_instance

/-- The macro `CONTENT_LEN(pMsg)`: `pMsg->len - sizeof(HilogMsg) - pMsg->tag_len`, evaluated
in `size_t` because of the `sizeof`. -/
def CONTENT_LEN (m : HilogMsg) : Nat := subSz (subSz m.len HILOG_MSG_SIZE) m.tag_len

/-! ## Declarations that are not among the sources -/

/-- The constants and the constructor that `log_buffer.cpp` takes from headers which are not
among the sources (`log_buffer.h`, `log_data.h`, the log type enumeration): they are
parameters of the embedding.  `dataLen` is the value the constructor `HilogData(msg)` stores
in the field `len` of the record. -/
structure Decls where
  LOG_TYPE_MAX : Nat
  LOG_KMSG : Nat
  MAX_BUFFER_SIZE : Nat
  dataLen : HilogMsg → Nat

/-- Modelled from the spec: `LogTimeStamp` of `log_time_stamp.h`, which is not among the
sources; "a (seconds, nanoseconds) value with total order and subtraction saturating at
zero". -/
structure LogTimeStamp where
  tv_sec : Nat
  tv_nsec : Nat
  deriving DecidableEq, Repr

namespace LogTimeStamp

/-- Modelled from the spec: `operator<` of `LogTimeStamp`, the lexicographic order. -/
def lt (a b : LogTimeStamp) : Bool :=
  decide (a.tv_sec < b.tv_sec) || (decide (a.tv_sec = b.tv_sec) && decide (a.tv_nsec < b.tv_nsec))

/-- Modelled from the spec: `operator>=` of `LogTimeStamp`. -/
def ge (a b : LogTimeStamp) : Bool := !(lt a b)

/-- Modelled from the spec: `operator>` of `LogTimeStamp`. -/
def gt (a b : LogTimeStamp) : Bool := lt b a

/-- Modelled from the spec: `operator-=` of `LogTimeStamp`, saturating at zero. -/
def sub (a b : LogTimeStamp) : LogTimeStamp :=
  if lt b a then
    if a.tv_nsec < b.tv_nsec then ⟨a.tv_sec - 1 - b.tv_sec, a.tv_nsec + 1000000000 - b.tv_nsec⟩
    else ⟨a.tv_sec - b.tv_sec, a.tv_nsec - b.tv_nsec⟩
  else ⟨0, 0⟩

end LogTimeStamp

def MAX_TIME_DIFF : Nat := 5
def DOMAIN_STRICT_MASK : Nat := 0xd000000
def DOMAIN_FUZZY_MASK : Nat := 0xdffff
def DOMAIN_MODULE_BITS : Nat := 8

/-- A stored record (`HilogData`). -/
structure HilogData where
  len : Nat
  version : Nat
  type : Nat
  level : Nat
  tag_len : Nat
  tv_sec : Nat
  tv_nsec : Nat
  pid : Nat
  tid : Nat
  domain : Nat
  tag : String
  content : List Nat
  deriving DecidableEq, Repr

/-- The record built by `HilogData(msg)` when `emplace` stores a message. -/
def HilogData.ofMsg (D : Decls) (m : HilogMsg) : HilogData :=
  { len := D.dataLen m, version := m.version, type := m.type, level := m.level,
    tag_len := m.tag_len, tv_sec := m.tv_sec, tv_nsec := m.tv_nsec, pid := m.pid,
    tid := m.tid, domain := m.domain, tag := m.tag, content := m.content }

/-- Timestamp of a record. -/
def HilogData.stamp (d : HilogData) : LogTimeStamp := ⟨d.tv_sec, d.tv_nsec⟩

/-- Timestamp of a message. -/
def HilogMsg.stamp (m : HilogMsg) : LogTimeStamp := ⟨m.tv_sec, m.tv_nsec⟩

/-- A node of a `std::list<HilogData>`: the record and the identity of the node. -/
structure Node where
  id : Nat
  data : HilogData
  deriving DecidableEq, Repr

/-- The two lists of the buffer. -/
inductive ListSel where
  | main
  | klog
  deriving DecidableEq, Repr

/-- A list iterator: on a node, or the `end()` of one of the two lists. -/
inductive Iter where
  | node (id : Nat)
  | pastEnd (l : ListSel)
  deriving DecidableEq, Repr

/-- The iterator on the first node of `l`, which is `end()` of list `sel` when `l` is empty:
`begin()` of a list, and `std::next(it)` when `l` is what follows `it`. -/
def firstIter (sel : ListSel) (l : List Node) : Iter :=
  match l with
  | [] => Iter.pastEnd sel
  | x :: _ => Iter.node x.id

/-! ## Single-precision arithmetic of the drop threshold

`DROP_RATIO` is a `float`, so `g_maxBufferSizeByType[t] * (1 - DROP_RATIO)` and the comparison
of `sizeByType[t]` with it are carried out in IEEE binary32.  All values involved are
non-negative multiples of `2^-28`; they are represented by their numerators. -/

/-- The number of low bits of `n` beyond its 24 most significant bits: the least `s`, counted
up from the third argument, with `n / 2^s < 2^24`.  The first argument bounds the search. -/
def shiftFor : Nat → Nat → Nat → Nat
  | 0, _, s => s
  | f + 1, n, s => if n / 2 ^ s < 2 ^ 24 then s else shiftFor f n (s + 1)

/-- Rounding of a natural number to 24 significant bits, to nearest, ties to even: the
rounding of binary32 (no overflow or underflow occurs in the range used here). -/
def round24 (n : Nat) : Nat :=
  if shiftFor n n 0 = 0 then n
  else if n % 2 ^ shiftFor n n 0 < 2 ^ (shiftFor n n 0 - 1) then
    n / 2 ^ shiftFor n n 0 * 2 ^ shiftFor n n 0
  else if 2 ^ (shiftFor n n 0 - 1) < n % 2 ^ shiftFor n n 0 then
    (n / 2 ^ shiftFor n n 0 + 1) * 2 ^ shiftFor n n 0
  else if n / 2 ^ shiftFor n n 0 % 2 = 0 then n / 2 ^ shiftFor n n 0 * 2 ^ shiftFor n n 0
  else (n / 2 ^ shiftFor n n 0 + 1) * 2 ^ shiftFor n n 0

/-- The constant `DROP_RATIO = 0.05f` as a multiple of `2^-28`: the binary32 value nearest to
one twentieth is `13421773 * 2^-28`. -/
def DROP_RATIO : Nat := 13421773

/-- The value of `1 - DROP_RATIO` in binary32, as a multiple of `2^-28`. -/
def oneMinusDropRatio : Nat := round24 (2 ^ 28 - DROP_RATIO)

/-- The loop guard `sizeByType[t] > g_maxBufferSizeByType[t] * (1 - DROP_RATIO)`: both the
`int` cap and the `size_t` size are converted to binary32, the product is rounded, and the
comparison is made on the results.  A negative cap gives a negative product. -/
def exceedsDropLimit (sz : Nat) (cap : Int) : Bool :=
  if cap < 0 then true
  else decide (round24 (round24 cap.toNat * oneMinusDropRatio) < round24 sz * 2 ^ 28)

/-! ## Query conditions and readers -/

/-- The filter of a reader (`QueryCondition`); the arrays with their element counts are
lists. -/
structure QueryCondition where
  types : Nat
  levels : Nat
  pids : List Nat
  domains : List Nat
  tags : List String
  noTypes : Nat
  noLevels : Nat
  noPids : List Nat
  noDomains : List Nat
  noTags : List String
  deriving DecidableEq, Repr

/-- The value of `static_cast<uint8_t>((0b01 << k) & mask)`. -/
def maskBit8 (k mask : Nat) : Nat := ((1 <<< k) &&& mask) % 256

/-- The test of one entry of `domains` in the inclusion loop of `ConditionMatch`. -/
def domainIncluded (domain d : Nat) : Bool :=
  !((decide (d ≥ DOMAIN_STRICT_MASK) && decide (d ≠ domain)) ||
    (decide (d ≤ DOMAIN_FUZZY_MASK) && decide (d ≠ domain >>> DOMAIN_MODULE_BITS)))

/-- The test of one entry of `noDomains` in the exclusion loop of `ConditionMatch`. -/
def domainExcluded (domain d : Nat) : Bool :=
  (decide (d ≥ DOMAIN_STRICT_MASK) && decide (d = domain)) ||
    (decide (d ≤ DOMAIN_FUZZY_MASK) && decide (d = domain >>> DOMAIN_MODULE_BITS))

/-- The function `HilogBuffer::ConditionMatch`, on the record under `readPos` and the
reader's condition. -/
def ConditionMatch (r : HilogData) (c : QueryCondition) : Bool :=
  if maskBit8 r.type c.types = 0 ∨ maskBit8 r.level c.levels = 0 then false
  else if c.pids.length > 0 ∧ !(c.pids.any (fun p => decide (r.pid = p))) then false
  else if c.domains.length > 0 ∧ !(c.domains.any (fun d => domainIncluded r.domain d)) then false
  else if c.tags.length > 0 ∧ !(c.tags.any (fun t => decide (r.tag = t))) then false
  else if c.noPids.any (fun p => decide (r.pid = p)) then false
  else if c.noDomains.any (fun d => domainExcluded r.domain d) then false
  else if c.noTags.any (fun t => decide (r.tag = t)) then false
  else if maskBit8 r.type c.noTypes ≠ 0 ∨ maskBit8 r.level c.noLevels ≠ 0 then false
  else true

/-- A reader (`LogReader`): its condition, its two cursors, its flags, its send-id, and the
sequence of `WriteData` calls made on it, each with the send-id in force.  `rendering` says
that the reader is a `LogPersister` with no line waiting in `persistList`, so that its
`WriteData` runs `GenPersistLogHeader` on the record it is handed; the other reader classes
are not among the sources and their `WriteData` is taken to leave the record as it is. -/
structure LogReader where
  queryCondition : QueryCondition
  readPos : Iter
  lastPos : Iter
  reload : Bool
  isNotified : Bool
  sendId : Nat
  written : List (Nat × Option HilogData)
  rendering : Bool := false
  deriving DecidableEq, Repr

/-- The buffer: the members of `HilogBuffer` and the two file-level caps.  Arrays indexed by
log type are functions on the index; `logReaderList` holds weak references, `none` standing
for one whose reader is gone; `nextId` is the identity of the next node to be allocated. -/
structure HilogBuffer where
  size : Nat
  sizeByType : Nat → Nat
  cacheLenByType : Nat → Nat
  printLenByType : Nat → Nat
  droppedByType : Nat → Nat
  cacheLenByDomain : Nat → Option Nat
  printLenByDomain : Nat → Option Nat
  hilogDataList : List Node
  hilogKlogList : List Node
  logReaderList : List (Option LogReader)
  g_maxBufferSize : Int
  g_maxBufferSizeByType : Nat → Int
  nextId : Nat

/-- The constructor `HilogBuffer::HilogBuffer()` and the initial values of the caps. -/
def HilogBuffer.init : HilogBuffer :=
  { size := 0, sizeByType := fun _ => 0, cacheLenByType := fun _ => 0,
    printLenByType := fun _ => 0, droppedByType := fun _ => 0,
    cacheLenByDomain := fun _ => none, printLenByDomain := fun _ => none,
    hilogDataList := [], hilogKlogList := [], logReaderList := [],
    g_maxBufferSize := 4194304,
    g_maxBufferSizeByType := fun i => if i < 5 then 262144 else 0,
    nextId := 0 }

/-- The list selected by `sel`. -/
def HilogBuffer.getList (b : HilogBuffer) (sel : ListSel) : List Node :=
  match sel with
  | ListSel.main => b.hilogDataList
  | ListSel.klog => b.hilogKlogList

/-- Replacement of the list selected by `sel`. -/
def HilogBuffer.setList (b : HilogBuffer) (sel : ListSel) (l : List Node) : HilogBuffer :=
  match sel with
  | ListSel.main => { b with hilogDataList := l }
  | ListSel.klog => { b with hilogKlogList := l }

/-! ## Cursor repair and removal of records -/

/-- The content size the buffer accounts for a stored record: `it->len - it->tag_len`,
computed in `int` and converted to `size_t`. -/
def cLen (d : HilogData) : Nat := intToSz ((d.len : Int) - (d.tag_len : Int))

/-- The body of the loop over `logReaderList` for one reader: a cursor equal to `it` is moved
to `std::next(it)`. -/
def repairReader (it next : Iter) (r : LogReader) : LogReader :=
  { r with readPos := if r.readPos = it then next else r.readPos,
           lastPos := if r.lastPos = it then next else r.lastPos }

/-- The loop over `logReaderList`; a weak reference whose reader is gone is skipped. -/
def repairReaders (it next : Iter) (rs : List (Option LogReader)) : List (Option LogReader) :=
  rs.map (Option.map (repairReader it next))

/-- The statements that remove the node `x` whose successors are `xs`: repair of the
cursors, then the update of `size` and `sizeByType`. -/
def eraseStep (sel : ListSel) (x : Node) (xs : List Node) (b : HilogBuffer) : HilogBuffer :=
  { b with
    logReaderList := repairReaders (Iter.node x.id) (firstIter sel xs) b.logReaderList,
    size := subSz b.size (cLen x.data),
    sizeByType := fun i =>
      if i = x.data.type then subSz (b.sizeByType i) (cLen x.data) else b.sizeByType i }

/-- The eviction loop of `Insert` (lines 61 to 86) from the iterator position whose remaining
nodes are the first argument; it returns the nodes that remain from that position on. -/
def dropOld (sel : ListSel) (t : Nat) :
    List Node → HilogBuffer → List Node × HilogBuffer
  | [], b => ([], b)
  | x :: xs, b =>
    if exceedsDropLimit (b.sizeByType t) (b.g_maxBufferSizeByType t) then
      if x.data.type ≠ t then
        ((dropOld sel t xs b).1.cons x, (dropOld sel t xs b).2)
      else dropOld sel t xs (eraseStep sel x xs b)
    else (x :: xs, b)

/-- The eviction step of `Insert` on the list selected by `sel`. -/
def evict (sel : ListSel) (t : Nat) (b : HilogBuffer) : HilogBuffer :=
  (dropOld sel t (b.getList sel) b).2.setList sel (dropOld sel t (b.getList sel) b).1

/-! ## Placement of the new record -/

/-- The loop of lines 108 to 110, on the nodes from the reverse iterator `rit` towards the
front of the list (nearest first) and the current value of `ritTimeStamp`; it returns the
nodes from the final `rit` towards the front.  The body reads the timestamp of the node
under `rit` before `rit` is advanced. -/
def walkBack (msgTs : LogTimeStamp) : LogTimeStamp → List Node → List Node
  | _, [] => []
  | ritTs, x :: xs =>
    if LogTimeStamp.lt msgTs ritTs then walkBack msgTs x.data.stamp xs else x :: xs

/-- The timestamp read through a reverse iterator whose remaining nodes (towards the front)
are `l`; at `rend()` the iterator designates no record and the value read is `slot`. -/
def readStamp (slot : LogTimeStamp) (l : List Node) : LogTimeStamp :=
  match l with
  | [] => slot
  | x :: _ => x.data.stamp

/-- Lines 96 to 112 of `Insert`.  `slot` is the timestamp read through `msgList.rend()`,
which designates no record of the list. -/
def place (slot : LogTimeStamp) (msgTs : LogTimeStamp) (nd : Node) (l : List Node) :
    List Node :=
  if LogTimeStamp.ge msgTs (readStamp slot l.reverse) ∨ LogTimeStamp.lt msgTs slot ∨
      LogTimeStamp.gt (LogTimeStamp.sub (readStamp slot l.reverse) msgTs)
        ⟨MAX_TIME_DIFF, 0⟩ then
    l ++ [nd]
  else
    l.take (walkBack msgTs (readStamp slot l.reverse.tail) l.reverse.tail).length ++
      nd :: l.drop (walkBack msgTs (readStamp slot l.reverse.tail) l.reverse.tail).length

/-- The list a message of type `t` is stored in. -/
def listOfType (D : Decls) (t : Nat) : ListSel :=
  if t = D.LOG_KMSG then ListSel.klog else ListSel.main

/-- The list a reader with type mask `types` reads, which is also the test `Delete` makes on
its argument. -/
def listOfMask (D : Decls) (types : Nat) : ListSel :=
  if types = 1 <<< D.LOG_KMSG then ListSel.klog else ListSel.main

/-- The statements of lines 113 to 121 of `Insert`. -/
def account (msg : HilogMsg) (eleSize : Nat) (b : HilogBuffer) : HilogBuffer :=
  { b with
    size := addSz b.size eleSize,
    sizeByType := fun i => if i = msg.type then addSz (b.sizeByType i) eleSize
      else b.sizeByType i,
    cacheLenByType := fun i => if i = msg.type then addSz (b.cacheLenByType i) eleSize
      else b.cacheLenByType i,
    cacheLenByDomain := fun d =>
      if d = msg.domain then
        match b.cacheLenByDomain d with
        | none => some eleSize
        | some v => some (addSz v eleSize)
      else b.cacheLenByDomain d }

/-- Lines 58 to 93 of `Insert`: the eviction step, entered when the buffer of the type is
full.  (The re-confirmation of line 89 only prints a message.) -/
def evictIfFull (sel : ListSel) (msg : HilogMsg) (b : HilogBuffer) : HilogBuffer :=
  if addSz (CONTENT_LEN msg) (b.sizeByType msg.type) ≥
      intToSz (b.g_maxBufferSizeByType msg.type) then evict sel msg.type b
  else b

/-- Lines 96 to 112 of `Insert` on the buffer: the new node is allocated and placed. -/
def emplace (D : Decls) (slot : LogTimeStamp) (sel : ListSel) (msg : HilogMsg)
    (b : HilogBuffer) : HilogBuffer :=
  { b.setList sel (place slot msg.stamp ⟨b.nextId, HilogData.ofMsg D msg⟩ (b.getList sel)) with
    nextId := b.nextId + 1 }

/-- The function `HilogBuffer::Insert`.  `slot` is the timestamp the call reads through
`msgList.rend()`.  The result is the returned value and the buffer afterwards. -/
def Insert (D : Decls) (slot : LogTimeStamp) (msg : HilogMsg) (b : HilogBuffer) :
    Nat × HilogBuffer :=
  if msg.tag_len > MAX_TAG_LEN ∨ msg.tag_len = 0 ∨ CONTENT_LEN msg > MAX_LOG_LEN ∨
      CONTENT_LEN msg = 0 then (0, b)
  else
    (CONTENT_LEN msg,
     account msg (CONTENT_LEN msg)
       (emplace D slot (listOfType D msg.type) msg
         (evictIfFull (listOfType D msg.type) msg b)))

/-! ## Query -/

/-- The value of `strlen`: the number of bytes before the first zero byte. -/
def strlen (l : List Nat) : Nat := (l.takeWhile (fun c => decide (c ≠ 0))).length

/-- The nodes of `l` from the node with identity `id` on; `none` when no node of `l` has
that identity. -/
def suffixFrom (id : Nat) : List Node → Option (List Node)
  | [] => none
  | x :: xs => if x.id = id then some (x :: xs) else suffixFrom id xs

/-- The call `std::next(it)` on list `sel` with nodes `l`.  From a node of the list it gives
the next node or `end()`; from `end()` of the list, whose sentinel node is linked to the
first node, it gives `begin()`.  For an iterator on an erased node or into the other list
the call is undefined. -/
def nextIter (sel : ListSel) (l : List Node) (it : Iter) : Option Iter :=
  match it with
  | Iter.pastEnd s => if s = sel then some (firstIter sel l) else none
  | Iter.node id => (suffixFrom id l).map (fun s => firstIter sel s.tail)

/-- What the loop of `GenPersistLogHeader` writes into the content it walks (`dataCopy` is the
pointer `data->content` itself): up to the first zero byte, every newline that closes a
non-empty segment is overwritten with a zero byte (`*dataPos = 0`).  `fresh` says that
`dataPos` stands at `dataBegin`. -/
def markLines : Bool → List Nat → List Nat
  | _, [] => []
  | fresh, c :: cs =>
    if c = 0 then c :: cs
    else if c = 10 then (if fresh then c :: markLines true cs else 0 :: markLines true cs)
    else c :: markLines false cs

/-- The record as the call `reader->WriteData(*(reader->readPos))` leaves it in the list. -/
def afterWrite (r : LogReader) (d : HilogData) : HilogData :=
  if r.rendering then { d with content := markLines true d.content } else d

/-- The buffer after the call `reader->WriteData(*(reader->readPos))` on the node `x` of
list `sel`: the record of the node is as `WriteData` leaves it. -/
def recordWritten (sel : ListSel) (r : LogReader) (x : Node) (b : HilogBuffer) :
    HilogBuffer :=
  if r.rendering then
    b.setList sel
      ((b.getList sel).map fun y => if y.id = x.id then ⟨y.id, afterWrite r x.data⟩ else y)
  else b

/-- The statements of lines 145 to 154 of `Query` for the matching node `x` followed by the
nodes `xs`: delivery with send-id `SENDIDA` and advance of `readPos`. -/
def deliver (sel : ListSel) (x : Node) (xs : List Node) (r : LogReader) : LogReader :=
  { r with sendId := SENDIDA,
           written := r.written ++ [(SENDIDA, some x.data)],
           readPos := firstIter sel xs }

/-- The update of the print counters in lines 147 to 153 of `Query`, where `d` is the record
under `readPos` as it is when `strlen` reads it, after `WriteData`. -/
def countPrinted (d : HilogData) (b : HilogBuffer) : HilogBuffer :=
  { b with
    printLenByType := fun i =>
      if i = d.type then addSz (b.printLenByType i) (strlen d.content) else b.printLenByType i,
    printLenByDomain := fun k =>
      if k = d.domain then
        match b.printLenByDomain k with
        | none => some (strlen d.content)
        | some v => some (addSz v (strlen d.content))
      else b.printLenByDomain k }

/-- The function `HilogBuffer::ReturnNoLog`, preceded by the clearing of `isNotified`. -/
def returnNoLog (r : LogReader) : LogReader :=
  { r with isNotified := false, sendId := SENDIDN,
           written := r.written ++ [(SENDIDN, none)] }

/-- The loop of lines 142 to 159 of `Query` with what follows it, on the nodes from
`readPos` to the end of the list. -/
def queryLoop (sel : ListSel) : List Node → LogReader → HilogBuffer →
    Bool × LogReader × HilogBuffer
  | [], r, b => (false, returnNoLog r, b)
  | x :: xs, r, b =>
    if ConditionMatch x.data r.queryCondition then
      (true, deliver sel x xs { r with lastPos := Iter.node x.id },
        countPrinted (afterWrite r x.data) (recordWritten sel r x b))
    else
      queryLoop sel xs
        { r with lastPos := Iter.node x.id, readPos := firstIter sel xs } b

/-- The nodes from the iterator `it` to the end of list `sel`, whose nodes are `l`: empty at
`end()`, undefined for an iterator that is neither `end()` of this list nor on one of its
nodes. -/
def nodesFrom (sel : ListSel) (l : List Node) (it : Iter) : Option (List Node) :=
  match it with
  | Iter.pastEnd s => if s = sel then some [] else none
  | Iter.node id => suffixFrom id l

/-- Lines 131 to 135 of `Query`: the reload adjustment. -/
def applyReload (sel : ListSel) (l : List Node) (r : LogReader) : LogReader :=
  if r.reload then
    { r with readPos := firstIter sel l, lastPos := firstIter sel l, reload := false }
  else r

/-- Lines 137 to 141 of `Query`: the adjustment of a notified reader standing at `end()`. -/
def applyNotified (sel : ListSel) (l : List Node) (r : LogReader) : Option LogReader :=
  if r.isNotified ∧ r.readPos = Iter.pastEnd sel then
    (nextIter sel l r.lastPos).map (fun p => { r with readPos := p })
  else some r

/-- The function `HilogBuffer::Query`: the returned value, the reader and the buffer
afterwards; `none` where a cursor of the reader is on an erased node or in the other
list. -/
def Query (D : Decls) (r : LogReader) (b : HilogBuffer) :
    Option (Bool × LogReader × HilogBuffer) :=
  let sel := listOfMask D r.queryCondition.types
  (applyNotified sel (b.getList sel) (applyReload sel (b.getList sel) r)).bind fun r1 =>
    (nodesFrom sel (b.getList sel) r1.readPos).map fun s => queryLoop sel s r1 b

/-! ## Delete, SetBuffLen, AddLogReader -/

/-- The loop of lines 177 to 204 of `Delete` from the iterator position whose remaining
nodes are the first argument, with the running value of `sum`; it returns the nodes that
remain, the final `sum`, and the buffer. -/
def deleteLoop (sel : ListSel) (logType : Nat) :
    List Node → Nat → HilogBuffer → List Node × Nat × HilogBuffer
  | [], sum, b => ([], sum, b)
  | x :: xs, sum, b =>
    if x.data.type ≠ logType then
      ((deleteLoop sel logType xs sum b).1.cons x, (deleteLoop sel logType xs sum b).2)
    else deleteLoop sel logType xs (addSz sum (cLen x.data)) (eraseStep sel x xs b)

/-- The function `HilogBuffer::Delete`. -/
def Delete (D : Decls) (logType : Nat) (b : HilogBuffer) : Nat × HilogBuffer :=
  if logType ≥ D.LOG_TYPE_MAX then (intToSz ERR_LOG_TYPE_INVALID, b)
  else
    ((deleteLoop (listOfMask D logType) logType (b.getList (listOfMask D logType)) 0 b).2.1,
     (deleteLoop (listOfMask D logType) logType (b.getList (listOfMask D logType)) 0 b).2.2.setList
       (listOfMask D logType)
       (deleteLoop (listOfMask D logType) logType (b.getList (listOfMask D logType)) 0 b).1)

/-- The function `HilogBuffer::SetBuffLen`. -/
def SetBuffLen (D : Decls) (logType : Nat) (buffSize : Nat) (b : HilogBuffer) :
    Nat × HilogBuffer :=
  if logType ≥ D.LOG_TYPE_MAX then (intToSz ERR_LOG_TYPE_INVALID, b)
  else if buffSize = 0 ∨ buffSize > D.MAX_BUFFER_SIZE then (intToSz ERR_BUFF_SIZE_INVALID, b)
  else
    (buffSize % SIZE_MOD,
     { b with
       g_maxBufferSizeByType := fun i =>
         if i = logType then toInt32 buffSize else b.g_maxBufferSizeByType i,
       g_maxBufferSize :=
         toInt32 (b.g_maxBufferSize + ((buffSize : Int) - (b.sizeByType logType : Int))) })

/-- The function `HilogBuffer::GetBuffLen`. -/
def GetBuffLen (D : Decls) (logType : Nat) (b : HilogBuffer) : Nat :=
  if logType ≥ D.LOG_TYPE_MAX then intToSz ERR_LOG_TYPE_INVALID
  else intToSz (b.g_maxBufferSizeByType logType)

/-- The function `HilogBuffer::AddLogReader`: the reader is appended to the registry with
`lastPos` at the end of its list. -/
def AddLogReader (D : Decls) (r : LogReader) (b : HilogBuffer) : HilogBuffer :=
  { b with logReaderList := b.logReaderList ++
      [some { r with lastPos := Iter.pastEnd (listOfMask D r.queryCondition.types) }] }

end Hilog

namespace Hilog

/-! ## `log_persister_rotator.cpp`

The output files of a rotator are `<fileName>.<i><fileSuffix>`; distinct `i` give distinct
names, so the files are indexed by `i`.  System calls on the files are taken to succeed
whenever the file they name exists (for `rename`) or can be created (for `open`), and
`Init` is taken to have opened the index file before the first `Rotate`. -/

/-- The state of a `LogPersisterRotator`, with the files it works on: `files i` is the
content of output file `i` when it exists, `output` the file the stream `output` is open on,
`infoByte` the byte last written to the index file.  `inputs` is the record of the buffers
passed to `Input`, oldest first. -/
structure LogPersisterRotator where
  fileNum : Nat
  index : Int
  needRotate : Bool
  files : Nat → Option (List Nat)
  output : Option Nat
  infoByte : Option Nat
  inputs : List (List Nat)

namespace LogPersisterRotator

/-- The constructor: index -1 and `needRotate` set; the files are those on the disk. -/
def mk0 (fileNum : Nat) (files : Nat → Option (List Nat)) : LogPersisterRotator :=
  { fileNum := fileNum, index := -1, needRotate := true, files := files, output := none,
    infoByte := none, inputs := [] }

/-- The call `output.open(name, ios::out | ios::trunc)` on output file `i`. -/
def openTrunc (i : Nat) (r : LogPersisterRotator) : LogPersisterRotator :=
  { r with files := fun j => if j = i then some [] else r.files j, output := some i }

/-- The call `output.write(buf, length)`; it has no effect on a stream that is not open. -/
def write (buf : List Nat) (r : LogPersisterRotator) : LogPersisterRotator :=
  match r.output with
  | none => r
  | some i =>
    { r with files := fun j => if j = i then some ((r.files i).getD [] ++ buf) else r.files j }

/-- The call `rename(oldName, newName)` from output file `i` to output file `i - 1`; it
fails, changing nothing, when file `i` does not exist. -/
def renameDown (files : Nat → Option (List Nat)) (i : Nat) : Nat → Option (List Nat) :=
  match files i with
  | none => files
  | some c => fun j => if j = i - 1 then some c else if j = i then none else files j

/-- The function `InternalRotate`: file 0 is removed, each file `i` from 1 to `fileNum - 1`
is renamed to `i - 1`, and the stream is opened on the name built last, that of file
`fileNum - 1` (file 0 when the loop has not run). -/
def InternalRotate (r : LogPersisterRotator) : LogPersisterRotator :=
  let removed : Nat → Option (List Nat) := fun j => if j = 0 then none else r.files j
  openTrunc (r.fileNum - 1)
    { r with files := (List.range' 1 (r.fileNum - 1)).foldl renameDown removed }

/-- The function `Rotate`.  `(int)(fileNum - 1)` is the 32-bit value of the unsigned
difference. -/
def Rotate (r : LogPersisterRotator) : LogPersisterRotator :=
  let r1 :=
    if r.index ≥ toInt32 ((r.fileNum : Int) - 1) then InternalRotate r
    else openTrunc (r.index + 1).toNat { r with index := r.index + 1 }
  { r1 with infoByte := some ((r1.index % 256).toNat) }

/-- The function `Input` on a non-null buffer: the returned value and the rotator
afterwards. -/
def Input (buf : List Nat) (r : LogPersisterRotator) : Int × LogPersisterRotator :=
  if buf.length = 0 then (-1, { r with inputs := r.inputs ++ [buf] })
  else
    let r1 := if r.needRotate then { (Rotate { r with output := none }) with needRotate := false }
      else r
    (0, { (write buf r1) with inputs := r.inputs ++ [buf] })

end LogPersisterRotator

end Hilog

namespace Hilog

/-! ## `log_persister.cpp` -/

def RET_SUCCESS : Int := 0
def RET_FAIL : Int := -1

/-- A `LogPersister` with the files it works on: `offset` and `content` are the two fields
of the mapped `buffer`, `info` is the text of the file behind `fdinfo`. -/
structure LogPersister where
  id : Nat
  path : String
  compressType : Nat
  compressAlg : Nat
  offset : Nat
  content : List Nat
  info : List Nat
  persistList : List (List Nat)
  rotator : LogPersisterRotator

namespace LogPersister

/-- The character of a hexadecimal digit, lower case. -/
def hexChar (d : Nat) : Nat := if d < 10 then 48 + d else 87 + d

/-- The text `printf` produces for `%04x`: the hexadecimal digits, padded with zeros to four
characters. -/
def hex04 (n : Nat) : List Nat :=
  if n < 65536 then
    [hexChar (n / 4096), hexChar (n / 256 % 16), hexChar (n / 16 % 16), hexChar (n % 16)]
  else (Nat.toDigits 16 n).map (fun c => c.toNat)

/-- The function `SetBufferOffset`: the offset is stored in the buffer and written over the
start of the info file as `"%04x\n"`. -/
def SetBufferOffset (off : Nat) (p : LogPersister) : LogPersister :=
  { p with offset := off,
           info := hex04 off ++ [10] ++ p.info.drop (hex04 off ++ [10]).length }

/-- The function `WriteFile`. -/
def WriteFile (p : LogPersister) : LogPersister :=
  if p.offset = 0 then p
  else if p.compressAlg = 0 then
    SetBufferOffset 0 { p with rotator := (p.rotator.Input (p.content.take p.offset)).2 }
  else SetBufferOffset 0 p

/-- The value of a hexadecimal digit character. -/
def hexVal (c : Nat) : Option Nat :=
  if 48 ≤ c ∧ c ≤ 57 then some (c - 48)
  else if 97 ≤ c ∧ c ≤ 102 then some (c - 87)
  else if 65 ≤ c ∧ c ≤ 70 then some (c - 55)
  else none

/-- The digits read by `%04x`: at most four hexadecimal digits from the start of the text. -/
def hexPrefix : Nat → List Nat → List Nat
  | 0, _ => []
  | _ + 1, [] => []
  | n + 1, c :: cs =>
    match hexVal c with
    | none => []
    | some v => v :: hexPrefix n cs

/-- The result of `fscanf_s(fdinfo, "%04x", &moffset)` on a text without leading white
space, sign or `0x` prefix (the text `SetBufferOffset` writes has none): `none` for the
result -1 on an empty text; otherwise the value left in `moffset`, which keeps its
uninitialised value `garbage` when the text does not start with a hexadecimal digit. -/
def scanHex04 (garbage : Nat) (text : List Nat) : Option Nat :=
  match text with
  | [] => none
  | _ :: _ =>
    if hexPrefix 4 text = [] then some garbage
    else some ((hexPrefix 4 text).foldl (fun a v => 16 * a + v) 0)

/-- The results of the system calls of `Init`: the two `open` calls on the mapped file (the
second is made when the first fails with `EEXIST`), whether a stream was obtained for the
info file and the text found in it, the bytes of the mapped file or `none` when `mmap`
fails, and the uninitialised value of the variable `moffset`. -/
structure InitIO where
  fdNew : Int
  errnoEEXIST : Bool
  fdOld : Int
  infoOpened : Bool
  infoText : List Nat
  mapped : Option (List Nat)
  moffsetGarbage : Nat

/-- Lines 138 to 152 of `Init`: the cursor is restored from the info file and the buffer
flushed, or the cursor is set to 0; then the persister is appended to the registry. -/
def finishInit (io : InitIO) (restore : Bool) (p : LogPersister) (reg : List LogPersister) :
    Int × LogPersister × List LogPersister :=
  if restore then
    match scanHex04 io.moffsetGarbage io.infoText with
    | none => (RET_FAIL, p, reg)
    | some moffset =>
      (0, WriteFile (SetBufferOffset moffset p), reg ++ [WriteFile (SetBufferOffset moffset p)])
  else (0, SetBufferOffset 0 p, reg ++ [SetBufferOffset 0 p])

/-- The file descriptor `fd` of `Init` after lines 96 to 110. -/
def initFd (io : InitIO) : Int :=
  if io.fdNew ≤ 0 then (if io.errnoEEXIST then io.fdOld else io.fdNew) else io.fdNew

/-- Lines 96 to 152 of `Init`: the mapped file and the info file are opened, the file is
mapped, and the function finishes as described by `finishInit`. -/
def openAndMap (io : InitIO) (p : LogPersister) (reg : List LogPersister) :
    Int × LogPersister × List LogPersister :=
  if initFd io < 0 then (RET_FAIL, p, reg)
  else if ¬ io.infoOpened then (RET_FAIL, p, reg)
  else
    match io.mapped with
    | none => (RET_FAIL, p, reg)
    | some bytes =>
      finishInit io (decide (io.fdNew ≤ 0) && io.errnoEEXIST)
        { p with content := bytes, info := io.infoText } reg

/-- The function `Init` of the persister `p`, with the registry `logPersisters`: the
returned value, the persister and the registry afterwards. -/
def Init (io : InitIO) (p : LogPersister) (reg : List LogPersister) :
    Int × LogPersister × List LogPersister :=
  if ¬ ('/' ∈ p.path.toList) then (RET_FAIL, p, reg)
  else if reg.any (fun q => decide (q.path = p.path) || decide (q.id = p.id)) then
    (RET_FAIL, p, reg)
  else openAndMap io p reg

/-- The loop of `Kill` with the flag `found`: every persister identified by `id` is made to
exit and erased from the registry. -/
def killLoop (id : Nat) : List LogPersister → Bool → List LogPersister × Bool
  | [], found => ([], found)
  | q :: qs, found =>
    if q.id = id then killLoop id qs true
    else ((killLoop id qs found).1.cons q, (killLoop id qs found).2)

/-- The function `Kill`: the returned value and the registry afterwards. -/
def Kill (id : Nat) (reg : List LogPersister) : Int × List LogPersister :=
  (if (killLoop id reg false).2 then 0 else -1, (killLoop id reg false).1)

end LogPersister

end Hilog

namespace Hilog

/-! ## The claims' own wording, and concrete inputs -/

/-- The message passes the validation of `Insert`. -/
def HilogMsg.accepted (m : HilogMsg) : Prop :=
  ¬(m.tag_len > MAX_TAG_LEN ∨ m.tag_len = 0 ∨ CONTENT_LEN m > MAX_LOG_LEN ∨ CONTENT_LEN m = 0)

instance (m : HilogMsg) : Decidable m.accepted := by
  unfold HilogMsg.accepted; infer_instance

/-- The strict/fuzzy rule for one domain pattern as the specification words it: a pattern
`d ≥ 0x0d000000` matches a record's domain exactly, a pattern `d ≤ 0x000dffff` matches
`domain >> 8`. -/
def domainMatchesSpec (domain d : Nat) : Prop :=
  (d ≥ 0x0d000000 ∧ d = domain) ∨ (d ≤ 0x000dffff ∧ d = domain >>> 8)

instance (domain d : Nat) : Decidable (domainMatchesSpec domain d) := by
  unfold domainMatchesSpec; infer_instance

/-- The match predicate as the specification words it (§4.1.1). -/
def ConditionMatchSpec (r : HilogData) (c : QueryCondition) : Prop :=
  ((1 <<< r.type) &&& c.types ≠ 0 ∧ (1 <<< r.level) &&& c.levels ≠ 0) ∧
  (c.pids = [] ∨ r.pid ∈ c.pids) ∧
  (c.domains = [] ∨ ∃ d ∈ c.domains, domainMatchesSpec r.domain d) ∧
  (c.tags = [] ∨ r.tag ∈ c.tags) ∧
  (r.pid ∉ c.noPids ∧ (∀ d ∈ c.noDomains, ¬ domainMatchesSpec r.domain d) ∧
    r.tag ∉ c.noTags) ∧
  ((1 <<< r.type) &&& c.noTypes = 0 ∧ (1 <<< r.level) &&& c.noLevels = 0)

instance (r : HilogData) (c : QueryCondition) : Decidable (ConditionMatchSpec r c) := by
  unfold ConditionMatchSpec; infer_instance

/-- A list is in ascending timestamp order. -/
def sortedByStamp (l : List Node) : Prop :=
  l.Pairwise (fun a b => LogTimeStamp.lt b.data.stamp a.data.stamp = false)

instance (l : List Node) : Decidable (sortedByStamp l) := by
  unfold sortedByStamp; infer_instance

/-- The timestamps of a list, front to back, as (seconds, nanoseconds). -/
def stampsOf (l : List Node) : List (Nat × Nat) :=
  l.map (fun x => (x.data.tv_sec, x.data.tv_nsec))

/-- An instance of the absent declarations, for concrete evaluations: five log types with
the kernel type last, a 1 GiB limit for `SetBuffLen`, and a record length of tag plus
content. -/
def sampleDecls : Decls :=
  { LOG_TYPE_MAX := 5
    LOG_KMSG := 4
    MAX_BUFFER_SIZE := 1073741824
    dataLen := fun m => m.tag_len + CONTENT_LEN m }

/-- A valid message of type `t` with timestamp `sec.nsec`, a two-byte tag and three bytes of
content. -/
def sampleMsg (t sec nsec : Nat) : HilogMsg :=
  { len := 29, version := 0, type := t, level := 3, tag_len := 2, tv_sec := sec,
    tv_nsec := nsec, pid := 7, tid := 7, domain := 0xd000001, tag := "t",
    content := [104, 105, 0] }

/-- The buffer after the messages `ms` have been inserted one after the other into the
initial buffer, every call reading the timestamp `slot` through `rend()`. -/
def bufferAfter (slot : LogTimeStamp) (ms : List HilogMsg) : HilogBuffer :=
  ms.foldl (fun b m => (Insert sampleDecls slot m b).2) HilogBuffer.init

/-- A condition that accepts types 0 to 4 and all levels, with one domain pattern that is
neither strict nor fuzzy. -/
def midDomainCondition : QueryCondition :=
  { types := 0x1f, levels := 0xff, pids := [], domains := [0x100000], tags := [],
    noTypes := 0, noLevels := 0, noPids := [], noDomains := [], noTags := [] }

/-- The buffer holding the timestamps 1000.0, 1000.5, 1001.0 in this order. -/
def threeSorted : HilogBuffer :=
  bufferAfter ⟨0, 0⟩ [sampleMsg 0 1000 0, sampleMsg 0 1000 500000000, sampleMsg 0 1001 0]

/-- The buffer holding the timestamps 1000.0, 1001.0 in this order. -/
def twoSorted : HilogBuffer :=
  bufferAfter ⟨0, 0⟩ [sampleMsg 0 1000 0, sampleMsg 0 1001 0]

/-- A condition that accepts types 0 to 4 and all levels and has no other term. -/
def acceptAll : QueryCondition :=
  { types := 0x1f, levels := 0xff, pids := [], domains := [], tags := [],
    noTypes := 0, noLevels := 0, noPids := [], noDomains := [], noTags := [] }

/-- A reader of the main list that accepts every record and is about to reload. -/
def sampleReader : LogReader :=
  { queryCondition := acceptAll, readPos := Iter.pastEnd ListSel.main,
    lastPos := Iter.pastEnd ListSel.main, reload := true, isNotified := false,
    sendId := 0, written := [] }

/-- The buffer holding one record of the kernel type of `sampleDecls`. -/
def oneKmsg : HilogBuffer := bufferAfter ⟨0, 0⟩ [sampleMsg 4 1000 0]

/-- A record of type 0 and level 3 with the given domain. -/
def recordOfDomain (domain : Nat) : HilogData :=
  { HilogData.ofMsg sampleDecls (sampleMsg 0 1000 0) with domain := domain }

/-- The bytes staged in the buffer of a persister: the first `offset` bytes of the mapped
region. -/
def LogPersister.staged (p : LogPersister) : List Nat := p.content.take p.offset

/-- A persister with compression algorithm `alg`, an empty staging region of ten bytes and a
fresh rotator of three files. -/
def samplePersister (alg : Nat) : LogPersister :=
  { id := 1, path := "/data/log/hilog/job", compressType := 0, compressAlg := alg, offset := 0,
    content := List.replicate 10 0, info := [], persistList := [],
    rotator := LogPersisterRotator.mk0 3 (fun _ => none) }

/-- A persister with compression algorithm `alg` and the five bytes "hello" staged. -/
def stagedPersister (alg : Nat) : LogPersister :=
  { samplePersister alg with offset := 5, content := [104, 101, 108, 108, 111, 0, 0, 0, 0, 0] }

/-- The results of the system calls of an `Init` that finds the mapped file of an earlier
run, holding "hello", and the info file holding the text written by `SetBufferOffset(5)`. -/
def restoreIO : LogPersister.InitIO :=
  { fdNew := -1, errnoEEXIST := true, fdOld := 3, infoOpened := true,
    infoText := LogPersister.hex04 5 ++ [10],
    mapped := some [104, 101, 108, 108, 111, 0, 0, 0, 0, 0], moffsetGarbage := 0 }

/-- The registries that `Init` and `Kill` calls can produce from the empty registry. -/
inductive RegistryReachable : List LogPersister → Prop where
  | empty : RegistryReachable []
  | init (io : LogPersister.InitIO) (p : LogPersister) (reg : List LogPersister) :
      RegistryReachable reg → RegistryReachable (LogPersister.Init io p reg).2.2
  | kill (id : Nat) (reg : List LogPersister) :
      RegistryReachable reg → RegistryReachable (LogPersister.Kill id reg).2

/-- No two persisters of the registry share an id or a path. -/
def uniqueJobs (reg : List LogPersister) : Prop :=
  reg.Pairwise (fun a b => a.id ≠ b.id ∧ a.path ≠ b.path)

/-- The iterator `it` is `end()` of list `sel` or stands on a node of `l`, the nodes of that
list. -/
def iterValid (sel : ListSel) (l : List Node) (it : Iter) : Prop :=
  it = Iter.pastEnd sel ∨ ∃ x ∈ l, it = Iter.node x.id

/-- Both cursors of the reader `r` are `end()` of the list the reader reads or stand on a
record resident in that list. -/
def cursorsValid (D : Decls) (b : HilogBuffer) (r : LogReader) : Prop :=
  iterValid (listOfMask D r.queryCondition.types)
      (b.getList (listOfMask D r.queryCondition.types)) r.readPos ∧
    iterValid (listOfMask D r.queryCondition.types)
      (b.getList (listOfMask D r.queryCondition.types)) r.lastPos

/-- No node of one list has the identity of a node of the other list. -/
def listsDisjoint (b : HilogBuffer) : Prop :=
  ∀ x ∈ b.hilogDataList, ∀ y ∈ b.hilogKlogList, x.id ≠ y.id

instance (sel : ListSel) (l : List Node) (it : Iter) : Decidable (iterValid sel l it) := by
  unfold iterValid; infer_instance

instance (D : Decls) (b : HilogBuffer) (r : LogReader) : Decidable (cursorsValid D b r) := by
  unfold cursorsValid; infer_instance

instance (b : HilogBuffer) : Decidable (listsDisjoint b) := by
  unfold listsDisjoint; infer_instance

/-- A reader of the main list that accepts every record, stands on the node of identity 0
and has no reload pending. -/
def firstRecordReader : LogReader :=
  { sampleReader with readPos := Iter.node 0, reload := false }

/-- The list 1000.0, 1001.0 with one registered reader standing on the first record. -/
def twoSortedWithReader : HilogBuffer :=
  AddLogReader sampleDecls firstRecordReader twoSorted

/-- The live reader registered at position `i`. -/
def liveReader (b : HilogBuffer) (i : Nat) : Option LogReader :=
  match b.logReaderList[i]? with
  | some (some r) => some r
  | _ => none

/-- The value returned by a `Query` of the reader registered at position `i`, with the
deliveries made to the reader so far: the send-id and the timestamp of each record. -/
def queryOf (D : Decls) (b : HilogBuffer) (i : Nat) :
    Option (Bool × List (Nat × Option (Nat × Nat))) :=
  (liveReader b i).bind fun r =>
    (Query D r b).map fun res =>
      (res.1, res.2.1.written.map fun w => (w.1, w.2.map fun d => (d.tv_sec, d.tv_nsec)))

/-- A reader of the main list that accepts every record, stands on the node of identity 1
and has a reload pending. -/
def reloadingReader : LogReader := { sampleReader with readPos := Iter.node 1 }

/-- A reader of the main list that accepts every record, stands on the node of identity 1
and has no reload pending. -/
def secondRecordReader : LogReader :=
  { sampleReader with readPos := Iter.node 1, reload := false }

/-- The buffer with the cap of type 0 set to 7 bytes, holding one record of type 1
(1000.0) followed by three records of type 0 (1001.0, 1002.0, 1003.0) of three content
bytes each, with the reader `r` registered. -/
def mixedWith (r : LogReader) : HilogBuffer :=
  AddLogReader sampleDecls r
    ([sampleMsg 1 1000 0, sampleMsg 0 1001 0, sampleMsg 0 1002 0, sampleMsg 0 1003 0].foldl
      (fun b m => (Insert sampleDecls ⟨0, 0⟩ m b).2)
      (SetBuffLen sampleDecls 0 7 HilogBuffer.init).2)

/-- The node of identity `id` holding the record of `sampleMsg t sec 0`. -/
def sampleNode (id t sec : Nat) : Node :=
  ⟨id, HilogData.ofMsg sampleDecls (sampleMsg t sec 0)⟩

end Hilog

namespace Hilog

/-! ## Accounting of the resident bytes -/

/-- The sum of `len - tag_len` over the records of type `t` among the nodes `l`: what the
eviction loop and `Delete` would subtract for them. -/
def typeSum (t : Nat) : List Node → Nat
  | [] => 0
  | x :: xs => if x.data.type = t then cLen x.data + typeSum t xs else typeSum t xs

/-- The counter `sizeByType[t]` is the sum of `len - tag_len` over the records of type `t`
in the list that stores this type. -/
def accounted (D : Decls) (b : HilogBuffer) (t : Nat) : Prop :=
  b.sizeByType t = typeSum t (b.getList (listOfType D t))

/-- The bound of the claim in whole numbers: `size ≤ cap × (1 − 0.05) + ele`, both sides
multiplied by 20. -/
def withinDropBound (size : Nat) (cap : Int) (ele : Nat) : Prop :=
  20 * (size : Int) ≤ 19 * cap + 20 * (ele : Int)

instance (size : Nat) (cap : Int) (ele : Nat) : Decidable (withinDropBound size cap ele) := by
  unfold withinDropBound; infer_instance

/-- The nodes `l` without the first `k` records of type `t`. -/
def removeOldest (t : Nat) : Nat → List Node → List Node
  | 0, l => l
  | _ + 1, [] => []
  | k + 1, x :: xs =>
    if x.data.type = t then removeOldest t k xs else x :: removeOldest t (k + 1) xs

/-- The sum of `len - tag_len` over the first `k` records of type `t` of `l`. -/
def oldestSum (t : Nat) : Nat → List Node → Nat
  | 0, _ => 0
  | _ + 1, [] => 0
  | k + 1, x :: xs =>
    if x.data.type = t then cLen x.data + oldestSum t k xs else oldestSum t (k + 1) xs

/-- The number of records of type `t` among the nodes `l`. -/
def countOfType (t : Nat) (l : List Node) : Nat :=
  (l.filter (fun x => decide (x.data.type = t))).length

/-- The states reached from the initial buffer by calls of `Insert` with messages whose
type is an index of the per-type arrays, by calls of `Delete`, and by the calls of
`SetBuffLen` that `ok` admits. -/
inductive BufferReachable (D : Decls) (ok : Nat → Nat → HilogBuffer → Prop) :
    HilogBuffer → Prop
  | init : BufferReachable D ok HilogBuffer.init
  | insert (slot : LogTimeStamp) (msg : HilogMsg) (b : HilogBuffer) :
      msg.type < D.LOG_TYPE_MAX → BufferReachable D ok b →
      BufferReachable D ok (Insert D slot msg b).2
  | delete (t : Nat) (b : HilogBuffer) :
      BufferReachable D ok b → BufferReachable D ok (Delete D t b).2
  | setBuffLen (t n : Nat) (b : HilogBuffer) :
      ok t n b → BufferReachable D ok b → BufferReachable D ok (SetBuffLen D t n b).2

/-- No call of `SetBuffLen` is admitted. -/
def noResize : Nat → Nat → HilogBuffer → Prop := fun _ _ _ => False

/-- The calls of `SetBuffLen` that set a cap of at least 20480 bytes, below `2^31`, and not
below the bytes resident for the type. -/
def roomyResize : Nat → Nat → HilogBuffer → Prop :=
  fun t n b => 20480 ≤ n ∧ n < 2 ^ 31 ∧ b.sizeByType t ≤ n

/-- A record of type 0 with timestamp `sec.0` whose `len - tag_len` is `c`. -/
def recordOfSize (c sec : Nat) : HilogData :=
  { len := c + 2, version := 0, type := 0, level := 3, tag_len := 2, tv_sec := sec,
    tv_nsec := 0, pid := 7, tid := 7, domain := 0xd000001, tag := "t", content := [0] }

/-- The 107 oldest records of `wideList`: 1024 bytes each, type 0, timestamps 0.0 to
106.0. -/
def wideOld : List Node :=
  (List.range 107).map (fun i => ⟨i, recordOfSize 1024 i⟩)

/-- The 2049 newest records of `wideList`: 2048 records of 1024 bytes and a last one of
12 bytes, all of type 0. -/
def wideKept : List Node :=
  (List.range 2048).map (fun i => ⟨107 + i, recordOfSize 1024 (107 + i)⟩) ++
    [⟨2155, recordOfSize 12 2155⟩]

/-- The list of 2155 records of 1024 bytes followed by one record of 12 bytes, all of
type 0, with the timestamps 0.0, 1.0, 2.0 and so on. -/
def wideList : List Node := wideOld ++ wideKept

/-- The buffer holding `wideList` under a cap of 2207541 bytes for type 0, with the
counters that go with it. -/
def wideBuffer : HilogBuffer :=
  { HilogBuffer.init with
    size := 2206732
    sizeByType := fun i => if i = 0 then 2206732 else 0
    cacheLenByType := fun i => if i = 0 then 2206732 else 0
    hilogDataList := wideList
    g_maxBufferSizeByType := fun i => if i = 0 then 2207541 else if i < 5 then 262144 else 0
    g_maxBufferSize := 6139701
    nextId := 2156 }

/-- A valid message of type 0 with timestamp `sec.0`, a two-byte tag and 1024 bytes of
content. -/
def fullMsg (sec : Nat) : HilogMsg :=
  { len := 1050, version := 0, type := 0, level := 3, tag_len := 2, tv_sec := sec,
    tv_nsec := 0, pid := 7, tid := 7, domain := 0xd000001, tag := "t",
    content := List.replicate 1023 97 ++ [0] }

end Hilog

namespace Hilog

/-- The stored length is tag plus content: with it `len - tag_len` of a stored record is the
content length `Insert` added for its message. -/
def storesContentLength (D : Decls) : Prop :=
  ∀ m : HilogMsg, D.dataLen m = m.tag_len + CONTENT_LEN m

/-- The accounting invariant of the buffer: every counter `sizeByType[t]` is the sum over
the records of type `t` in the list of that type, every record is in the list of its type
and was built from an accepted message, the caps are `int` values that are not negative,
and a counter exceeds its cap by at most one largest message, and not at all when the cap
is 20480 bytes or more. -/
structure Sound (D : Decls) (b : HilogBuffer) : Prop where
  sums : ∀ t, b.sizeByType t = typeSum t (b.getList (listOfType D t))
  home : ∀ sel, ∀ x ∈ b.getList sel, listOfType D x.data.type = sel
  made : ∀ sel, ∀ x ∈ b.getList sel,
    ∃ m : HilogMsg, m.accepted ∧ x.data = HilogData.ofMsg D m ∧ cLen x.data = CONTENT_LEN m
  caps : ∀ t, 0 ≤ b.g_maxBufferSizeByType t ∧ b.g_maxBufferSizeByType t < 2 ^ 31
  room : ∀ t, (b.sizeByType t : Int) ≤ b.g_maxBufferSizeByType t + 1024
  fits : ∀ t, 20480 ≤ b.g_maxBufferSizeByType t →
    (b.sizeByType t : Int) ≤ b.g_maxBufferSizeByType t

end Hilog

namespace Hilog

/-- Every call of `SetBuffLen` is admitted. -/
def anyResize : Nat → Nat → HilogBuffer → Prop := fun _ _ _ => True

/-- The buffer after one message of three bytes of type 0. -/
def oneRecord : HilogBuffer :=
  (Insert sampleDecls ⟨0, 0⟩ (sampleMsg 0 1000 0) HilogBuffer.init).2

/-- The buffer `oneRecord` after `SetBuffLen(0, 1)`. -/
def shrunkBelowResident : HilogBuffer := (SetBuffLen sampleDecls 0 1 oneRecord).2

/-- The buffer `oneRecord` after `SetBuffLen(0, 30000)`. -/
def resizedRoomy : HilogBuffer := (SetBuffLen sampleDecls 0 30000 oneRecord).2

end Hilog

namespace Hilog

/-- The sum of the counters `sizeByType[t]` over the indices `t < n` of the array. -/
def sizeTotal (b : HilogBuffer) (n : Nat) : Nat := ((List.range n).map b.sizeByType).sum

end Hilog

namespace Hilog

/-! ## Calls on a registered reader -/

/-- The call `Query` on the reader registered at position `i`: the returned value and the
buffer afterwards, in which the registry refers to the reader as the call left it. -/
def queryAt (D : Decls) (i : Nat) (b : HilogBuffer) : Option (Bool × HilogBuffer) :=
  (liveReader b i).bind fun r =>
    (Query D r b).map fun res =>
      (res.1, { res.2.2 with logReaderList := res.2.2.logReaderList.set i (some res.2.1) })

/-- The assignment `isNotified = true` of `NotifyForNewData` on the reader registered at
position `i`. -/
def notifyAt (i : Nat) (b : HilogBuffer) : HilogBuffer :=
  { b with logReaderList :=
      b.logReaderList.modify (Option.map (fun r => { r with isNotified := true })) i }

/-- The initial buffer with the reader `sampleReader` registered. -/
def registeredStart : HilogBuffer := AddLogReader sampleDecls sampleReader HilogBuffer.init

/-- The reader consumes the record 1000.0 of type 0 and reaches the end of the list; then
the record 1001.0 of type 1 is inserted, `Delete(0)` erases the consumed record, and the
reader is notified. -/
def resumeAfterDelete : Option HilogBuffer :=
  (queryAt sampleDecls 0
      (Insert sampleDecls ⟨0, 0⟩ (sampleMsg 0 1000 0) registeredStart).2).bind fun q1 =>
    (queryAt sampleDecls 0 q1.2).bind fun q2 =>
      some (notifyAt 0
        (Delete sampleDecls 0 (Insert sampleDecls ⟨0, 0⟩ (sampleMsg 1 1001 0) q2.2).2).2)

/-- The identities and the seconds of the records of the main list, with the cursors and the
notification flag of the reader registered at position 0. -/
def cursorView (b : HilogBuffer) : List (Nat × Nat) × Option (Iter × Iter × Bool) :=
  (b.hilogDataList.map (fun x => (x.id, x.data.tv_sec)),
   (liveReader b 0).map (fun r => (r.readPos, r.lastPos, r.isNotified)))

/-- The outcome of the loop of `Query` for `sampleReader` on the buffer `oneRecord`, after
the reload adjustment has put both cursors on the first record. -/
def firstQuery : Bool × LogReader × HilogBuffer :=
  queryLoop ListSel.main oneRecord.hilogDataList
    (applyReload ListSel.main oneRecord.hilogDataList sampleReader) oneRecord

/-- A valid message of type 0 whose ten content bytes are the lines aaaa and bbbb and the
terminating zero byte. -/
def linesMsg : HilogMsg :=
  { sampleMsg 0 1000 0 with
    len := 36, content := [97, 97, 97, 97, 10, 98, 98, 98, 98, 0] }

/-- The buffer after the message `linesMsg`. -/
def linesRecord : HilogBuffer := (Insert sampleDecls ⟨0, 0⟩ linesMsg HilogBuffer.init).2

/-- A reader like `sampleReader` that is a `LogPersister` with no line waiting. -/
def renderingReader : LogReader := { sampleReader with rendering := true }

/-- The reader `sampleReader` as a `Query` on an empty list leaves it, with both cursors at
the end of the list, once it has been notified. -/
def notifiedAtEnd : LogReader := { sampleReader with reload := false, isNotified := true }

end Hilog

namespace Hilog

/-! ## Structural lemmas on the operations -/

theorem Insert_of_accepted (D : Decls) (slot : LogTimeStamp) (msg : HilogMsg)
    (b : HilogBuffer) (h : msg.accepted) :
    Insert D slot msg b =
      (CONTENT_LEN msg,
       account msg (CONTENT_LEN msg)
         (emplace D slot (listOfType D msg.type) msg
           (evictIfFull (listOfType D msg.type) msg b))) := by
  unfold Insert; rw [if_neg h]

theorem Insert_of_not_accepted (D : Decls) (slot : LogTimeStamp) (msg : HilogMsg)
    (b : HilogBuffer) (h : ¬ msg.accepted) : Insert D slot msg b = (0, b) := by
  unfold Insert; rw [if_pos (not_not.mp h)]

@[simp] theorem getList_setList_same (b : HilogBuffer) (sel : ListSel) (l : List Node) :
    (b.setList sel l).getList sel = l := by
  cases sel <;> rfl

theorem getList_setList_ne (b : HilogBuffer) (sel sel' : ListSel) (l : List Node)
    (h : sel' ≠ sel) : (b.setList sel l).getList sel' = b.getList sel' := by
  cases sel <;> cases sel' <;> first | rfl | exact absurd rfl h

@[simp] theorem setList_sizeByType (b : HilogBuffer) (sel : ListSel) (l : List Node) :
    (b.setList sel l).sizeByType = b.sizeByType := by
  cases sel <;> rfl

@[simp] theorem setList_readers (b : HilogBuffer) (sel : ListSel) (l : List Node) :
    (b.setList sel l).logReaderList = b.logReaderList := by
  cases sel <;> rfl

@[simp] theorem setList_caps (b : HilogBuffer) (sel : ListSel) (l : List Node) :
    (b.setList sel l).g_maxBufferSizeByType = b.g_maxBufferSizeByType := by
  cases sel <;> rfl

@[simp] theorem setList_nextId (b : HilogBuffer) (sel : ListSel) (l : List Node) :
    (b.setList sel l).nextId = b.nextId := by
  cases sel <;> rfl

@[simp] theorem setList_size (b : HilogBuffer) (sel : ListSel) (l : List Node) :
    (b.setList sel l).size = b.size := by
  cases sel <;> rfl

@[simp] theorem account_getList (msg : HilogMsg) (e : Nat) (b : HilogBuffer) (sel : ListSel) :
    (account msg e b).getList sel = b.getList sel := by
  cases sel <;> rfl

@[simp] theorem emplace_getList_same (D : Decls) (slot : LogTimeStamp) (sel : ListSel)
    (msg : HilogMsg) (b : HilogBuffer) :
    (emplace D slot sel msg b).getList sel =
      place slot msg.stamp ⟨b.nextId, HilogData.ofMsg D msg⟩ (b.getList sel) := by
  cases sel <;> rfl

theorem emplace_getList_ne (D : Decls) (slot : LogTimeStamp) (sel sel' : ListSel)
    (msg : HilogMsg) (b : HilogBuffer) (h : sel' ≠ sel) :
    (emplace D slot sel msg b).getList sel' = b.getList sel' := by
  cases sel <;> cases sel' <;> first | rfl | exact absurd rfl h

@[simp] theorem emplace_sizeByType (D : Decls) (slot : LogTimeStamp) (sel : ListSel)
    (msg : HilogMsg) (b : HilogBuffer) :
    (emplace D slot sel msg b).sizeByType = b.sizeByType := by
  cases sel <;> rfl

@[simp] theorem emplace_readers (D : Decls) (slot : LogTimeStamp) (sel : ListSel)
    (msg : HilogMsg) (b : HilogBuffer) :
    (emplace D slot sel msg b).logReaderList = b.logReaderList := by
  cases sel <;> rfl

@[simp] theorem emplace_caps (D : Decls) (slot : LogTimeStamp) (sel : ListSel)
    (msg : HilogMsg) (b : HilogBuffer) :
    (emplace D slot sel msg b).g_maxBufferSizeByType = b.g_maxBufferSizeByType := by
  cases sel <;> rfl

theorem place_eq_insert (slot ts : LogTimeStamp) (nd : Node) (l : List Node) :
    ∃ k, place slot ts nd l = l.take k ++ nd :: l.drop k := by
  unfold place
  split
  · exact ⟨l.length, by simp⟩
  · exact ⟨_, rfl⟩

theorem sublist_place (slot ts : LogTimeStamp) (nd : Node) (l : List Node) :
    l.Sublist (place slot ts nd l) := by
  obtain ⟨k, hk⟩ := place_eq_insert slot ts nd l
  rw [hk]
  conv_lhs => rw [← List.take_append_drop k l]
  exact List.Sublist.append (List.Sublist.refl _) (List.sublist_cons_self _ _)

theorem place_perm (slot ts : LogTimeStamp) (nd : Node) (l : List Node) :
    (place slot ts nd l).Perm (nd :: l) := by
  obtain ⟨k, hk⟩ := place_eq_insert slot ts nd l
  rw [hk]
  refine List.perm_middle.trans ?_
  rw [List.take_append_drop]

theorem mem_place (slot ts : LogTimeStamp) (nd : Node) (l : List Node) (y : Node) :
    y ∈ place slot ts nd l ↔ y = nd ∨ y ∈ l := by
  rw [(place_perm slot ts nd l).mem_iff, List.mem_cons]

/-! ### The eviction loop -/

theorem dropOld_sizeByType_ne (sel : ListSel) (t t' : Nat) (h : t' ≠ t) (l : List Node) :
    ∀ b : HilogBuffer, (dropOld sel t l b).2.sizeByType t' = b.sizeByType t' := by
  induction l with
  | nil => intro b; rfl
  | cons x xs ih =>
    intro b
    unfold dropOld
    split
    · split
      · exact ih b
      · rename_i hx
        rw [ih]
        have hx' : x.data.type = t := not_not.mp hx
        simp only [eraseStep]
        rw [if_neg (by rw [hx']; exact h)]
    · rfl

theorem dropOld_caps (sel : ListSel) (t : Nat) (l : List Node) :
    ∀ b : HilogBuffer,
      (dropOld sel t l b).2.g_maxBufferSizeByType = b.g_maxBufferSizeByType := by
  induction l with
  | nil => intro b; rfl
  | cons x xs ih =>
    intro b
    unfold dropOld
    split
    · split
      · exact ih b
      · rw [ih]; rfl
    · rfl

theorem dropOld_nextId (sel : ListSel) (t : Nat) (l : List Node) :
    ∀ b : HilogBuffer, (dropOld sel t l b).2.nextId = b.nextId := by
  induction l with
  | nil => intro b; rfl
  | cons x xs ih =>
    intro b
    unfold dropOld
    split
    · split
      · exact ih b
      · rw [ih]; rfl
    · rfl

theorem dropOld_getList (sel sel' : ListSel) (t : Nat) (l : List Node) :
    ∀ b : HilogBuffer, (dropOld sel t l b).2.getList sel' = b.getList sel' := by
  induction l with
  | nil => intro b; rfl
  | cons x xs ih =>
    intro b
    unfold dropOld
    split
    · split
      · exact ih b
      · rw [ih]; cases sel' <;> rfl
    · rfl

theorem dropOld_sublist (sel : ListSel) (t : Nat) (l : List Node) :
    ∀ b : HilogBuffer, (dropOld sel t l b).1.Sublist l := by
  induction l with
  | nil => intro b; exact List.Sublist.refl _
  | cons x xs ih =>
    intro b
    unfold dropOld
    split
    · split
      · exact (ih b).cons₂ x
      · exact (ih _).cons x
    · exact List.Sublist.refl _

theorem dropOld_keeps_other_types (sel : ListSel) (t : Nat) (l : List Node) :
    ∀ b : HilogBuffer,
      (l.filter (fun x => decide (x.data.type ≠ t))).Sublist (dropOld sel t l b).1 := by
  induction l with
  | nil => intro b; exact List.Sublist.refl _
  | cons x xs ih =>
    intro b
    unfold dropOld
    split
    · split
      · rename_i hx
        rw [List.filter_cons_of_pos (by simpa using hx)]
        exact (ih b).cons₂ x
      · rename_i hx
        rw [List.filter_cons_of_neg (by simpa using hx)]
        exact ih _
    · exact List.filter_sublist _

/-! ### The loop of `Delete` -/

theorem eraseStep_getList (sel sel' : ListSel) (x : Node) (xs : List Node) (b : HilogBuffer) :
    (eraseStep sel x xs b).getList sel' = b.getList sel' := by
  cases sel' <;> rfl

theorem deleteLoop_getList (sel sel' : ListSel) (t : Nat) (l : List Node) :
    ∀ (sum : Nat) (b : HilogBuffer),
      (deleteLoop sel t l sum b).2.2.getList sel' = b.getList sel' := by
  induction l with
  | nil => intro sum b; rfl
  | cons x xs ih =>
    intro sum b
    unfold deleteLoop
    split
    · exact ih sum b
    · rw [ih, eraseStep_getList]

theorem deleteLoop_caps (sel : ListSel) (t : Nat) (l : List Node) :
    ∀ (sum : Nat) (b : HilogBuffer),
      (deleteLoop sel t l sum b).2.2.g_maxBufferSizeByType = b.g_maxBufferSizeByType := by
  induction l with
  | nil => intro sum b; rfl
  | cons x xs ih =>
    intro sum b
    unfold deleteLoop
    split
    · exact ih sum b
    · rw [ih]; rfl

theorem deleteLoop_nextId (sel : ListSel) (t : Nat) (l : List Node) :
    ∀ (sum : Nat) (b : HilogBuffer), (deleteLoop sel t l sum b).2.2.nextId = b.nextId := by
  induction l with
  | nil => intro sum b; rfl
  | cons x xs ih =>
    intro sum b
    unfold deleteLoop
    split
    · exact ih sum b
    · rw [ih]; rfl

theorem deleteLoop_sublist (sel : ListSel) (t : Nat) (l : List Node) :
    ∀ (sum : Nat) (b : HilogBuffer), (deleteLoop sel t l sum b).1.Sublist l := by
  induction l with
  | nil => intro sum b; exact List.Sublist.refl _
  | cons x xs ih =>
    intro sum b
    unfold deleteLoop
    split
    · exact (ih sum b).cons₂ x
    · exact (ih _ _).cons x

/-! ### The match predicate -/

theorem deleteLoop_nil_of_no_type (sel : ListSel) (t : Nat) (l : List Node) :
    ∀ (sum : Nat) (b : HilogBuffer), (∀ x ∈ l, x.data.type ≠ t) →
      deleteLoop sel t l sum b = (l, sum, b) := by
  induction l with
  | nil => intro sum b _; rfl
  | cons x xs ih =>
    intro sum b h
    unfold deleteLoop
    rw [if_pos (h x (List.mem_cons_self _ _)),
      ih sum b (fun y hy => h y (List.mem_cons_of_mem _ hy))]

theorem ite_false_eq_true (P : Prop) [Decidable P] (b : Bool) :
    (if P then false else b) = true ↔ ¬P ∧ b = true := by
  by_cases h : P <;> simp [h]

theorem length_pos_and_not_any {α : Type} (l : List α) (p : α → Bool) :
    ¬(l.length > 0 ∧ (!l.any p) = true) ↔ (l = [] ∨ ∃ x ∈ l, p x = true) := by
  cases l with
  | nil => simp
  | cons a t =>
    simp only [List.length_cons, gt_iff_lt, Nat.zero_lt_succ, true_and, Bool.not_eq_true',
      Bool.not_eq_false, List.any_eq_true, false_or, reduceCtorEq]

/-- The value of `ConditionMatch` as a conjunction of its tests. -/
theorem ConditionMatch_iff (r : HilogData) (c : QueryCondition) :
    ConditionMatch r c = true ↔
      (maskBit8 r.type c.types ≠ 0 ∧ maskBit8 r.level c.levels ≠ 0) ∧
      (c.pids = [] ∨ r.pid ∈ c.pids) ∧
      (c.domains = [] ∨ ∃ d ∈ c.domains, domainIncluded r.domain d = true) ∧
      (c.tags = [] ∨ r.tag ∈ c.tags) ∧
      r.pid ∉ c.noPids ∧
      (∀ d ∈ c.noDomains, domainExcluded r.domain d = false) ∧
      r.tag ∉ c.noTags ∧
      (maskBit8 r.type c.noTypes = 0 ∧ maskBit8 r.level c.noLevels = 0) := by
  unfold ConditionMatch
  simp only [ite_false_eq_true, length_pos_and_not_any]
  refine and_congr (by tauto) (and_congr ?_ (and_congr Iff.rfl (and_congr ?_ (and_congr ?_
    (and_congr ?_ (and_congr ?_ ?_))))))
  · simp
  · simp
  · simp
  · simp
  · simp
  · simp only [and_true]; tauto

end Hilog

namespace Hilog

/-! ## C1: validation in `Insert` -/

theorem CONTENT_LEN_of_ge (m : HilogMsg) (hl : m.len < 2 ^ 16) (ht : m.tag_len < 64)
    (h : HILOG_MSG_SIZE + m.tag_len ≤ m.len) :
    CONTENT_LEN m = m.len - HILOG_MSG_SIZE - m.tag_len := by
  unfold CONTENT_LEN subSz SIZE_MOD HILOG_MSG_SIZE at *
  omega

theorem CONTENT_LEN_of_lt (m : HilogMsg) (hl : m.len < 2 ^ 16) (ht : m.tag_len < 64)
    (h : m.len < HILOG_MSG_SIZE + m.tag_len) :
    MAX_LOG_LEN < CONTENT_LEN m := by
  unfold CONTENT_LEN subSz SIZE_MOD HILOG_MSG_SIZE MAX_LOG_LEN at *
  omega

/-- C1: `Insert` returns 0 and leaves the whole buffer (both lists, `size`, `sizeByType`, the
`cacheLen` counters) unchanged when `tag_len` is 0 or above 32 or when the content length
`len - sizeof(header) - tag_len` is not in (0, 1024], which includes every `len` below
header plus `tag_len`; for every other message it returns that content length. -/
theorem Insert_rejects_or_returns_content_len (D : Decls) (slot : LogTimeStamp)
    (msg : HilogMsg) (b : HilogBuffer) (hr : msg.inRange) :
    ((msg.tag_len = 0 ∨ 32 < msg.tag_len ∨ msg.len ≤ 24 + msg.tag_len ∨
        24 + msg.tag_len + 1024 < msg.len) → Insert D slot msg b = (0, b)) ∧
    (¬(msg.tag_len = 0 ∨ 32 < msg.tag_len ∨ msg.len ≤ 24 + msg.tag_len ∨
        24 + msg.tag_len + 1024 < msg.len) →
      (Insert D slot msg b).1 = msg.len - 24 - msg.tag_len) := by
  obtain ⟨hl, -, -, -, ht⟩ := hr
  have hge := CONTENT_LEN_of_ge msg hl ht
  have hlt := CONTENT_LEN_of_lt msg hl ht
  constructor
  · intro h
    have hbad : msg.tag_len > MAX_TAG_LEN ∨ msg.tag_len = 0 ∨ CONTENT_LEN msg > MAX_LOG_LEN ∨
        CONTENT_LEN msg = 0 := by
      simp only [MAX_TAG_LEN, MAX_LOG_LEN, HILOG_MSG_SIZE] at *
      omega
    simp only [Insert, if_pos hbad]
  · intro h
    have hgood : ¬(msg.tag_len > MAX_TAG_LEN ∨ msg.tag_len = 0 ∨
        CONTENT_LEN msg > MAX_LOG_LEN ∨ CONTENT_LEN msg = 0) := by
      simp only [MAX_TAG_LEN, MAX_LOG_LEN, HILOG_MSG_SIZE] at *
      omega
    have h24 : HILOG_MSG_SIZE + msg.tag_len ≤ msg.len := by
      simp only [HILOG_MSG_SIZE]; omega
    have e : (Insert D slot msg b).1 = CONTENT_LEN msg := by
      simp only [Insert, if_neg hgood]
    rw [e, hge h24]; rfl

/-- Witness for C1: a message with a six-bit `tag_len` of 40 is rejected with the buffer
unchanged, and the three content bytes of a valid message are returned. -/
theorem Insert_rejects_or_returns_content_len_witness :
    Insert sampleDecls ⟨0, 0⟩ { sampleMsg 0 1000 0 with tag_len := 40 } HilogBuffer.init =
        (0, HilogBuffer.init) ∧
      (Insert sampleDecls ⟨0, 0⟩ (sampleMsg 0 1000 0) HilogBuffer.init).1 = 29 - 24 - 2 :=
  ⟨(Insert_rejects_or_returns_content_len sampleDecls ⟨0, 0⟩
      { sampleMsg 0 1000 0 with tag_len := 40 } HilogBuffer.init (by decide)).1 (by decide),
   (Insert_rejects_or_returns_content_len sampleDecls ⟨0, 0⟩ (sampleMsg 0 1000 0)
      HilogBuffer.init (by decide)).2 (by decide)⟩

/-! ## C2: the inclusion test on domains -/

/-- C2: the code departs from the stated equivalence on a domain pattern that is neither
strict nor fuzzy.  With `domains = [0x100000]` the inclusion loop of `ConditionMatch` accepts
a record of domain `0xd000001`, whereas the stated rule (which the exclusion loop
implements) has no pattern matching it. -/
theorem ConditionMatch_accepts_mid_range_domain :
    ConditionMatch (HilogData.ofMsg sampleDecls (sampleMsg 0 1000 0)) midDomainCondition = true ∧
      ¬ ConditionMatchSpec (HilogData.ofMsg sampleDecls (sampleMsg 0 1000 0))
          midDomainCondition ∧
      domainExcluded 0xd000001 0x100000 = false := by
  decide


end Hilog

namespace Hilog

/-! ## C3 and C4: placement of the new record -/

theorem place_of_lt_slot (slot ts : LogTimeStamp) (nd : Node) (l : List Node)
    (h : LogTimeStamp.lt ts slot = true) : place slot ts nd l = l ++ [nd] := by
  unfold place
  rw [if_pos (Or.inr (Or.inl h))]

theorem lt_zero_stamp (ts : LogTimeStamp) : LogTimeStamp.lt ts ⟨0, 0⟩ = false := by
  simp [LogTimeStamp.lt]

/-- On a list of two or more records the value read through `rend()` enters the placement
only through the comparison of line 101. -/
theorem place_slot_irrelevant (slot ts : LogTimeStamp) (nd : Node) (l : List Node)
    (hl : 2 ≤ l.length) (h : LogTimeStamp.lt ts slot = false) :
    place slot ts nd l = place ⟨0, 0⟩ ts nd l := by
  have hrev : ∃ x y rest, l.reverse = x :: y :: rest := by
    cases hr : l.reverse with
    | nil =>
      have := congrArg List.length hr
      rw [List.length_reverse, List.length_nil] at this; omega
    | cons x t =>
      cases t with
      | nil =>
        have := congrArg List.length hr
        rw [List.length_reverse, List.length_singleton] at this; omega
      | cons y rest => exact ⟨x, y, rest, rfl⟩
  obtain ⟨x, y, rest, hr⟩ := hrev
  unfold place
  rw [hr, h, lt_zero_stamp]
  rfl

theorem Insert_list_of_not_full (D : Decls) (slot : LogTimeStamp) (msg : HilogMsg)
    (b : HilogBuffer) (ha : msg.accepted)
    (hnf : ¬ (addSz (CONTENT_LEN msg) (b.sizeByType msg.type) ≥
      intToSz (b.g_maxBufferSizeByType msg.type))) :
    (Insert D slot msg b).2.getList (listOfType D msg.type) =
      place slot msg.stamp ⟨b.nextId, HilogData.ofMsg D msg⟩
        (b.getList (listOfType D msg.type)) := by
  rw [Insert_of_accepted D slot msg b ha]
  simp only [account_getList, emplace_getList_same]
  unfold evictIfFull
  rw [if_neg hnf]

/-- C3: with the list 1000.0, 1000.5, 1001.0 (sorted) and the valid message 1000.2 (not
older than the head, older than the tail, within 5 seconds of it), the list after `Insert`
is not in ascending order, whatever is read through `rend()`: the walk from the tail passes
the record 1000.0 before it stops, and the new record lands in front of it (or at the tail
when the value read through `rend()` is above the message's timestamp). -/
theorem Insert_walk_back_breaks_order :
    sortedByStamp threeSorted.hilogDataList ∧
    stampsOf (Insert sampleDecls ⟨0, 0⟩ (sampleMsg 0 1000 200000000)
        threeSorted).2.hilogDataList =
      [(1000, 200000000), (1000, 0), (1000, 500000000), (1001, 0)] ∧
    ∀ slot : LogTimeStamp, ¬ sortedByStamp
      (Insert sampleDecls slot (sampleMsg 0 1000 200000000) threeSorted).2.hilogDataList := by
  refine ⟨by decide, by decide, fun slot => ?_⟩
  have e := Insert_list_of_not_full sampleDecls slot (sampleMsg 0 1000 200000000)
    threeSorted (by decide) (by decide)
  have hsel : listOfType sampleDecls (sampleMsg 0 1000 200000000).type = ListSel.main := by
    decide
  rw [hsel] at e
  change (Insert sampleDecls slot (sampleMsg 0 1000 200000000) threeSorted).2.hilogDataList =
    _ at e
  rw [e]
  cases h : LogTimeStamp.lt (sampleMsg 0 1000 200000000).stamp slot
  · rw [place_slot_irrelevant _ _ _ _ (by decide) h]; decide
  · rw [place_of_lt_slot _ _ _ _ h]; decide

/-- C4: with the list 1000.0, 1001.0 and the valid message 999.5, which is older than the
head, `Insert` puts the new record at the front, not at the tail, unless the value read
through `rend()` happens to be above 999.5: the comparison of line 101 is made with that
value, not with the head's timestamp. -/
theorem Insert_older_than_head_goes_to_front :
    LogTimeStamp.lt (sampleMsg 0 999 500000000).stamp
        (readStamp ⟨0, 0⟩ twoSorted.hilogDataList) = true ∧
    ∀ slot : LogTimeStamp, LogTimeStamp.lt (sampleMsg 0 999 500000000).stamp slot = true ∨
      stampsOf (Insert sampleDecls slot (sampleMsg 0 999 500000000) twoSorted).2.hilogDataList =
        [(999, 500000000), (1000, 0), (1001, 0)] := by
  refine ⟨by decide, fun slot => ?_⟩
  cases h : LogTimeStamp.lt (sampleMsg 0 999 500000000).stamp slot
  · right
    have e := Insert_list_of_not_full sampleDecls slot (sampleMsg 0 999 500000000)
      twoSorted (by decide) (by decide)
    have hsel : listOfType sampleDecls (sampleMsg 0 999 500000000).type = ListSel.main := by
      decide
    rw [hsel] at e
    change (Insert sampleDecls slot (sampleMsg 0 999 500000000) twoSorted).2.hilogDataList =
      _ at e
    rw [e, place_slot_irrelevant _ _ _ _ (by decide) h]; decide
  · left; rfl

end Hilog

namespace Hilog

/-! ## Lemmas on the single-precision rounding -/

theorem shiftFor_spec (n : Nat) :
    ∀ (f s0 : Nat), n / 2 ^ (s0 + f) < 2 ^ 24 →
      n / 2 ^ shiftFor f n s0 < 2 ^ 24 ∧ s0 ≤ shiftFor f n s0 ∧
      (shiftFor f n s0 = s0 ∨ 2 ^ 24 ≤ n / 2 ^ (shiftFor f n s0 - 1)) := by
  intro f
  induction f with
  | zero =>
    intro s0 h
    exact ⟨by simpa [shiftFor] using h, Nat.le_refl _, Or.inl rfl⟩
  | succ f ih =>
    intro s0 h
    unfold shiftFor
    by_cases hc : n / 2 ^ s0 < 2 ^ 24
    · rw [if_pos hc]
      exact ⟨hc, Nat.le_refl _, Or.inl rfl⟩
    · rw [if_neg hc]
      obtain ⟨h1, h2, h3⟩ := ih (s0 + 1) (by rw [show s0 + 1 + f = s0 + (f + 1) by omega]; exact h)
      refine ⟨h1, by omega, Or.inr ?_⟩
      rcases h3 with h3 | h3
      · rw [h3, Nat.add_sub_cancel]
        exact Nat.le_of_not_lt hc
      · exact h3

theorem shiftFor_self_spec (n : Nat) :
    n / 2 ^ shiftFor n n 0 < 2 ^ 24 ∧
      (shiftFor n n 0 = 0 ∨ 2 ^ 24 ≤ n / 2 ^ (shiftFor n n 0 - 1)) := by
  have h : n / 2 ^ (0 + n) < 2 ^ 24 := by
    rw [Nat.zero_add, Nat.div_eq_of_lt (Nat.lt_two_pow n)]
    exact Nat.two_pow_pos 24
  obtain ⟨h1, -, h3⟩ := shiftFor_spec n n 0 h
  exact ⟨h1, h3⟩

theorem round24_small (n : Nat) (h : n < 2 ^ 24) : round24 n = n := by
  have hs : shiftFor n n 0 = 0 := by
    rcases (shiftFor_self_spec n).2 with h0 | h0
    · exact h0
    · exfalso
      have : n / 2 ^ (shiftFor n n 0 - 1) ≤ n := Nat.div_le_self _ _
      omega
  unfold round24
  rw [if_pos hs]

/-- The decomposition behind the rounding of a number of more than 24 bits: with
`s` the shift, `u = 2^(s-1)` and `q = n / 2^s` (a number of exactly 24 bits), the number is
`2 q u + r` with `r < 2 u`, and the rounding is `2 q u` or `2 (q + 1) u` by round-half-even. -/
theorem round24_large (n : Nat) (h : shiftFor n n 0 ≠ 0) :
    ∃ q r, n = 2 * (q * 2 ^ (shiftFor n n 0 - 1)) + r ∧ r < 2 * 2 ^ (shiftFor n n 0 - 1) ∧
      2 ^ 23 ≤ q ∧ q < 2 ^ 24 ∧
      (round24 n = 2 * (q * 2 ^ (shiftFor n n 0 - 1)) ∧
          (r < 2 ^ (shiftFor n n 0 - 1) ∨ r = 2 ^ (shiftFor n n 0 - 1) ∧ q % 2 = 0) ∨
       round24 n = 2 * ((q + 1) * 2 ^ (shiftFor n n 0 - 1)) ∧
          (2 ^ (shiftFor n n 0 - 1) < r ∨ r = 2 ^ (shiftFor n n 0 - 1) ∧ q % 2 = 1)) := by
  obtain ⟨h1, h2⟩ := shiftFor_self_spec n
  have h2' : 2 ^ 24 ≤ n / 2 ^ (shiftFor n n 0 - 1) := by
    rcases h2 with h2 | h2
    · exact absurd h2 h
    · exact h2
  have hs : shiftFor n n 0 = (shiftFor n n 0 - 1) + 1 := by omega
  have hpow : 2 ^ shiftFor n n 0 = 2 * 2 ^ (shiftFor n n 0 - 1) := by
    conv_lhs => rw [hs]
    rw [Nat.pow_succ, Nat.mul_comm]
  have hdm := Nat.div_add_mod n (2 ^ shiftFor n n 0)
  have hr : n % 2 ^ shiftFor n n 0 < 2 ^ shiftFor n n 0 := Nat.mod_lt _ (Nat.two_pow_pos _)
  have hq : 2 ^ 23 ≤ n / 2 ^ shiftFor n n 0 := by
    rw [hpow, Nat.mul_comm, ← Nat.div_div_eq_div_mul]
    omega
  have hmul : n / 2 ^ shiftFor n n 0 * 2 ^ shiftFor n n 0 =
      2 * (n / 2 ^ shiftFor n n 0 * 2 ^ (shiftFor n n 0 - 1)) := by
    rw [hpow]; ring
  have hmul' : (n / 2 ^ shiftFor n n 0 + 1) * 2 ^ shiftFor n n 0 =
      2 * ((n / 2 ^ shiftFor n n 0 + 1) * 2 ^ (shiftFor n n 0 - 1)) := by
    rw [hpow]; ring
  refine ⟨n / 2 ^ shiftFor n n 0, n % 2 ^ shiftFor n n 0, ?_, by rw [← hpow]; exact hr,
    hq, h1, ?_⟩
  · rw [← hmul, Nat.mul_comm]; exact hdm.symm
  · unfold round24
    rw [if_neg h]
    by_cases c1 : n % 2 ^ shiftFor n n 0 < 2 ^ (shiftFor n n 0 - 1)
    · rw [if_pos c1]; exact Or.inl ⟨hmul, Or.inl c1⟩
    · rw [if_neg c1]
      by_cases c2 : 2 ^ (shiftFor n n 0 - 1) < n % 2 ^ shiftFor n n 0
      · rw [if_pos c2]; exact Or.inr ⟨hmul', Or.inl c2⟩
      · rw [if_neg c2]
        have e : n % 2 ^ shiftFor n n 0 = 2 ^ (shiftFor n n 0 - 1) := by omega
        by_cases c3 : n / 2 ^ shiftFor n n 0 % 2 = 0
        · rw [if_pos c3]; exact Or.inl ⟨hmul, Or.inr ⟨e, c3⟩⟩
        · rw [if_neg c3]; exact Or.inr ⟨hmul', Or.inr ⟨e, by omega⟩⟩

/-- The rounding is within one part in `2^24` of its argument. -/
theorem round24_bounds (n : Nat) :
    (2 ^ 24 - 1) * n ≤ 2 ^ 24 * round24 n ∧ 2 ^ 24 * round24 n ≤ (2 ^ 24 + 1) * n := by
  by_cases h : shiftFor n n 0 = 0
  · have : round24 n = n := by unfold round24; rw [if_pos h]
    rw [this]
    constructor
    · exact Nat.mul_le_mul_right _ (by omega)
    · exact Nat.mul_le_mul_right _ (by omega)
  · obtain ⟨q, r, hn, hr, hq1, hq2, hround⟩ := round24_large n h
    have hw : 2 ^ 23 * 2 ^ (shiftFor n n 0 - 1) ≤ q * 2 ^ (shiftFor n n 0 - 1) :=
      Nat.mul_le_mul_right _ hq1
    have hadd : (q + 1) * 2 ^ (shiftFor n n 0 - 1) =
        q * 2 ^ (shiftFor n n 0 - 1) + 2 ^ (shiftFor n n 0 - 1) := by ring
    generalize 2 ^ (shiftFor n n 0 - 1) = u at *
    generalize q * u = w at *
    rcases hround with ⟨he, hc⟩ | ⟨he, hc⟩
    · rw [he, hn]; constructor <;> omega
    · rw [he, hn, hadd]; constructor <;> omega

/-- The exact form of the threshold for small caps: a size at which the eviction loop stops
under a cap of at most `2^21` bytes is at most 95% of the cap. -/
theorem exceedsDropLimit_false_exact (sz : Nat) (cap : Int) (h0 : 0 ≤ cap)
    (h1 : cap ≤ 2 ^ 21) (h : exceedsDropLimit sz cap = false) : 20 * (sz : Int) ≤ 19 * cap := by
  obtain ⟨c, rfl⟩ := Int.eq_ofNat_of_zero_le h0
  have hc : c ≤ 2 ^ 21 := by exact_mod_cast h1
  unfold exceedsDropLimit at h
  rw [if_neg (by omega)] at h
  have hlt : ¬ round24 (round24 (Int.toNat (c : Int)) * oneMinusDropRatio) <
      round24 sz * 2 ^ 28 := by simpa using h
  rw [Int.toNat_ofNat, round24_small c (by omega)] at hlt
  have homd : oneMinusDropRatio = 255013680 := by decide
  rw [homd] at hlt
  -- the size has at most 24 bits
  have hB := (round24_bounds (c * 255013680)).2
  have hsz : sz < 2 ^ 24 := by
    by_contra hbig
    have hs0 : shiftFor sz sz 0 ≠ 0 := by
      intro h0
      have := (shiftFor_self_spec sz).1
      rw [h0] at this
      simp at this
      omega
    obtain ⟨q, r, hn, hr, hq1, hq2, hround⟩ := round24_large sz hs0
    have hu : 1 ≤ 2 ^ (shiftFor sz sz 0 - 1) := Nat.one_le_two_pow
    have hw : 2 ^ 23 * 1 ≤ q * 2 ^ (shiftFor sz sz 0 - 1) := Nat.mul_le_mul hq1 hu
    have hadd : (q + 1) * 2 ^ (shiftFor sz sz 0 - 1) =
        q * 2 ^ (shiftFor sz sz 0 - 1) + 2 ^ (shiftFor sz sz 0 - 1) := by ring
    generalize 2 ^ (shiftFor sz sz 0 - 1) = u at *
    generalize q * u = w at *
    rcases hround with ⟨he, -⟩ | ⟨he, -⟩ <;> omega
  rw [round24_small sz hsz] at hlt
  by_cases hs : shiftFor (c * 255013680) (c * 255013680) 0 = 0
  · have : round24 (c * 255013680) = c * 255013680 := by unfold round24; rw [if_pos hs]
    rw [this] at hlt
    omega
  · obtain ⟨q, r, hn, hr, hq1, hq2, hround⟩ := round24_large (c * 255013680) hs
    have hsb : shiftFor (c * 255013680) (c * 255013680) 0 - 1 < 25 := by
      by_contra hge
      have hpow : 2 ^ 25 ≤ 2 ^ (shiftFor (c * 255013680) (c * 255013680) 0 - 1) :=
        Nat.pow_le_pow_right (by omega) (by omega)
      have hw : 2 ^ 23 * 2 ^ 25 ≤ q * 2 ^ (shiftFor (c * 255013680) (c * 255013680) 0 - 1) :=
        Nat.mul_le_mul hq1 hpow
      omega
    generalize shiftFor (c * 255013680) (c * 255013680) 0 - 1 = e at *
    interval_cases e <;> rcases hround with ⟨he, hc⟩ | ⟨he, hc⟩ <;> rw [he] at hlt <;> omega

/-- The converse for small caps: a size at which the eviction loop goes on under a cap of
at most `2^21` bytes is above 95% of the cap. -/
theorem exceedsDropLimit_true_exact (sz : Nat) (cap : Int) (h0 : 0 ≤ cap)
    (h1 : cap ≤ 2 ^ 21) (h : exceedsDropLimit sz cap = true) : 19 * cap < 20 * (sz : Int) := by
  obtain ⟨c, rfl⟩ := Int.eq_ofNat_of_zero_le h0
  have hc : c ≤ 2 ^ 21 := by exact_mod_cast h1
  unfold exceedsDropLimit at h
  rw [if_neg (by omega)] at h
  have hlt : round24 (round24 (Int.toNat (c : Int)) * oneMinusDropRatio) <
      round24 sz * 2 ^ 28 := by simpa using h
  rw [Int.toNat_ofNat, round24_small c (by omega)] at hlt
  have homd : oneMinusDropRatio = 255013680 := by decide
  rw [homd] at hlt
  by_contra hnot
  have hle : 20 * sz ≤ 19 * c := by omega
  rw [round24_small sz (by omega)] at hlt
  by_cases hs : shiftFor (c * 255013680) (c * 255013680) 0 = 0
  · have hsm := (shiftFor_self_spec (c * 255013680)).1
    rw [hs] at hsm
    have : round24 (c * 255013680) = c * 255013680 := by unfold round24; rw [if_pos hs]
    rw [this] at hlt
    simp at hsm
    omega
  · obtain ⟨q, r, hn, hr, hq1, hq2, hround⟩ := round24_large (c * 255013680) hs
    have hsb : shiftFor (c * 255013680) (c * 255013680) 0 - 1 < 25 := by
      by_contra hge
      have hpow : 2 ^ 25 ≤ 2 ^ (shiftFor (c * 255013680) (c * 255013680) 0 - 1) :=
        Nat.pow_le_pow_right (by omega) (by omega)
      have hw : 2 ^ 23 * 2 ^ 25 ≤ q * 2 ^ (shiftFor (c * 255013680) (c * 255013680) 0 - 1) :=
        Nat.mul_le_mul hq1 hpow
      omega
    generalize shiftFor (c * 255013680) (c * 255013680) 0 - 1 = e at *
    interval_cases e <;> rcases hround with ⟨he, hc⟩ | ⟨he, hc⟩ <;> rw [he] at hlt <;> omega

/-- For every cap that is not negative, a size at which the eviction loop stops is at most
the cap times 0.9500002. -/
theorem exceedsDropLimit_false_approx (sz : Nat) (cap : Int) (h0 : 0 ≤ cap)
    (h : exceedsDropLimit sz cap = false) : 10000000 * (sz : Int) ≤ 9500002 * cap := by
  obtain ⟨c, rfl⟩ := Int.eq_ofNat_of_zero_le h0
  unfold exceedsDropLimit at h
  rw [if_neg (by omega)] at h
  have hlt : ¬ round24 (round24 (Int.toNat (c : Int)) * oneMinusDropRatio) <
      round24 sz * 2 ^ 28 := by simpa using h
  rw [Int.toNat_ofNat] at hlt
  have homd : oneMinusDropRatio = 255013680 := by decide
  rw [homd] at hlt
  have h1 := (round24_bounds sz).1
  have h2 := (round24_bounds c).2
  have h3 := (round24_bounds (round24 c * 255013680)).2
  generalize round24 (round24 c * 255013680) = B at *
  generalize round24 c = C at *
  generalize round24 sz = A at *
  omega

end Hilog

namespace Hilog

/-! ## Lemmas on the accounting of resident bytes -/

theorem subSz_of_le (a c : Nat) (h : c ≤ a) (ha : a < SIZE_MOD) : subSz a c = a - c := by
  unfold subSz
  have hc : c < SIZE_MOD := Nat.lt_of_le_of_lt h ha
  rw [Nat.mod_eq_of_lt ha, Nat.mod_eq_of_lt hc]
  have : a + (SIZE_MOD - c) = (a - c) + SIZE_MOD := by omega
  rw [this, Nat.add_mod_right, Nat.mod_eq_of_lt (by omega)]

theorem addSz_of_lt (a c : Nat) (h : a + c < SIZE_MOD) : addSz a c = a + c := by
  unfold addSz; exact Nat.mod_eq_of_lt h

theorem intToSz_natCast (n : Nat) (h : n < SIZE_MOD) : intToSz (n : Int) = n := by
  unfold intToSz
  rw [← Int.natCast_mod, Int.toNat_ofNat, Nat.mod_eq_of_lt h]

theorem typeSum_append (t : Nat) (l1 l2 : List Node) :
    typeSum t (l1 ++ l2) = typeSum t l1 + typeSum t l2 := by
  induction l1 with
  | nil => simp [typeSum]
  | cons x xs ih =>
    show typeSum t (x :: (xs ++ l2)) = typeSum t (x :: xs) + typeSum t l2
    simp only [typeSum, ih]
    split <;> omega

theorem typeSum_take_drop (t : Nat) (k : Nat) (nd : Node) (l : List Node) :
    typeSum t (l.take k ++ nd :: l.drop k) =
      typeSum t l + (if nd.data.type = t then cLen nd.data else 0) := by
  have h := typeSum_append t (l.take k) (l.drop k)
  rw [List.take_append_drop] at h
  rw [typeSum_append, h]
  simp only [typeSum]
  split <;> omega

theorem typeSum_place (t : Nat) (slot ts : LogTimeStamp) (nd : Node) (l : List Node) :
    typeSum t (place slot ts nd l) =
      typeSum t l + (if nd.data.type = t then cLen nd.data else 0) := by
  obtain ⟨k, hk⟩ := place_eq_insert slot ts nd l
  rw [hk, typeSum_take_drop]

theorem typeSum_uniform (t c : Nat) (l : List Node)
    (h : ∀ x ∈ l, x.data.type = t ∧ cLen x.data = c) : typeSum t l = l.length * c := by
  induction l with
  | nil => simp [typeSum]
  | cons x xs ih =>
    simp only [typeSum, List.length_cons]
    rw [if_pos (h x (List.mem_cons_self _ _)).1, (h x (List.mem_cons_self _ _)).2,
      ih (fun y hy => h y (List.mem_cons_of_mem _ hy))]
    ring

theorem eraseStep_sizeByType_same (sel : ListSel) (x : Node) (xs : List Node)
    (b : HilogBuffer) :
    (eraseStep sel x xs b).sizeByType x.data.type =
      subSz (b.sizeByType x.data.type) (cLen x.data) := by
  simp [eraseStep]

theorem eraseStep_sizeByType_ne (sel : ListSel) (x : Node) (xs : List Node)
    (b : HilogBuffer) (t : Nat) (h : t ≠ x.data.type) :
    (eraseStep sel x xs b).sizeByType t = b.sizeByType t := by
  simp [eraseStep, h]

theorem eraseStep_caps (sel : ListSel) (x : Node) (xs : List Node) (b : HilogBuffer) :
    (eraseStep sel x xs b).g_maxBufferSizeByType = b.g_maxBufferSizeByType := rfl

theorem dropOld_of_not_exceeds (sel : ListSel) (t : Nat) (l : List Node) (b : HilogBuffer)
    (h : exceedsDropLimit (b.sizeByType t) (b.g_maxBufferSizeByType t) = false) :
    dropOld sel t l b = (l, b) := by
  cases l with
  | nil => rfl
  | cons x xs => unfold dropOld; simp [h]

/-- The eviction loop keeps the counter of its type equal to the sum over the records that
remain, and it stops either below the threshold or with no record of the type left. -/
theorem dropOld_account (sel : ListSel) (t : Nat) (l : List Node) :
    ∀ b : HilogBuffer, b.sizeByType t = typeSum t l → typeSum t l < SIZE_MOD →
      (dropOld sel t l b).2.sizeByType t = typeSum t (dropOld sel t l b).1 ∧
      (exceedsDropLimit ((dropOld sel t l b).2.sizeByType t) (b.g_maxBufferSizeByType t) = false ∨
        (dropOld sel t l b).2.sizeByType t = 0) ∧
      (dropOld sel t l b).2.sizeByType t ≤ b.sizeByType t := by
  induction l with
  | nil =>
    intro b h _
    exact ⟨h, Or.inr h, Nat.le_refl _⟩
  | cons x xs ih =>
    intro b h hlt
    by_cases hg : exceedsDropLimit (b.sizeByType t) (b.g_maxBufferSizeByType t) = true
    · by_cases hx : x.data.type = t
      · have hstep : dropOld sel t (x :: xs) b = dropOld sel t xs (eraseStep sel x xs b) := by
          conv_lhs => unfold dropOld
          rw [if_pos hg, if_neg (not_not.mpr hx)]
        have hsum : typeSum t (x :: xs) = cLen x.data + typeSum t xs := by
          simp [typeSum, hx]
        have hsz : (eraseStep sel x xs b).sizeByType t = typeSum t xs := by
          have := eraseStep_sizeByType_same sel x xs b
          rw [hx] at this
          rw [this, h, hsum, subSz_of_le _ _ (by omega) (by omega)]
          omega
        obtain ⟨i1, i2, i3⟩ := ih (eraseStep sel x xs b) hsz (by omega)
        rw [hstep]
        refine ⟨i1, ?_, ?_⟩
        · rw [eraseStep_caps] at i2; exact i2
        · rw [hsz] at i3; omega
      · have hstep : dropOld sel t (x :: xs) b =
            ((dropOld sel t xs b).1.cons x, (dropOld sel t xs b).2) := by
          conv_lhs => unfold dropOld
          rw [if_pos hg, if_pos hx]
        have hsum : typeSum t (x :: xs) = typeSum t xs := by simp [typeSum, hx]
        obtain ⟨i1, i2, i3⟩ := ih b (by omega) (by omega)
        rw [hstep]
        refine ⟨?_, i2, i3⟩
        show (dropOld sel t xs b).2.sizeByType t = typeSum t (x :: (dropOld sel t xs b).1)
        simp only [typeSum, if_neg hx]
        exact i1
    · have hg' : exceedsDropLimit (b.sizeByType t) (b.g_maxBufferSizeByType t) = false := by
        simpa using hg
      rw [dropOld_of_not_exceeds sel t _ b hg']
      exact ⟨h, Or.inl hg', Nat.le_refl _⟩

/-- The eviction loop for type `t` keeps the sum over the records of every other type. -/
theorem dropOld_typeSum_ne (sel : ListSel) (t t' : Nat) (h : t' ≠ t) (l : List Node) :
    ∀ b : HilogBuffer, typeSum t' (dropOld sel t l b).1 = typeSum t' l := by
  induction l with
  | nil => intro b; rfl
  | cons x xs ih =>
    intro b
    unfold dropOld
    split
    · split
      · show typeSum t' (x :: (dropOld sel t xs b).1) = typeSum t' (x :: xs)
        simp only [typeSum, ih b]
      · rename_i hx
        have hx' : x.data.type = t := not_not.mp hx
        rw [ih]
        simp only [typeSum]
        rw [if_neg (by rw [hx']; exact fun e => h e.symm)]
    · rfl

/-- The loop of `Delete` leaves no record of the type, takes their sum from the counter, and
keeps the sum over the records of every other type. -/
theorem deleteLoop_account (sel : ListSel) (t : Nat) (l : List Node) :
    ∀ (sum : Nat) (b : HilogBuffer), b.sizeByType t = typeSum t l → typeSum t l < SIZE_MOD →
      (deleteLoop sel t l sum b).2.2.sizeByType t = 0 ∧
      typeSum t (deleteLoop sel t l sum b).1 = 0 := by
  induction l with
  | nil => intro sum b h _; exact ⟨h, rfl⟩
  | cons x xs ih =>
    intro sum b h hlt
    unfold deleteLoop
    by_cases hx : x.data.type = t
    · rw [if_neg (not_not.mpr hx)]
      have hsum : typeSum t (x :: xs) = cLen x.data + typeSum t xs := by
        simp [typeSum, hx]
      have hsz : (eraseStep sel x xs b).sizeByType t = typeSum t xs := by
        have := eraseStep_sizeByType_same sel x xs b
        rw [hx] at this
        rw [this, h, hsum, subSz_of_le _ _ (by omega) (by omega)]
        omega
      exact ih _ _ hsz (by omega)
    · rw [if_pos hx]
      have hsum : typeSum t (x :: xs) = typeSum t xs := by simp [typeSum, hx]
      obtain ⟨i1, i2⟩ := ih sum b (by omega) (by omega)
      refine ⟨i1, ?_⟩
      show typeSum t (x :: (deleteLoop sel t xs sum b).1) = 0
      simp only [typeSum, if_neg hx]
      exact i2

theorem deleteLoop_sizeByType_ne (sel : ListSel) (t t' : Nat) (h : t' ≠ t) (l : List Node) :
    ∀ (sum : Nat) (b : HilogBuffer),
      (deleteLoop sel t l sum b).2.2.sizeByType t' = b.sizeByType t' := by
  induction l with
  | nil => intro sum b; rfl
  | cons x xs ih =>
    intro sum b
    unfold deleteLoop
    split
    · exact ih sum b
    · rename_i hx
      have hx' : x.data.type = t := not_not.mp hx
      rw [ih, eraseStep_sizeByType_ne _ _ _ _ _ (by rw [hx']; exact h)]

theorem deleteLoop_typeSum_ne (sel : ListSel) (t t' : Nat) (h : t' ≠ t) (l : List Node) :
    ∀ (sum : Nat) (b : HilogBuffer), typeSum t' (deleteLoop sel t l sum b).1 = typeSum t' l := by
  induction l with
  | nil => intro sum b; rfl
  | cons x xs ih =>
    intro sum b
    unfold deleteLoop
    split
    · show typeSum t' (x :: (deleteLoop sel t xs sum b).1) = typeSum t' (x :: xs)
      simp only [typeSum, ih sum b]
    · rename_i hx
      have hx' : x.data.type = t := not_not.mp hx
      rw [ih]
      simp only [typeSum]
      rw [if_neg (by rw [hx']; exact fun e => h e.symm)]

end Hilog

namespace Hilog

/-! ## C7: `Insert` touches one type only -/

theorem evict_sizeByType_ne (sel : ListSel) (t t' : Nat) (h : t' ≠ t) (b : HilogBuffer) :
    (evict sel t b).sizeByType t' = b.sizeByType t' := by
  unfold evict
  rw [setList_sizeByType, dropOld_sizeByType_ne sel t t' h]

theorem evict_getList_same (sel : ListSel) (t : Nat) (b : HilogBuffer) :
    (evict sel t b).getList sel = (dropOld sel t (b.getList sel) b).1 := by
  unfold evict; rw [getList_setList_same]

theorem evict_getList_ne (sel sel' : ListSel) (t : Nat) (b : HilogBuffer) (h : sel' ≠ sel) :
    (evict sel t b).getList sel' = b.getList sel' := by
  unfold evict; rw [getList_setList_ne _ _ _ _ h, dropOld_getList]

theorem evictIfFull_keeps_other_types (sel sel' : ListSel) (msg : HilogMsg) (b : HilogBuffer) :
    ((b.getList sel').filter (fun x => decide (x.data.type ≠ msg.type))).Sublist
      ((evictIfFull sel msg b).getList sel') := by
  unfold evictIfFull
  split
  · by_cases h : sel' = sel
    · subst h
      rw [evict_getList_same]
      exact dropOld_keeps_other_types _ _ _ _
    · rw [evict_getList_ne _ _ _ _ h]
      exact List.filter_sublist _
  · exact List.filter_sublist _

theorem emplace_sublist (D : Decls) (slot : LogTimeStamp) (sel sel' : ListSel) (msg : HilogMsg)
    (b : HilogBuffer) : (b.getList sel').Sublist ((emplace D slot sel msg b).getList sel') := by
  by_cases h : sel' = sel
  · subst h
    rw [emplace_getList_same]
    exact sublist_place _ _ _ _
  · rw [emplace_getList_ne _ _ _ _ _ _ h]

/-- C7: `Insert(msg)` leaves `sizeByType[t]` as it was for every `t ≠ msg.type`, and in
each of the two lists the records of a type other than `msg.type` are all still there
afterwards, in their order: eviction for one type (APP, say) removes no record of another
(CORE) although they share the main list. -/
theorem Insert_touches_own_type_only (D : Decls) (slot : LogTimeStamp) (msg : HilogMsg)
    (b : HilogBuffer) :
    (∀ t, t ≠ msg.type → (Insert D slot msg b).2.sizeByType t = b.sizeByType t) ∧
    (∀ sel, ((b.getList sel).filter (fun x => decide (x.data.type ≠ msg.type))).Sublist
      ((Insert D slot msg b).2.getList sel)) ∧
    (∀ sel x, x ∈ b.getList sel → x.data.type ≠ msg.type →
      x ∈ (Insert D slot msg b).2.getList sel) := by
  have key : ∀ sel, ((b.getList sel).filter
      (fun x => decide (x.data.type ≠ msg.type))).Sublist
      ((Insert D slot msg b).2.getList sel) := by
    intro sel
    by_cases ha : msg.accepted
    · rw [Insert_of_accepted D slot msg b ha]
      simp only [account_getList]
      exact (evictIfFull_keeps_other_types _ sel msg b).trans (emplace_sublist _ _ _ _ _ _)
    · rw [Insert_of_not_accepted D slot msg b ha]
      exact List.filter_sublist _
  refine ⟨?_, key, ?_⟩
  · intro t ht
    by_cases ha : msg.accepted
    · rw [Insert_of_accepted D slot msg b ha]
      simp only [account, emplace_sizeByType]
      rw [if_neg ht]
      unfold evictIfFull
      split
      · exact evict_sizeByType_ne _ _ _ ht b
      · rfl
    · rw [Insert_of_not_accepted D slot msg b ha]
  · intro sel x hx ht
    exact (key sel).subset (List.mem_filter.mpr ⟨hx, by simpa using ht⟩)

end Hilog

namespace Hilog

/-! ## Lemmas on `Query` -/

theorem queryLoop_no_match (sel : ListSel) (c : QueryCondition) (b : HilogBuffer)
    (s : List Node) :
    ∀ r : LogReader, r.queryCondition = c →
      (∀ x ∈ s, ConditionMatch x.data c = false) →
      (s = [] → r.readPos = Iter.pastEnd sel) →
      (queryLoop sel s r b).1 = false ∧
      (queryLoop sel s r b).2.1.readPos = Iter.pastEnd sel ∧
      (queryLoop sel s r b).2.1.isNotified = false ∧
      (queryLoop sel s r b).2.1.written = r.written ++ [(SENDIDN, none)] ∧
      (queryLoop sel s r b).2.1.sendId = SENDIDN ∧
      (queryLoop sel s r b).2.2 = b := by
  induction s with
  | nil =>
    intro r _ _ hp
    exact ⟨rfl, hp rfl, rfl, rfl, rfl, rfl⟩
  | cons x xs ih =>
    intro r hc hno _
    have hx : ConditionMatch x.data r.queryCondition = false := by
      rw [hc]; exact hno x (List.mem_cons_self _ _)
    unfold queryLoop
    rw [hx]
    simp only [Bool.false_eq_true, if_false]
    have := ih { r with lastPos := Iter.node x.id, readPos := firstIter sel xs } hc
      (fun y hy => hno y (List.mem_cons_of_mem _ hy))
      (fun h => by subst h; rfl)
    exact this

theorem queryLoop_first_match (sel : ListSel) (c : QueryCondition) (b : HilogBuffer)
    (x : Node) (post : List Node) (hx : ConditionMatch x.data c = true) (pre : List Node) :
    ∀ r : LogReader, r.queryCondition = c →
      (∀ y ∈ pre, ConditionMatch y.data c = false) →
      (queryLoop sel (pre ++ x :: post) r b).1 = true ∧
      (queryLoop sel (pre ++ x :: post) r b).2.1.written =
        r.written ++ [(SENDIDA, some x.data)] ∧
      (queryLoop sel (pre ++ x :: post) r b).2.1.sendId = SENDIDA ∧
      (queryLoop sel (pre ++ x :: post) r b).2.1.lastPos = Iter.node x.id ∧
      (queryLoop sel (pre ++ x :: post) r b).2.1.readPos = firstIter sel post ∧
      (queryLoop sel (pre ++ x :: post) r b).2.1.isNotified = r.isNotified ∧
      (queryLoop sel (pre ++ x :: post) r b).2.2 =
        countPrinted (afterWrite r x.data) (recordWritten sel r x b) := by
  induction pre with
  | nil =>
    intro r hc _
    have hx' : ConditionMatch x.data r.queryCondition = true := by rw [hc]; exact hx
    simp only [List.nil_append]
    unfold queryLoop
    rw [hx', if_pos rfl]
    exact ⟨rfl, rfl, rfl, rfl, rfl, rfl, rfl⟩
  | cons y ys ih =>
    intro r hc hno
    have hy : ConditionMatch y.data r.queryCondition = false := by
      rw [hc]; exact hno y (List.mem_cons_self _ _)
    simp only [List.cons_append]
    unfold queryLoop
    rw [hy]
    simp only [Bool.false_eq_true, if_false]
    exact ih { r with lastPos := Iter.node y.id, readPos := firstIter sel (ys ++ x :: post) } hc
      (fun z hz => hno z (List.mem_cons_of_mem _ hz))

theorem exists_first_match (p : Node → Bool) (s : List Node)
    (h : ∃ x ∈ s, p x = true) :
    ∃ pre x post, s = pre ++ x :: post ∧ p x = true ∧ ∀ y ∈ pre, p y = false := by
  induction s with
  | nil =>
    obtain ⟨x, hx, _⟩ := h
    exact absurd hx (List.not_mem_nil x)
  | cons a t ih =>
    cases ha : p a with
    | true => exact ⟨[], a, t, rfl, ha, fun y hy => absurd hy (List.not_mem_nil y)⟩
    | false =>
      obtain ⟨x, hx, hpx⟩ := h
      rcases List.mem_cons.mp hx with rfl | hxt
      · rw [ha] at hpx; exact Bool.noConfusion hpx
      · obtain ⟨pre, y, post, hs, hy, hpre⟩ := ih ⟨x, hxt, hpx⟩
        refine ⟨a :: pre, y, post, by rw [hs]; rfl, hy, ?_⟩
        intro z hz
        rcases List.mem_cons.mp hz with rfl | hzp
        · exact ha
        · exact hpre z hzp

theorem applyReload_keeps (sel : ListSel) (l : List Node) (r : LogReader) :
    (applyReload sel l r).queryCondition = r.queryCondition ∧
      (applyReload sel l r).written = r.written := by
  unfold applyReload
  split <;> exact ⟨rfl, rfl⟩

theorem applyNotified_keeps (sel : ListSel) (l : List Node) (r r1 : LogReader)
    (h : applyNotified sel l r = some r1) :
    r1.queryCondition = r.queryCondition ∧ r1.written = r.written := by
  unfold applyNotified at h
  split at h
  · cases hn : nextIter sel l r.lastPos with
    | none => rw [hn] at h; simp at h
    | some p =>
      rw [hn] at h
      simp only [Option.map_some', Option.some.injEq] at h
      subst h
      exact ⟨rfl, rfl⟩
  · simp only [Option.some.injEq] at h
    subst h
    exact ⟨rfl, rfl⟩

theorem suffixFrom_ne_nil (id : Nat) (l s : List Node) (h : suffixFrom id l = some s) :
    s ≠ [] := by
  induction l with
  | nil => simp [suffixFrom] at h
  | cons x xs ih =>
    unfold suffixFrom at h
    split at h
    · simp only [Option.some.injEq] at h
      subst h
      exact List.cons_ne_nil _ _
    · exact ih h

theorem nodesFrom_nil (sel : ListSel) (l : List Node) (it : Iter)
    (h : nodesFrom sel l it = some []) : it = Iter.pastEnd sel := by
  cases it with
  | node id => exact absurd rfl (suffixFrom_ne_nil id l [] h)
  | pastEnd s =>
    unfold nodesFrom at h
    by_cases hs : s = sel
    · rw [hs]
    · simp [hs] at h

theorem Query_eq_queryLoop (D : Decls) (r r1 : LogReader) (b : HilogBuffer) (s : List Node)
    (hadj : applyNotified (listOfMask D r.queryCondition.types)
      (b.getList (listOfMask D r.queryCondition.types))
      (applyReload (listOfMask D r.queryCondition.types)
        (b.getList (listOfMask D r.queryCondition.types)) r) = some r1)
    (hs : nodesFrom (listOfMask D r.queryCondition.types)
      (b.getList (listOfMask D r.queryCondition.types)) r1.readPos = some s) :
    Query D r b = some (queryLoop (listOfMask D r.queryCondition.types) s r1 b) := by
  simp only [Query, hadj, Option.some_bind, hs, Option.map_some']

end Hilog

namespace Hilog

/-! ## C8: cursors across eviction and `Delete` -/

theorem firstIter_valid (sel : ListSel) (pre xs : List Node) :
    iterValid sel (pre ++ xs) (firstIter sel xs) := by
  cases xs with
  | nil => exact Or.inl rfl
  | cons y ys =>
    exact Or.inr ⟨y, List.mem_append_right _ (List.mem_cons_self _ _), rfl⟩

theorem iterValid_mono (sel : ListSel) (l l' : List Node) (it : Iter)
    (h : ∀ x ∈ l, x ∈ l') (hv : iterValid sel l it) : iterValid sel l' it := by
  rcases hv with hv | ⟨x, hx, hv⟩
  · exact Or.inl hv
  · exact Or.inr ⟨x, h x hx, hv⟩

/-- A cursor after the repair for the erased node `x`: valid on the list without `x`. -/
theorem repaired_valid (sel : ListSel) (pre xs : List Node) (x : Node) (it : Iter)
    (hv : iterValid sel (pre ++ x :: xs) it) :
    iterValid sel (pre ++ xs) (if it = Iter.node x.id then firstIter sel xs else it) := by
  by_cases h : it = Iter.node x.id
  · rw [if_pos h]; exact firstIter_valid sel pre xs
  · rw [if_neg h]
    rcases hv with hv | ⟨y, hy, hv⟩
    · exact Or.inl hv
    · refine Or.inr ⟨y, ?_, hv⟩
      rcases List.mem_append.mp hy with hy | hy
      · exact List.mem_append_left _ hy
      · rcases List.mem_cons.mp hy with rfl | hy
        · exact absurd hv h
        · exact List.mem_append_right _ hy

theorem repairReaders_get (it next : Iter) (rs : List (Option LogReader)) (i : Nat)
    (r : LogReader) (h : rs[i]? = some (some r)) :
    (repairReaders it next rs)[i]? = some (some (repairReader it next r)) := by
  unfold repairReaders
  rw [List.getElem?_map, h]
  rfl

/-- What the eviction loop does to the reader registered at position `i`: the condition is
kept; a cursor valid on the list stays valid on what remains of it; a cursor that is on no
node of the part still to be visited is not changed. -/
theorem dropOld_reader (sel : ListSel) (t : Nat) (l : List Node) :
    ∀ (pre : List Node) (b : HilogBuffer) (i : Nat) (r : LogReader),
      b.logReaderList[i]? = some (some r) →
      ∃ r', (dropOld sel t l b).2.logReaderList[i]? = some (some r') ∧
        r'.queryCondition = r.queryCondition ∧
        (iterValid sel (pre ++ l) r.readPos →
          iterValid sel (pre ++ (dropOld sel t l b).1) r'.readPos) ∧
        (iterValid sel (pre ++ l) r.lastPos →
          iterValid sel (pre ++ (dropOld sel t l b).1) r'.lastPos) ∧
        ((∀ x ∈ l, r.readPos ≠ Iter.node x.id) → r'.readPos = r.readPos) ∧
        ((∀ x ∈ l, r.lastPos ≠ Iter.node x.id) → r'.lastPos = r.lastPos) := by
  induction l with
  | nil =>
    intro pre b i r h
    exact ⟨r, h, rfl, id, id, fun _ => rfl, fun _ => rfl⟩
  | cons x xs ih =>
    intro pre b i r h
    unfold dropOld
    split
    · split
      · obtain ⟨r', h1, h2, h3, h4, h5, h6⟩ := ih (pre ++ [x]) b i r h
        refine ⟨r', h1, h2, ?_, ?_, ?_, ?_⟩
        · intro hv
          have := h3 (by simpa using hv)
          simpa using this
        · intro hv
          have := h4 (by simpa using hv)
          simpa using this
        · intro hne
          exact h5 (fun y hy => hne y (List.mem_cons_of_mem _ hy))
        · intro hne
          exact h6 (fun y hy => hne y (List.mem_cons_of_mem _ hy))
      · have hget : (eraseStep sel x xs b).logReaderList[i]? =
            some (some (repairReader (Iter.node x.id) (firstIter sel xs) r)) :=
          repairReaders_get _ _ _ i r h
        obtain ⟨r', h1, h2, h3, h4, h5, h6⟩ := ih pre (eraseStep sel x xs b) i _ hget
        refine ⟨r', h1, h2, ?_, ?_, ?_, ?_⟩
        · intro hv
          exact h3 (repaired_valid sel pre xs x r.readPos hv)
        · intro hv
          exact h4 (repaired_valid sel pre xs x r.lastPos hv)
        · intro hne
          have hx : r.readPos ≠ Iter.node x.id := hne x (List.mem_cons_self _ _)
          have hr : (repairReader (Iter.node x.id) (firstIter sel xs) r).readPos =
              r.readPos := by
            unfold repairReader
            simp only [if_neg hx]
          rw [← hr]
          exact h5 (fun y hy => by rw [hr]; exact hne y (List.mem_cons_of_mem _ hy))
        · intro hne
          have hx : r.lastPos ≠ Iter.node x.id := hne x (List.mem_cons_self _ _)
          have hr : (repairReader (Iter.node x.id) (firstIter sel xs) r).lastPos =
              r.lastPos := by
            unfold repairReader
            simp only [if_neg hx]
          rw [← hr]
          exact h6 (fun y hy => by rw [hr]; exact hne y (List.mem_cons_of_mem _ hy))
    · exact ⟨r, h, rfl, id, id, fun _ => rfl, fun _ => rfl⟩

/-- The loop of `Delete` treats the reader registered at position `i` in the same way. -/
theorem deleteLoop_reader (sel : ListSel) (t : Nat) (l : List Node) :
    ∀ (pre : List Node) (sum : Nat) (b : HilogBuffer) (i : Nat) (r : LogReader),
      b.logReaderList[i]? = some (some r) →
      ∃ r', (deleteLoop sel t l sum b).2.2.logReaderList[i]? = some (some r') ∧
        r'.queryCondition = r.queryCondition ∧
        (iterValid sel (pre ++ l) r.readPos →
          iterValid sel (pre ++ (deleteLoop sel t l sum b).1) r'.readPos) ∧
        (iterValid sel (pre ++ l) r.lastPos →
          iterValid sel (pre ++ (deleteLoop sel t l sum b).1) r'.lastPos) ∧
        ((∀ x ∈ l, r.readPos ≠ Iter.node x.id) → r'.readPos = r.readPos) ∧
        ((∀ x ∈ l, r.lastPos ≠ Iter.node x.id) → r'.lastPos = r.lastPos) := by
  induction l with
  | nil =>
    intro pre sum b i r h
    exact ⟨r, h, rfl, id, id, fun _ => rfl, fun _ => rfl⟩
  | cons x xs ih =>
    intro pre sum b i r h
    unfold deleteLoop
    split
    · obtain ⟨r', h1, h2, h3, h4, h5, h6⟩ := ih (pre ++ [x]) sum b i r h
      refine ⟨r', h1, h2, ?_, ?_, ?_, ?_⟩
      · intro hv
        have := h3 (by simpa using hv)
        simpa using this
      · intro hv
        have := h4 (by simpa using hv)
        simpa using this
      · intro hne
        exact h5 (fun y hy => hne y (List.mem_cons_of_mem _ hy))
      · intro hne
        exact h6 (fun y hy => hne y (List.mem_cons_of_mem _ hy))
    · have hget : (eraseStep sel x xs b).logReaderList[i]? =
          some (some (repairReader (Iter.node x.id) (firstIter sel xs) r)) :=
        repairReaders_get _ _ _ i r h
      obtain ⟨r', h1, h2, h3, h4, h5, h6⟩ :=
        ih pre (addSz sum (cLen x.data)) (eraseStep sel x xs b) i _ hget
      refine ⟨r', h1, h2, ?_, ?_, ?_, ?_⟩
      · intro hv
        exact h3 (repaired_valid sel pre xs x r.readPos hv)
      · intro hv
        exact h4 (repaired_valid sel pre xs x r.lastPos hv)
      · intro hne
        have hx : r.readPos ≠ Iter.node x.id := hne x (List.mem_cons_self _ _)
        have hr : (repairReader (Iter.node x.id) (firstIter sel xs) r).readPos =
            r.readPos := by
          unfold repairReader
          simp only [if_neg hx]
        rw [← hr]
        exact h5 (fun y hy => by rw [hr]; exact hne y (List.mem_cons_of_mem _ hy))
      · intro hne
        have hx : r.lastPos ≠ Iter.node x.id := hne x (List.mem_cons_self _ _)
        have hr : (repairReader (Iter.node x.id) (firstIter sel xs) r).lastPos =
            r.lastPos := by
          unfold repairReader
          simp only [if_neg hx]
        rw [← hr]
        exact h6 (fun y hy => by rw [hr]; exact hne y (List.mem_cons_of_mem _ hy))

theorem valid_on_other_list (b : HilogBuffer) (hd : listsDisjoint b) (sel selr : ListSel)
    (hne : selr ≠ sel) (it : Iter) (hv : iterValid selr (b.getList selr) it) :
    ∀ x ∈ b.getList sel, it ≠ Iter.node x.id := by
  intro x hx heq
  rcases hv with hv | ⟨y, hy, hv⟩
  · rw [hv] at heq; exact Iter.noConfusion heq
  · rw [hv] at heq
    have hid : y.id = x.id := Iter.node.inj heq
    cases sel <;> cases selr
    · exact hne rfl
    · exact hd x hx y hy hid.symm
    · exact hd y hy x hx hid
    · exact hne rfl

theorem evict_reader (D : Decls) (sel : ListSel) (t : Nat) (b : HilogBuffer)
    (hd : listsDisjoint b) (i : Nat) (r : LogReader)
    (hget : b.logReaderList[i]? = some (some r)) (hv : cursorsValid D b r) :
    ∃ r', (evict sel t b).logReaderList[i]? = some (some r') ∧
      r'.queryCondition = r.queryCondition ∧ cursorsValid D (evict sel t b) r' := by
  obtain ⟨r', h1, h2, h3, h4, h5, h6⟩ := dropOld_reader sel t (b.getList sel) [] b i r hget
  refine ⟨r', by unfold evict; rw [setList_readers]; exact h1, h2, ?_⟩
  unfold cursorsValid at hv
  unfold cursorsValid
  rw [h2]
  by_cases hs : listOfMask D r.queryCondition.types = sel
  · rw [hs, evict_getList_same]
    rw [hs] at hv
    exact ⟨by simpa using h3 (by simpa using hv.1), by simpa using h4 (by simpa using hv.2)⟩
  · rw [evict_getList_ne _ _ _ _ hs]
    rw [h5 (valid_on_other_list b hd sel _ hs _ hv.1),
      h6 (valid_on_other_list b hd sel _ hs _ hv.2)]
    exact hv

theorem cursorsValid_mono (D : Decls) (b b' : HilogBuffer) (r : LogReader)
    (h : ∀ sel, ∀ x ∈ b.getList sel, x ∈ b'.getList sel) (hv : cursorsValid D b r) :
    cursorsValid D b' r :=
  ⟨iterValid_mono _ _ _ _ (h _) hv.1, iterValid_mono _ _ _ _ (h _) hv.2⟩

theorem Insert_reader_valid (D : Decls) (slot : LogTimeStamp) (msg : HilogMsg)
    (b : HilogBuffer) (hd : listsDisjoint b) (i : Nat) (r : LogReader)
    (hget : b.logReaderList[i]? = some (some r)) (hv : cursorsValid D b r) :
    ∃ r', (Insert D slot msg b).2.logReaderList[i]? = some (some r') ∧
      r'.queryCondition = r.queryCondition ∧ cursorsValid D (Insert D slot msg b).2 r' := by
  by_cases ha : msg.accepted
  · rw [Insert_of_accepted D slot msg b ha]
    have hev : ∃ r', (evictIfFull (listOfType D msg.type) msg b).logReaderList[i]? =
        some (some r') ∧ r'.queryCondition = r.queryCondition ∧
        cursorsValid D (evictIfFull (listOfType D msg.type) msg b) r' := by
      unfold evictIfFull
      split
      · exact evict_reader D _ _ b hd i r hget hv
      · exact ⟨r, hget, rfl, hv⟩
    obtain ⟨r', h1, h2, h3⟩ := hev
    refine ⟨r', ?_, h2, ?_⟩
    · show (emplace D slot (listOfType D msg.type) msg
        (evictIfFull (listOfType D msg.type) msg b)).logReaderList[i]? = _
      rw [emplace_readers]; exact h1
    · refine cursorsValid_mono D _ _ r' ?_ h3
      intro sel x hx
      rw [account_getList]
      exact (emplace_sublist D slot _ sel msg _).subset hx
  · rw [Insert_of_not_accepted D slot msg b ha]
    exact ⟨r, hget, rfl, hv⟩

theorem Delete_reader_valid (D : Decls) (t : Nat) (b : HilogBuffer) (hd : listsDisjoint b)
    (i : Nat) (r : LogReader) (hget : b.logReaderList[i]? = some (some r))
    (hv : cursorsValid D b r) :
    ∃ r', (Delete D t b).2.logReaderList[i]? = some (some r') ∧
      r'.queryCondition = r.queryCondition ∧ cursorsValid D (Delete D t b).2 r' := by
  unfold Delete
  split
  · exact ⟨r, hget, rfl, hv⟩
  · obtain ⟨r', h1, h2, h3, h4, h5, h6⟩ :=
      deleteLoop_reader (listOfMask D t) t (b.getList (listOfMask D t)) [] 0 b i r hget
    refine ⟨r', by simp only [setList_readers]; exact h1, h2, ?_⟩
    unfold cursorsValid at hv
    unfold cursorsValid
    rw [h2]
    by_cases hs : listOfMask D r.queryCondition.types = listOfMask D t
    · simp only [hs, getList_setList_same]
      rw [hs] at hv
      exact ⟨by simpa using h3 (by simpa using hv.1), by simpa using h4 (by simpa using hv.2)⟩
    · simp only [getList_setList_ne _ _ _ _ hs, deleteLoop_getList]
      rw [h5 (valid_on_other_list b hd _ _ hs _ hv.1),
        h6 (valid_on_other_list b hd _ _ hs _ hv.2)]
      exact hv

/-- C8: let `r` be a live reader of the registry whose `readPos` and `lastPos` each stand on
a record resident in the list it reads or at the end of that list (nodes of the two lists
being distinct).  After any `Insert` and after any `Delete` the same holds of the reader in
the buffer as it is then: neither cursor is left on a record the call erased. -/
theorem cursors_stay_valid (D : Decls) (slot : LogTimeStamp) (msg : HilogMsg) (t : Nat)
    (b : HilogBuffer) (i : Nat) (r : LogReader) (hd : listsDisjoint b)
    (hget : b.logReaderList[i]? = some (some r)) (hv : cursorsValid D b r) :
    (∃ r', (Insert D slot msg b).2.logReaderList[i]? = some (some r') ∧
      r'.queryCondition = r.queryCondition ∧ cursorsValid D (Insert D slot msg b).2 r') ∧
    (∃ r', (Delete D t b).2.logReaderList[i]? = some (some r') ∧
      r'.queryCondition = r.queryCondition ∧ cursorsValid D (Delete D t b).2 r') :=
  ⟨Insert_reader_valid D slot msg b hd i r hget hv,
   Delete_reader_valid D t b hd i r hget hv⟩

/-- Witness for C8: the reader standing on the first of two records keeps valid cursors
across the insertion of a third record. -/
theorem cursors_stay_valid_witness :
    ∃ r', (Insert sampleDecls ⟨0, 0⟩ (sampleMsg 0 1002 0)
        twoSortedWithReader).2.logReaderList[0]? = some (some r') ∧
      cursorsValid sampleDecls
        (Insert sampleDecls ⟨0, 0⟩ (sampleMsg 0 1002 0) twoSortedWithReader).2 r' := by
  obtain ⟨⟨r', h1, -, h3⟩, -⟩ := cursors_stay_valid sampleDecls ⟨0, 0⟩ (sampleMsg 0 1002 0) 0
    twoSortedWithReader 0 firstRecordReader (by decide) (by decide) (by decide)
  exact ⟨r', h1, h3⟩

end Hilog

namespace Hilog

/-! ## C9: the cursor of a reader whose record is evicted -/

theorem filter_mem_of_sublist {s l : List Node} (h : s.Sublist l) (hn : l.Nodup) :
    l.filter (fun y => decide (y ∈ s)) = s := by
  induction h with
  | slnil => rfl
  | cons a hs ih =>
    rename_i s' l'
    have ha : a ∉ l' := (List.nodup_cons.mp hn).1
    have has : a ∉ s' := fun h' => ha (hs.subset h')
    rw [List.filter_cons_of_neg (by simpa using has)]
    exact ih (List.nodup_cons.mp hn).2
  | cons₂ a hs ih =>
    rename_i s' l'
    have ha : a ∉ l' := (List.nodup_cons.mp hn).1
    rw [List.filter_cons_of_pos (by simp)]
    congr 1
    rw [← ih (List.nodup_cons.mp hn).2]
    apply List.filter_congr
    intro y hy
    have hya : y ≠ a := fun h' => ha (h' ▸ hy)
    simp [hya, ih (List.nodup_cons.mp hn).2]

/-- The non-cursor fields of a registered reader are not touched by the eviction loop. -/
theorem dropOld_reader_flags (sel : ListSel) (t : Nat) (l : List Node) :
    ∀ (b : HilogBuffer) (i : Nat) (r : LogReader),
      b.logReaderList[i]? = some (some r) →
      ∃ r', (dropOld sel t l b).2.logReaderList[i]? = some (some r') ∧
        r'.queryCondition = r.queryCondition ∧ r'.reload = r.reload ∧
        r'.isNotified = r.isNotified ∧ r'.written = r.written := by
  induction l with
  | nil => intro b i r h; exact ⟨r, h, rfl, rfl, rfl, rfl⟩
  | cons x xs ih =>
    intro b i r h
    unfold dropOld
    split
    · split
      · exact ih b i r h
      · obtain ⟨r', h1, h2, h3, h4, h5⟩ := ih (eraseStep sel x xs b) i _
          (repairReaders_get _ _ _ i r h)
        exact ⟨r', h1, h2, h3, h4, h5⟩
    · exact ⟨r, h, rfl, rfl, rfl, rfl⟩

theorem firstIter_ne_of_not_mem (sel : ListSel) (l : List Node) (x : Node)
    (h : x.id ∉ l.map (fun y => y.id)) : firstIter sel l ≠ Iter.node x.id := by
  cases l with
  | nil => exact fun h' => Iter.noConfusion h'
  | cons y ys =>
    intro h'
    have : y.id = x.id := Iter.node.inj h'
    exact h (by rw [← this]; exact List.mem_map.mpr ⟨y, List.mem_cons_self _ _, rfl⟩)

/-- A reader standing on the first node of the part still to be visited stands on the first
node of what remains of it afterwards. -/
theorem dropOld_readPos_head (sel : ListSel) (t : Nat) (l : List Node) :
    ∀ (b : HilogBuffer) (i : Nat) (r : LogReader),
      (l.map (fun y => y.id)).Nodup →
      b.logReaderList[i]? = some (some r) → r.readPos = firstIter sel l →
      ∃ r', (dropOld sel t l b).2.logReaderList[i]? = some (some r') ∧
        r'.readPos = firstIter sel (dropOld sel t l b).1 := by
  induction l with
  | nil => intro b i r _ h hp; exact ⟨r, h, hp⟩
  | cons x xs ih =>
    intro b i r hn h hp
    have hx : x.id ∉ xs.map (fun y => y.id) := (List.nodup_cons.mp hn).1
    unfold dropOld
    split
    · split
      · obtain ⟨r', h1, -, -, -, h5, -⟩ := dropOld_reader sel t xs [] b i r h
        refine ⟨r', h1, ?_⟩
        rw [h5 ?_, hp]; rfl
        intro y hy heq
        rw [hp] at heq
        have : x.id = y.id := Iter.node.inj heq
        exact hx (by rw [this]; exact List.mem_map.mpr ⟨y, hy, rfl⟩)
      · refine ih (eraseStep sel x xs b) i _ (List.nodup_cons.mp hn).2
          (repairReaders_get _ _ _ i r h) ?_
        unfold repairReader
        simp only [hp, firstIter, if_true]
    · exact ⟨r, h, hp⟩

/-- A reader standing on the node `x` of the list: after the eviction loop either `x` is
still in the list and the reader still on it, or the reader stands on the first survivor
among the nodes that followed `x`. -/
theorem dropOld_readPos_at (sel : ListSel) (t : Nat) (x : Node) (post : List Node)
    (pre : List Node) :
    ∀ (b : HilogBuffer) (i : Nat) (r : LogReader),
      ((pre ++ x :: post).map (fun y => y.id)).Nodup →
      b.logReaderList[i]? = some (some r) → r.readPos = Iter.node x.id →
      ∃ r', (dropOld sel t (pre ++ x :: post) b).2.logReaderList[i]? = some (some r') ∧
        ((x ∈ (dropOld sel t (pre ++ x :: post) b).1 ∧ r'.readPos = Iter.node x.id) ∨
         ∃ keptPre rest, (dropOld sel t (pre ++ x :: post) b).1 = keptPre ++ rest ∧
           keptPre.Sublist pre ∧ rest.Sublist post ∧ r'.readPos = firstIter sel rest) := by
  induction pre with
  | nil =>
    intro b i r hn h hp
    simp only [List.nil_append] at hn ⊢
    have hx : x.id ∉ post.map (fun y => y.id) := (List.nodup_cons.mp hn).1
    have hne : ∀ y ∈ post, r.readPos ≠ Iter.node y.id := by
      intro y hy heq
      rw [hp] at heq
      have : x.id = y.id := Iter.node.inj heq
      exact hx (by rw [this]; exact List.mem_map.mpr ⟨y, hy, rfl⟩)
    unfold dropOld
    split
    · split
      · obtain ⟨r', h1, -, -, -, h5, -⟩ := dropOld_reader sel t post [] b i r h
        exact ⟨r', h1, Or.inl ⟨List.mem_cons_self _ _, by rw [h5 hne, hp]⟩⟩
      · obtain ⟨r', h1, h2⟩ := dropOld_readPos_head sel t post (eraseStep sel x post b) i _
          (List.nodup_cons.mp hn).2 (repairReaders_get _ _ _ i r h)
          (by unfold repairReader; simp only [hp, if_true])
        exact ⟨r', h1, Or.inr ⟨[], _, rfl, List.Sublist.refl _, dropOld_sublist _ _ _ _, h2⟩⟩
    · exact ⟨r, h, Or.inl ⟨List.mem_cons_self _ _, hp⟩⟩
  | cons p ps ih =>
    intro b i r hn h hp
    simp only [List.cons_append] at hn ⊢
    have hpx : p.id ≠ x.id := by
      intro heq
      exact (List.nodup_cons.mp hn).1
        (List.mem_map.mpr ⟨x, List.mem_append_right _ (List.mem_cons_self _ _), heq.symm⟩)
    unfold dropOld
    split
    · split
      · obtain ⟨r', h1, h2⟩ := ih b i r (List.nodup_cons.mp hn).2 h hp
        refine ⟨r', h1, ?_⟩
        rcases h2 with ⟨hm, hr⟩ | ⟨keptPre, rest, he, hk, hs, hr⟩
        · exact Or.inl ⟨List.mem_cons_of_mem _ hm, hr⟩
        · exact Or.inr ⟨p :: keptPre, rest, by rw [List.cons_append, ← he],
            hk.cons₂ p, hs, hr⟩
      · have hr1 : (repairReader (Iter.node p.id) (firstIter sel (ps ++ x :: post)) r).readPos =
            Iter.node x.id := by
          unfold repairReader
          have : r.readPos ≠ Iter.node p.id := by
            rw [hp]; intro heq; exact hpx (Iter.node.inj heq).symm
          simp only [if_neg this]
          exact hp
        obtain ⟨r', h1, h2⟩ := ih (eraseStep sel p (ps ++ x :: post) b) i _
          (List.nodup_cons.mp hn).2 (repairReaders_get _ _ _ i r h) hr1
        refine ⟨r', h1, ?_⟩
        rcases h2 with ⟨hm, hr⟩ | ⟨keptPre, rest, he, hk, hs, hr⟩
        · exact Or.inl ⟨hm, hr⟩
        · exact Or.inr ⟨keptPre, rest, he, hk.cons p, hs, hr⟩
    · exact ⟨r, h, Or.inl ⟨List.mem_cons_of_mem _
        (List.mem_append_right _ (List.mem_cons_self _ _)), hp⟩⟩

theorem suffixFrom_of_mem (l : List Node) (y : Node) (hn : (l.map (fun z => z.id)).Nodup)
    (hy : y ∈ l) : ∃ tail, suffixFrom y.id l = some (y :: tail) := by
  induction l with
  | nil => exact absurd hy (List.not_mem_nil y)
  | cons a t ih =>
    have ha : a.id ∉ t.map (fun z => z.id) := (List.nodup_cons.mp hn).1
    unfold suffixFrom
    by_cases h : a.id = y.id
    · rw [if_pos h]
      rcases List.mem_cons.mp hy with rfl | hyt
      · exact ⟨t, rfl⟩
      · exact absurd (List.mem_map.mpr ⟨y, hyt, h.symm⟩) ha
    · rw [if_neg h]
      rcases List.mem_cons.mp hy with rfl | hyt
      · exact absurd rfl h
      · exact ih (List.nodup_cons.mp hn).2 hyt

theorem nodup_of_ids_nodup (l : List Node) (hn : (l.map (fun z => z.id)).Nodup) : l.Nodup :=
  List.Nodup.of_map _ hn

theorem evictIfFull_nextId (sel : ListSel) (msg : HilogMsg) (b : HilogBuffer) :
    (evictIfFull sel msg b).nextId = b.nextId := by
  unfold evictIfFull
  split
  · unfold evict; rw [setList_nextId, dropOld_nextId]
  · rfl

/-- C9, amended: let a live registered reader stand with `readPos` on the record `x` of the
list of `msg.type` (node identities distinct, the allocator ahead of them), and let
`Insert(msg)` remove `x`.  Then `readPos` afterwards is on the first of the records that
followed `x` and are still in the list (list end if there is none); and if the reader reads
this list, has no reload pending, and that record matches its condition, the next `Query`
returns true and hands exactly that record to `WriteData`. -/
theorem evicted_reader_moves_to_next_survivor (D : Decls) (slot : LogTimeStamp)
    (msg : HilogMsg) (b : HilogBuffer) (i : Nat) (r : LogReader) (x : Node)
    (pre post : List Node)
    (hl : b.getList (listOfType D msg.type) = pre ++ x :: post)
    (hn : ((b.getList (listOfType D msg.type)).map (fun z => z.id)).Nodup)
    (hf : ∀ y ∈ b.getList (listOfType D msg.type), y.id < b.nextId)
    (hget : b.logReaderList[i]? = some (some r)) (hp : r.readPos = Iter.node x.id)
    (hrem : x ∉ (Insert D slot msg b).2.getList (listOfType D msg.type)) :
    ∃ r', (Insert D slot msg b).2.logReaderList[i]? = some (some r') ∧
      r'.readPos = firstIter (listOfType D msg.type)
        (post.filter (fun y =>
          decide (y ∈ (Insert D slot msg b).2.getList (listOfType D msg.type)))) ∧
      (∀ y rest, post.filter (fun y =>
          decide (y ∈ (Insert D slot msg b).2.getList (listOfType D msg.type))) = y :: rest →
        listOfMask D r.queryCondition.types = listOfType D msg.type →
        r.reload = false → ConditionMatch y.data r.queryCondition = true →
        ∃ r2 b2, Query D r' (Insert D slot msg b).2 = some (true, r2, b2) ∧
          r2.written = r.written ++ [(SENDIDA, some y.data)]) := by
  have hxl : x ∈ b.getList (listOfType D msg.type) := by
    rw [hl]; exact List.mem_append_right _ (List.mem_cons_self _ _)
  by_cases ha : msg.accepted
  swap
  · rw [Insert_of_not_accepted D slot msg b ha] at hrem
    exact absurd hxl hrem
  have hIns := Insert_of_accepted D slot msg b ha
  have hlist : (Insert D slot msg b).2.getList (listOfType D msg.type) =
      place slot msg.stamp ⟨b.nextId, HilogData.ofMsg D msg⟩
        ((evictIfFull (listOfType D msg.type) msg b).getList (listOfType D msg.type)) := by
    rw [hIns]
    simp only [account_getList, emplace_getList_same, evictIfFull_nextId]
  have hreaders : (Insert D slot msg b).2.logReaderList =
      (evictIfFull (listOfType D msg.type) msg b).logReaderList := by
    rw [hIns]
    show (emplace D slot (listOfType D msg.type) msg
      (evictIfFull (listOfType D msg.type) msg b)).logReaderList = _
    rw [emplace_readers]
  have hfull : evictIfFull (listOfType D msg.type) msg b =
      evict (listOfType D msg.type) msg.type b := by
    unfold evictIfFull
    split
    · rfl
    · rename_i hnf
      exfalso
      apply hrem
      rw [hlist, mem_place]
      right
      unfold evictIfFull
      rw [if_neg hnf]
      exact hxl
  rw [hfull, evict_getList_same] at hlist
  rw [hfull] at hreaders
  have hreaders' : (Insert D slot msg b).2.logReaderList =
      (dropOld (listOfType D msg.type) msg.type
        (b.getList (listOfType D msg.type)) b).2.logReaderList := by
    rw [hreaders]; unfold evict; rw [setList_readers]
  obtain ⟨r', h1, h2⟩ := dropOld_readPos_at (listOfType D msg.type) msg.type x post pre b i r
    (by rw [← hl]; exact hn) hget hp
  rw [← hl] at h1 h2
  obtain ⟨r'', g1, g2, g3, g4, g5⟩ := dropOld_reader_flags (listOfType D msg.type) msg.type
    (b.getList (listOfType D msg.type)) b i r hget
  have hsame : r'' = r' := by
    rw [g1] at h1
    exact Option.some.inj (Option.some.inj h1)
  rw [hsame] at g1 g2 g3 g4 g5
  rcases h2 with ⟨hm, -⟩ | ⟨keptPre, rest, he, hk, hs, hr⟩
  · exfalso
    apply hrem
    rw [hlist, mem_place]
    exact Or.inr hm
  have hnodes : (pre ++ x :: post).Nodup := nodup_of_ids_nodup _ (by rw [← hl]; exact hn)
  have hpostn : post.Nodup :=
    (List.nodup_cons.mp (List.nodup_append.mp hnodes).2.1).2
  have hfilter : post.filter (fun y =>
      decide (y ∈ (Insert D slot msg b).2.getList (listOfType D msg.type))) = rest := by
    rw [← filter_mem_of_sublist hs hpostn]
    apply List.filter_congr
    intro y hy
    rw [hlist, he]
    have hyl : y ∈ b.getList (listOfType D msg.type) := by
      rw [hl]; exact List.mem_append_right _ (List.mem_cons_of_mem _ hy)
    have h1' : y ≠ (⟨b.nextId, HilogData.ofMsg D msg⟩ : Node) := by
      intro heq
      have := hf y hyl
      rw [heq] at this
      exact Nat.lt_irrefl _ this
    have h2' : y ∉ keptPre := by
      intro hyk
      exact (List.nodup_append.mp hnodes).2.2 (hk.subset hyk)
        (List.mem_cons_of_mem _ hy)
    simp only [mem_place, List.mem_append, h1', h2', false_or, decide_eq_decide]
  refine ⟨r', by rw [hreaders']; exact g1, by rw [hfilter]; exact hr, ?_⟩
  intro y rest' hy hmask hreload hmatch
  rw [hfilter] at hy
  subst hy
  have hry : r'.readPos = Iter.node y.id := hr
  -- the list after the call has distinct identities, so the node found for `y.id` is `y`
  have hsub : (keptPre ++ y :: rest').Sublist (b.getList (listOfType D msg.type)) := by
    rw [← he]; exact dropOld_sublist _ _ _ _
  have hn2 : (((Insert D slot msg b).2.getList (listOfType D msg.type)).map
      (fun z => z.id)).Nodup := by
    rw [hlist, he]
    refine ((place_perm slot msg.stamp _ _).map _).nodup_iff.mpr ?_
    rw [List.map_cons, List.nodup_cons]
    refine ⟨?_, (hsub.map _).nodup hn⟩
    intro hmem
    obtain ⟨z, hz, hzid⟩ := List.mem_map.mp hmem
    have := hf z (hsub.subset hz)
    simp only at hzid
    omega
  have hyin : y ∈ (Insert D slot msg b).2.getList (listOfType D msg.type) := by
    rw [hlist, he, mem_place]
    exact Or.inr (List.mem_append_right _ (List.mem_cons_self _ _))
  obtain ⟨tail, htail⟩ := suffixFrom_of_mem _ y hn2 hyin
  have hmask' : listOfMask D r'.queryCondition.types = listOfType D msg.type := by
    rw [g2]; exact hmask
  have hadj : applyNotified (listOfMask D r'.queryCondition.types)
      ((Insert D slot msg b).2.getList (listOfMask D r'.queryCondition.types))
      (applyReload (listOfMask D r'.queryCondition.types)
        ((Insert D slot msg b).2.getList (listOfMask D r'.queryCondition.types)) r') =
      some r' := by
    have hrl : r'.reload = false := by rw [g3]; exact hreload
    unfold applyReload
    rw [hrl]
    simp only [Bool.false_eq_true, if_false]
    unfold applyNotified
    rw [if_neg]
    rintro ⟨-, hend⟩
    rw [hry] at hend
    exact Iter.noConfusion hend
  have hnodes2 : nodesFrom (listOfMask D r'.queryCondition.types)
      ((Insert D slot msg b).2.getList (listOfMask D r'.queryCondition.types)) r'.readPos =
      some (y :: tail) := by
    rw [hmask', hry]
    exact htail
  have hQ := Query_eq_queryLoop D r' r' (Insert D slot msg b).2 (y :: tail) hadj hnodes2
  obtain ⟨k1, k2, -⟩ := queryLoop_first_match (listOfMask D r'.queryCondition.types)
    r'.queryCondition (Insert D slot msg b).2 y tail (by rw [g2]; exact hmatch) [] r' rfl
    (fun z hz => absurd hz (List.not_mem_nil z))
  refine ⟨(queryLoop (listOfMask D r'.queryCondition.types) (y :: tail) r'
      (Insert D slot msg b).2).2.1,
    (queryLoop (listOfMask D r'.queryCondition.types) (y :: tail) r'
      (Insert D slot msg b).2).2.2, ?_, ?_⟩
  · rw [hQ, ← k1]; rfl
  · rw [← g5]; exact k2

/-- Witness for C9, amended: in the list 1000.0 (type 1), 1001.0, 1002.0, 1003.0 (type 0)
with a cap of 7 bytes for type 0, the insertion of 1004.0 evicts 1001.0, on which the reader
stands; the reader is then on the node of 1002.0. -/
theorem evicted_reader_moves_to_next_survivor_witness :
    ∃ r', (Insert sampleDecls ⟨0, 0⟩ (sampleMsg 0 1004 0)
        (mixedWith secondRecordReader)).2.logReaderList[0]? = some (some r') ∧
      r'.readPos = Iter.node 2 := by
  obtain ⟨r', h1, h2, -⟩ := evicted_reader_moves_to_next_survivor sampleDecls ⟨0, 0⟩
    (sampleMsg 0 1004 0) (mixedWith secondRecordReader) 0 secondRecordReader
    (sampleNode 1 0 1001) [sampleNode 0 1 1000] [sampleNode 2 0 1002, sampleNode 3 0 1003]
    (by decide) (by decide) (by decide) (by decide) rfl (by decide)
  exact ⟨r', h1, h2.trans (by decide)⟩

/-- C9, as it stands: the same eviction with a reader that has a reload pending.  The record
1001.0 under `readPos` is removed and `readPos` moves to the record 1002.0, which matches the
reader's condition; but the next `Query` starts again from the head of the list and hands
the record 1000.0 to `WriteData`, not the record 1002.0. -/
theorem evicted_reader_with_reload_restarts :
    stampsOf (mixedWith reloadingReader).hilogDataList =
      [(1000, 0), (1001, 0), (1002, 0), (1003, 0)] ∧
    (liveReader (mixedWith reloadingReader) 0).map (fun r => r.readPos) =
      some (Iter.node 1) ∧
    stampsOf (Insert sampleDecls ⟨0, 0⟩ (sampleMsg 0 1004 0)
        (mixedWith reloadingReader)).2.hilogDataList =
      [(1000, 0), (1002, 0), (1003, 0), (1004, 0)] ∧
    (liveReader (Insert sampleDecls ⟨0, 0⟩ (sampleMsg 0 1004 0)
        (mixedWith reloadingReader)).2 0).map (fun r => r.readPos) = some (Iter.node 2) ∧
    ConditionMatch (sampleNode 2 0 1002).data reloadingReader.queryCondition = true ∧
    queryOf sampleDecls (Insert sampleDecls ⟨0, 0⟩ (sampleMsg 0 1004 0)
        (mixedWith reloadingReader)).2 0 = some (true, [(1, some (1000, 0))]) := by
  decide

end Hilog

namespace Hilog

/-! ## C10: the scan of `Query` -/

/-- C10: let `r1` be the reader after the reload and notified adjustments, and `s` the
records from its `readPos` to the end of its list.  Then `Query` returns, and it returns
true exactly when some record of `s` satisfies `ConditionMatch`; the record handed to
`WriteData` with send-id `SENDIDA` is then the first such record, `lastPos` is on it and
`readPos` on its successor; when no record of `s` matches, `Query` returns false with
`readPos` at list end, `isNotified` cleared and one end-of-stream delivery with send-id
`SENDIDN`. -/
theorem Query_delivers_first_match (D : Decls) (r r1 : LogReader) (b : HilogBuffer)
    (s : List Node)
    (hadj : applyNotified (listOfMask D r.queryCondition.types)
      (b.getList (listOfMask D r.queryCondition.types))
      (applyReload (listOfMask D r.queryCondition.types)
        (b.getList (listOfMask D r.queryCondition.types)) r) = some r1)
    (hs : nodesFrom (listOfMask D r.queryCondition.types)
      (b.getList (listOfMask D r.queryCondition.types)) r1.readPos = some s) :
    ∃ ok r2 b2, Query D r b = some (ok, r2, b2) ∧
      (ok = true ↔ ∃ x ∈ s, ConditionMatch x.data r.queryCondition = true) ∧
      (∀ pre x post, s = pre ++ x :: post →
        (∀ y ∈ pre, ConditionMatch y.data r.queryCondition = false) →
        ConditionMatch x.data r.queryCondition = true →
          ok = true ∧ r2.written = r.written ++ [(SENDIDA, some x.data)] ∧
          r2.sendId = SENDIDA ∧ r2.lastPos = Iter.node x.id ∧
          r2.readPos = firstIter (listOfMask D r.queryCondition.types) post) ∧
      ((∀ x ∈ s, ConditionMatch x.data r.queryCondition = false) →
          ok = false ∧ r2.readPos = Iter.pastEnd (listOfMask D r.queryCondition.types) ∧
          r2.isNotified = false ∧ r2.written = r.written ++ [(SENDIDN, none)] ∧
          r2.sendId = SENDIDN) := by
  obtain ⟨hq1, hw1⟩ := applyNotified_keeps _ _ _ _ hadj
  obtain ⟨hq0, hw0⟩ := applyReload_keeps (listOfMask D r.queryCondition.types)
    (b.getList (listOfMask D r.queryCondition.types)) r
  have hc : r1.queryCondition = r.queryCondition := hq1.trans hq0
  have hw : r1.written = r.written := hw1.trans hw0
  have hQ : Query D r b =
      some (queryLoop (listOfMask D r.queryCondition.types) s r1 b) :=
    Query_eq_queryLoop D r r1 b s hadj hs
  have hfirst : ∀ pre x post, s = pre ++ x :: post →
      (∀ y ∈ pre, ConditionMatch y.data r.queryCondition = false) →
      ConditionMatch x.data r.queryCondition = true →
      (queryLoop (listOfMask D r.queryCondition.types) s r1 b).1 = true ∧
      (queryLoop (listOfMask D r.queryCondition.types) s r1 b).2.1.written =
        r.written ++ [(SENDIDA, some x.data)] ∧
      (queryLoop (listOfMask D r.queryCondition.types) s r1 b).2.1.sendId = SENDIDA ∧
      (queryLoop (listOfMask D r.queryCondition.types) s r1 b).2.1.lastPos = Iter.node x.id ∧
      (queryLoop (listOfMask D r.queryCondition.types) s r1 b).2.1.readPos =
        firstIter (listOfMask D r.queryCondition.types) post := by
    intro pre x post hsplit hpre hx
    subst hsplit
    have := queryLoop_first_match (listOfMask D r.queryCondition.types) r.queryCondition b
      x post hx pre r1 hc hpre
    rw [hw] at this
    exact ⟨this.1, this.2.1, this.2.2.1, this.2.2.2.1, this.2.2.2.2.1⟩
  have hnone : (∀ x ∈ s, ConditionMatch x.data r.queryCondition = false) →
      (queryLoop (listOfMask D r.queryCondition.types) s r1 b).1 = false ∧
      (queryLoop (listOfMask D r.queryCondition.types) s r1 b).2.1.readPos =
        Iter.pastEnd (listOfMask D r.queryCondition.types) ∧
      (queryLoop (listOfMask D r.queryCondition.types) s r1 b).2.1.isNotified = false ∧
      (queryLoop (listOfMask D r.queryCondition.types) s r1 b).2.1.written =
        r.written ++ [(SENDIDN, none)] ∧
      (queryLoop (listOfMask D r.queryCondition.types) s r1 b).2.1.sendId = SENDIDN := by
    intro hno
    have := queryLoop_no_match (listOfMask D r.queryCondition.types) r.queryCondition b s
      r1 hc hno (fun h => nodesFrom_nil _ _ _ (h ▸ hs))
    rw [hw] at this
    exact ⟨this.1, this.2.1, this.2.2.1, this.2.2.2.1, this.2.2.2.2.1⟩
  refine ⟨_, _, _, hQ, ?_, hfirst, hnone⟩
  constructor
  · intro hok
    by_contra hne
    have hno : ∀ x ∈ s, ConditionMatch x.data r.queryCondition = false := by
      intro x hx
      cases hm : ConditionMatch x.data r.queryCondition with
      | false => rfl
      | true => exact absurd ⟨x, hx, hm⟩ hne
    rw [(hnone hno).1] at hok
    exact Bool.noConfusion hok
  · rintro ⟨x, hx, hm⟩
    obtain ⟨pre, y, post, hsplit, hy, hpre⟩ :=
      exists_first_match (fun n => ConditionMatch n.data r.queryCondition) s ⟨x, hx, hm⟩
    exact (hfirst pre y post hsplit hpre hy).1

/-- Witness for C10: a reloading reader that accepts everything, on the list 1000.0,
1001.0, and a notified reader whose two cursors are at the end of the list, as a `Query` on
the empty list left them, on the list of one record, where the notified adjustment takes
`readPos` to the first record: `Query` returns, and returns true exactly when some record of
the list matches. -/
theorem Query_delivers_first_match_witness :
    (∃ ok r2 b2, Query sampleDecls sampleReader twoSorted = some (ok, r2, b2) ∧
      (ok = true ↔ ∃ x ∈ twoSorted.hilogDataList,
        ConditionMatch x.data sampleReader.queryCondition = true)) ∧
    (∃ ok r2 b2, Query sampleDecls notifiedAtEnd oneRecord = some (ok, r2, b2) ∧
      (ok = true ↔ ∃ x ∈ oneRecord.hilogDataList,
        ConditionMatch x.data notifiedAtEnd.queryCondition = true)) := by
  constructor
  · obtain ⟨ok, r2, b2, h1, h2, -, -⟩ := Query_delivers_first_match sampleDecls sampleReader
      (applyReload ListSel.main twoSorted.hilogDataList sampleReader) twoSorted
      twoSorted.hilogDataList (by decide) (by decide)
    exact ⟨ok, r2, b2, h1, h2⟩
  · obtain ⟨ok, r2, b2, h1, h2, -, -⟩ := Query_delivers_first_match sampleDecls notifiedAtEnd
      { notifiedAtEnd with readPos := Iter.node 0 } oneRecord
      oneRecord.hilogDataList (by decide) (by decide)
    exact ⟨ok, r2, b2, h1, h2⟩

end Hilog

namespace Hilog

/-! ## C11: the list `Delete` works on -/

theorem ne_one_shiftLeft_self (k : Nat) : k ≠ 1 <<< k := by
  rw [Nat.one_shiftLeft]
  exact Nat.ne_of_lt (Nat.lt_two_pow k)

/-- C11: for the kernel type the claim fails on the code.  `Delete` chooses its list by
comparing its argument with `1 << LOG_KMSG`, which no type index equal to `LOG_KMSG`
satisfies, so `Delete(LOG_KMSG)` walks the main list and never touches `hilogKlogList`,
where `Insert` stores that type.  On the buffer holding one kernel record of three content
bytes, `Delete(LOG_KMSG)` returns 0, the record stays and `sizeByType[LOG_KMSG]` stays 3. -/
theorem Delete_kmsg_leaves_klog_list :
    (∀ (D : Decls) (b : HilogBuffer),
      (Delete D D.LOG_KMSG b).2.hilogKlogList = b.hilogKlogList) ∧
    listOfType sampleDecls 4 = ListSel.klog ∧
    stampsOf oneKmsg.hilogKlogList = [(1000, 0)] ∧
    (Delete sampleDecls 4 oneKmsg).1 = 0 ∧
    stampsOf (Delete sampleDecls 4 oneKmsg).2.hilogKlogList = [(1000, 0)] ∧
    (Delete sampleDecls 4 oneKmsg).2.sizeByType 4 = 3 := by
  refine ⟨?_, by decide, by decide, by decide, by decide, by decide⟩
  intro D b
  unfold Delete
  split
  · rfl
  · have hsel : listOfMask D D.LOG_KMSG = ListSel.main := by
      unfold listOfMask
      rw [if_neg (ne_one_shiftLeft_self D.LOG_KMSG)]
    rw [hsel]
    exact (getList_setList_ne _ ListSel.main ListSel.klog _ (by decide)).trans
      (deleteLoop_getList ListSel.main ListSel.klog D.LOG_KMSG _ 0 b)

end Hilog

namespace Hilog

/-! ## C18: the caps set by `SetBuffLen` -/

/-- C18: the adjustment of the global cap is not the one claimed.  Line 257 adds
`buffSize - sizeByType[logType]`, the new cap minus the bytes resident for the type, where
the claim has the new cap minus the previous cap.  On the initial buffer (cap 262144 and no
resident bytes for type 0), `SetBuffLen(0, 524288)` returns 524288 and sets the cap of type 0
to it, leaves the cap of type 1, and moves the global cap from 4194304 to 4718592, a change
of 524288 instead of 524288 - 262144. -/
theorem SetBuffLen_global_cap_uses_resident_size :
    (∀ (D : Decls) (t n : Nat) (b : HilogBuffer), t < D.LOG_TYPE_MAX → 0 < n →
      n ≤ D.MAX_BUFFER_SIZE →
      (SetBuffLen D t n b).2.g_maxBufferSize =
        toInt32 (b.g_maxBufferSize + ((n : Int) - (b.sizeByType t : Int)))) ∧
    (SetBuffLen sampleDecls 0 524288 HilogBuffer.init).1 = 524288 ∧
    GetBuffLen sampleDecls 0 (SetBuffLen sampleDecls 0 524288 HilogBuffer.init).2 = 524288 ∧
    GetBuffLen sampleDecls 1 (SetBuffLen sampleDecls 0 524288 HilogBuffer.init).2 = 262144 ∧
    HilogBuffer.init.g_maxBufferSize = 4194304 ∧
    (SetBuffLen sampleDecls 0 524288 HilogBuffer.init).2.g_maxBufferSize = 4718592 ∧
    (4718592 : Int) - 4194304 ≠ 524288 - 262144 := by
  refine ⟨?_, by decide, by decide, by decide, by decide, by decide, by decide⟩
  intro D t n b ht hn hmax
  unfold SetBuffLen
  rw [if_neg (by omega), if_neg (by omega)]

/-! ## C19: the fuzzy domain pattern -/

/-- C19, as it stands: the record of domain `0x0d12345` is rejected under
`domains = [0x000d1234]`, because `0x0d12345 >> 8` is `0xd123`, not `0xd1234`. -/
theorem ConditionMatch_rejects_spec_fuzzy_example :
    (0x0d12345 : Nat) >>> 8 = 0xd123 ∧
    ConditionMatch (recordOfDomain 0x0d12345) { acceptAll with domains := [0x000d1234] } =
      false := by
  decide

/-- C19, amended: the record of domain `0x0d12345` matches `domains = [0xd123]`, its domain
shifted right by 8 bits, and the pattern `0x000d1234` matches the records whose domain
shifted right by 8 bits is `0xd1234`, such as `0xd123456`; type and level accepted, `pids`
and `tags` empty, no exclusion. -/
theorem ConditionMatch_fuzzy_domain_shift :
    ConditionMatch (recordOfDomain 0x0d12345) { acceptAll with domains := [0xd123] } = true ∧
    ConditionMatch (recordOfDomain 0xd123456) { acceptAll with domains := [0x000d1234] } =
      true ∧
    (∀ domain : Nat, domain >>> 8 = 0xd1234 →
      ConditionMatch (recordOfDomain domain) { acceptAll with domains := [0x000d1234] } =
        true) := by
  refine ⟨by decide, by decide, ?_⟩
  intro domain h
  rw [ConditionMatch_iff]
  have h1 : maskBit8 0 0x1f ≠ 0 ∧ maskBit8 3 0xff ≠ 0 := by decide
  have h2 : maskBit8 0 0 = 0 ∧ maskBit8 3 0 = 0 := by decide
  refine ⟨h1, Or.inl rfl, Or.inr ⟨0x000d1234, List.mem_singleton.mpr rfl, ?_⟩,
    Or.inl rfl, by simp [acceptAll], by simp [acceptAll], by simp [acceptAll], h2⟩
  show domainIncluded domain 0x000d1234 = true
  unfold domainIncluded
  simp [DOMAIN_MODULE_BITS, h, DOMAIN_STRICT_MASK, DOMAIN_FUZZY_MASK]

/-! ## C20: one more inclusion term -/

/-- C20, as it stands: with `pids = [1]` the record of pid 7 is rejected, and with the pid 7
appended to `pids` it is accepted. -/
theorem ConditionMatch_more_pids_accepts_more :
    ConditionMatch (recordOfDomain 0xd000001) { acceptAll with pids := [1] } = false ∧
    ConditionMatch (recordOfDomain 0xd000001) { acceptAll with pids := [1, 7] } = true := by
  decide

/-- C20, amended: a first term put into an empty inclusion list (`pids`, `domains` or
`tags`) never turns a rejected record into an accepted one, and a term appended to a
non-empty inclusion list never turns an accepted record into a rejected one. -/
theorem ConditionMatch_inclusion_term (r : HilogData) (c : QueryCondition) :
    (∀ p, c.pids = [] → ConditionMatch r c = false →
      ConditionMatch r { c with pids := [p] } = false) ∧
    (∀ d, c.domains = [] → ConditionMatch r c = false →
      ConditionMatch r { c with domains := [d] } = false) ∧
    (∀ t, c.tags = [] → ConditionMatch r c = false →
      ConditionMatch r { c with tags := [t] } = false) ∧
    (∀ p, c.pids ≠ [] → ConditionMatch r c = true →
      ConditionMatch r { c with pids := c.pids ++ [p] } = true) ∧
    (∀ d, c.domains ≠ [] → ConditionMatch r c = true →
      ConditionMatch r { c with domains := c.domains ++ [d] } = true) ∧
    (∀ t, c.tags ≠ [] → ConditionMatch r c = true →
      ConditionMatch r { c with tags := c.tags ++ [t] } = true) := by
  have hf : ∀ c' : QueryCondition, (ConditionMatch r c' = true → ConditionMatch r c = true) →
      ConditionMatch r c = false → ConditionMatch r c' = false := by
    intro c' h hc
    cases hm : ConditionMatch r c' with
    | false => rfl
    | true => rw [h hm] at hc; exact Bool.noConfusion hc
  refine ⟨fun p hp => hf _ ?_, fun d hd => hf _ ?_, fun t ht => hf _ ?_, ?_, ?_, ?_⟩
  · rw [ConditionMatch_iff, ConditionMatch_iff]
    rintro ⟨h1, -, h3, h4, h5⟩
    exact ⟨h1, Or.inl hp, h3, h4, h5⟩
  · rw [ConditionMatch_iff, ConditionMatch_iff]
    rintro ⟨h1, h2, -, h4, h5⟩
    exact ⟨h1, h2, Or.inl hd, h4, h5⟩
  · rw [ConditionMatch_iff, ConditionMatch_iff]
    rintro ⟨h1, h2, h3, -, h5⟩
    exact ⟨h1, h2, h3, Or.inl ht, h5⟩
  · intro p hp
    rw [ConditionMatch_iff, ConditionMatch_iff]
    rintro ⟨h1, h2, h3, h4, h5⟩
    refine ⟨h1, Or.inr ?_, h3, h4, h5⟩
    rcases h2 with h2 | h2
    · exact absurd h2 hp
    · exact List.mem_append_left _ h2
  · intro d hd
    rw [ConditionMatch_iff, ConditionMatch_iff]
    rintro ⟨h1, h2, h3, h4, h5⟩
    refine ⟨h1, h2, Or.inr ?_, h4, h5⟩
    rcases h3 with h3 | ⟨d', hd', hm⟩
    · exact absurd h3 hd
    · exact ⟨d', List.mem_append_left _ hd', hm⟩
  · intro t ht
    rw [ConditionMatch_iff, ConditionMatch_iff]
    rintro ⟨h1, h2, h3, h4, h5⟩
    refine ⟨h1, h2, h3, Or.inr ?_, h5⟩
    rcases h4 with h4 | h4
    · exact absurd h4 ht
    · exact List.mem_append_left _ h4

end Hilog

namespace Hilog

/-! ## C12: the files after `n` segments -/

namespace LogPersisterRotator

end LogPersisterRotator


end Hilog

namespace Hilog

/-! ## C13: `WriteData` without compression -/

namespace LogPersister

end LogPersister


end Hilog

namespace Hilog

/-! ## C14 and C15: the flush of `WriteFile` -/

/-- C14: the flush made by `WriteFile` (on the idle timeout, on the exit of the worker and
on restore in `Init`) loses the staged bytes when the persister compresses.  For every
persister with `compressAlg ≠ 0` it resets the cursor to 0 and passes nothing to the
rotator; with "hello" staged and algorithm 1, the rotator has received no buffer afterwards
and the cursor is 0, whereas without compression the same call passes "hello". -/
theorem WriteFile_drops_staged_bytes_when_compressing :
    (∀ p : LogPersister, p.compressAlg ≠ 0 →
      (LogPersister.WriteFile p).rotator = p.rotator ∧
      (LogPersister.WriteFile p).offset = 0) ∧
    (stagedPersister 1).staged = [104, 101, 108, 108, 111] ∧
    (LogPersister.WriteFile (stagedPersister 1)).rotator.inputs = [] ∧
    (LogPersister.WriteFile (stagedPersister 1)).offset = 0 ∧
    (LogPersister.WriteFile (stagedPersister 0)).rotator.inputs =
      [[104, 101, 108, 108, 111]] := by
  refine ⟨?_, by decide, by decide, by decide, by decide⟩
  intro p hp
  unfold LogPersister.WriteFile
  by_cases hz : p.offset = 0
  · rw [if_pos hz]; exact ⟨rfl, hz⟩
  · rw [if_neg hz, if_neg hp]; exact ⟨rfl, rfl⟩

theorem hexVal_hexChar (d : Nat) (h : d < 16) :
    LogPersister.hexVal (LogPersister.hexChar d) = some d := by
  interval_cases d <;> rfl

/-- The text written by `SetBufferOffset(off)` is read back as `off` by the `%04x` of
`Init`, for every offset of at most four hexadecimal digits. -/
theorem scanHex04_hex04 (garbage off : Nat) (rest : List Nat) (h : off < 65536) :
    LogPersister.scanHex04 garbage (LogPersister.hex04 off ++ [10] ++ rest) = some off := by
  unfold LogPersister.hex04
  rw [if_pos h]
  have h1 := hexVal_hexChar (off / 4096) (by omega)
  have h2 := hexVal_hexChar (off / 256 % 16) (by omega)
  have h3 := hexVal_hexChar (off / 16 % 16) (by omega)
  have h4 := hexVal_hexChar (off % 16) (by omega)
  simp only [LogPersister.scanHex04, List.cons_append, List.nil_append,
    LogPersister.hexPrefix, h1, h2, h3, h4, List.foldl_cons, List.foldl_nil]
  rw [if_neg (List.cons_ne_nil _ _)]
  congr 1
  omega

/-- C15: on restore, `Init` reads the cursor 5 back from the info file, but with a
compressing persister (algorithm 1) its flush passes nothing to the rotator before the
cursor is reset to 0: the five staged bytes found in the mapped file are lost.  Without
compression the same restore passes exactly these five bytes. -/
theorem Init_restore_drops_bytes_when_compressing :
    LogPersister.scanHex04 0 restoreIO.infoText = some 5 ∧
    (LogPersister.Init restoreIO (samplePersister 1) []).1 = 0 ∧
    (LogPersister.Init restoreIO (samplePersister 1) []).2.1.offset = 0 ∧
    (LogPersister.Init restoreIO (samplePersister 1) []).2.1.rotator.inputs = [] ∧
    (LogPersister.Init restoreIO (samplePersister 0) []).2.1.offset = 0 ∧
    (LogPersister.Init restoreIO (samplePersister 0) []).2.1.rotator.inputs =
      [[104, 101, 108, 108, 111]] := by
  decide

/-! ## C16 and C17: the registry of persisters -/

theorem killLoop_spec (id : Nat) (reg : List LogPersister) :
    ∀ found : Bool,
      LogPersister.killLoop id reg found =
        (reg.filter (fun q => decide (q.id ≠ id)),
         found || reg.any (fun q => decide (q.id = id))) := by
  induction reg with
  | nil => intro found; simp [LogPersister.killLoop]
  | cons q qs ih =>
    intro found
    unfold LogPersister.killLoop
    by_cases h : q.id = id
    · rw [if_pos h, ih true]
      simp [h]
    · rw [if_neg h, ih found]
      simp [h]

theorem SetBufferOffset_id_path (off : Nat) (p : LogPersister) :
    (LogPersister.SetBufferOffset off p).id = p.id ∧
      (LogPersister.SetBufferOffset off p).path = p.path :=
  ⟨rfl, rfl⟩

theorem WriteFile_id_path (p : LogPersister) :
    (LogPersister.WriteFile p).id = p.id ∧ (LogPersister.WriteFile p).path = p.path := by
  unfold LogPersister.WriteFile
  split
  · exact ⟨rfl, rfl⟩
  · split <;> exact ⟨rfl, rfl⟩

theorem finishInit_registry (io : LogPersister.InitIO) (restore : Bool) (p : LogPersister)
    (reg : List LogPersister) :
    (LogPersister.finishInit io restore p reg).2.2 = reg ∨
      ∃ q, q.id = p.id ∧ q.path = p.path ∧
        (LogPersister.finishInit io restore p reg).2.2 = reg ++ [q] := by
  unfold LogPersister.finishInit
  cases restore with
  | false => exact Or.inr ⟨LogPersister.SetBufferOffset 0 p, rfl, rfl, rfl⟩
  | true =>
    simp only [if_true]
    cases LogPersister.scanHex04 io.moffsetGarbage io.infoText with
    | none => exact Or.inl rfl
    | some m =>
      exact Or.inr ⟨LogPersister.WriteFile (LogPersister.SetBufferOffset m p),
        (WriteFile_id_path _).1, (WriteFile_id_path _).2, rfl⟩

theorem openAndMap_registry (io : LogPersister.InitIO) (p : LogPersister)
    (reg : List LogPersister) :
    (LogPersister.openAndMap io p reg).2.2 = reg ∨
      ∃ q, q.id = p.id ∧ q.path = p.path ∧
        (LogPersister.openAndMap io p reg).2.2 = reg ++ [q] := by
  unfold LogPersister.openAndMap
  by_cases h1 : LogPersister.initFd io < 0
  · rw [if_pos h1]; exact Or.inl rfl
  · rw [if_neg h1]
    by_cases h2 : ¬ io.infoOpened
    · rw [if_pos h2]; exact Or.inl rfl
    · rw [if_neg h2]
      cases io.mapped with
      | none => exact Or.inl rfl
      | some bytes => exact finishInit_registry io _ _ reg

theorem Init_registry (io : LogPersister.InitIO) (p : LogPersister)
    (reg : List LogPersister) :
    (LogPersister.Init io p reg).2.2 = reg ∨
      (reg.any (fun q => decide (q.path = p.path) || decide (q.id = p.id)) = false ∧
        ∃ q, q.id = p.id ∧ q.path = p.path ∧ (LogPersister.Init io p reg).2.2 = reg ++ [q]) := by
  unfold LogPersister.Init
  by_cases h1 : ¬ ('/' ∈ p.path.toList)
  · rw [if_pos h1]; exact Or.inl rfl
  · rw [if_neg h1]
    by_cases h2 : reg.any (fun q => decide (q.path = p.path) || decide (q.id = p.id)) = true
    · rw [if_pos h2]; exact Or.inl rfl
    · rw [if_neg h2]
      rcases openAndMap_registry io p reg with h | h
      · exact Or.inl h
      · exact Or.inr ⟨by simpa using h2, h⟩

/-- C16: `Init` returns `RET_FAIL` and leaves the registry as it was whenever a registered
persister has the same output path or the same id; and in every registry that `Init` and
`Kill` calls produce from the empty registry, no two persisters share an id or a path. -/
theorem Init_keeps_jobs_unique :
    (∀ (io : LogPersister.InitIO) (p : LogPersister) (reg : List LogPersister),
      (∃ q ∈ reg, q.path = p.path ∨ q.id = p.id) →
        (LogPersister.Init io p reg).1 = RET_FAIL ∧ (LogPersister.Init io p reg).2.2 = reg) ∧
    (∀ reg : List LogPersister, RegistryReachable reg → uniqueJobs reg) := by
  constructor
  · rintro io p reg ⟨q, hq, hclash⟩
    have hany : reg.any (fun q => decide (q.path = p.path) || decide (q.id = p.id)) = true := by
      rw [List.any_eq_true]
      exact ⟨q, hq, by simpa using hclash⟩
    unfold LogPersister.Init
    by_cases h1 : ¬ ('/' ∈ p.path.toList)
    · rw [if_pos h1]; exact ⟨rfl, rfl⟩
    · rw [if_neg h1, if_pos hany]; exact ⟨rfl, rfl⟩
  · intro reg hreach
    induction hreach with
    | empty => exact List.Pairwise.nil
    | init io p reg _ ih =>
      rcases Init_registry io p reg with h | ⟨hany, q, hid, hpath, h⟩
      · rw [h]; exact ih
      · rw [h]
        unfold uniqueJobs
        rw [List.pairwise_append]
        refine ⟨ih, List.pairwise_singleton _ _, ?_⟩
        intro a ha b hb
        rw [List.mem_singleton] at hb
        subst hb
        rw [List.any_eq_false] at hany
        have := hany a ha
        simp only [Bool.or_eq_true, decide_eq_true_eq, not_or] at this
        rw [hid, hpath]
        exact ⟨this.2, this.1⟩
    | kill id reg _ ih =>
      unfold LogPersister.Kill
      rw [killLoop_spec]
      exact List.Pairwise.sublist (List.filter_sublist _) ih

/-- C17: `Kill(id)` returns 0 if some registered persister has that id and -1 otherwise;
the registry afterwards is the registry before without the persisters of that id, the
others in their order. -/
theorem Kill_removes_id (id : Nat) (reg : List LogPersister) :
    ((∃ q ∈ reg, q.id = id) → (LogPersister.Kill id reg).1 = 0) ∧
    ((¬ ∃ q ∈ reg, q.id = id) → (LogPersister.Kill id reg).1 = -1) ∧
    (LogPersister.Kill id reg).2 = reg.filter (fun q => decide (q.id ≠ id)) ∧
    (∀ q ∈ (LogPersister.Kill id reg).2, q.id ≠ id) ∧
    (∀ q ∈ reg, q.id ≠ id → q ∈ (LogPersister.Kill id reg).2) := by
  have hk : LogPersister.Kill id reg =
      (if reg.any (fun q => decide (q.id = id)) = true then 0 else -1,
       reg.filter (fun q => decide (q.id ≠ id))) := by
    unfold LogPersister.Kill
    rw [killLoop_spec]
    simp
  rw [hk]
  refine ⟨?_, ?_, rfl, ?_, ?_⟩
  · rintro ⟨q, hq, hid⟩
    have : reg.any (fun q => decide (q.id = id)) = true :=
      List.any_eq_true.mpr ⟨q, hq, by simpa using hid⟩
    simp only [this, if_true]
  · intro hno
    have : ¬ reg.any (fun q => decide (q.id = id)) = true := by
      rw [List.any_eq_true]
      rintro ⟨q, hq, hid⟩
      exact hno ⟨q, hq, by simpa using hid⟩
    simp only [this, if_false]
    rfl
  · intro q hq
    simpa using (List.mem_filter.mp hq).2
  · intro q hq hid
    exact List.mem_filter.mpr ⟨hq, by simpa using hid⟩

end Hilog

namespace Hilog

/-! ## The accounting invariant -/

theorem accepted_content_len (m : HilogMsg) (h : m.accepted) :
    1 ≤ CONTENT_LEN m ∧ CONTENT_LEN m ≤ 1024 := by
  unfold HilogMsg.accepted MAX_LOG_LEN at h
  omega

theorem cLen_ofMsg (D : Decls) (h : storesContentLength D) (m : HilogMsg)
    (hm : m.accepted) : cLen (HilogData.ofMsg D m) = CONTENT_LEN m := by
  have hc := (accepted_content_len m hm).2
  unfold cLen HilogData.ofMsg
  simp only
  rw [h m]
  have : ((m.tag_len + CONTENT_LEN m : Nat) : Int) - (m.tag_len : Int) =
      ((CONTENT_LEN m : Nat) : Int) := by push_cast; ring
  rw [this, intToSz_natCast _ (by unfold SIZE_MOD; omega)]

theorem intToSz_of_cap (c : Int) (h0 : 0 ≤ c) (h1 : c < 2 ^ 31) :
    (intToSz c : Int) = c ∧ intToSz c < 2 ^ 31 := by
  obtain ⟨n, rfl⟩ := Int.eq_ofNat_of_zero_le h0
  have hn : n < 2 ^ 31 := by exact_mod_cast h1
  rw [intToSz_natCast n (by unfold SIZE_MOD; omega)]
  exact ⟨rfl, hn⟩

theorem evictIfFull_caps (sel : ListSel) (msg : HilogMsg) (b : HilogBuffer) :
    (evictIfFull sel msg b).g_maxBufferSizeByType = b.g_maxBufferSizeByType := by
  unfold evictIfFull
  split
  · unfold evict; rw [setList_caps, dropOld_caps]
  · rfl

theorem evictIfFull_sizeByType_ne (sel : ListSel) (msg : HilogMsg) (b : HilogBuffer)
    (t : Nat) (h : t ≠ msg.type) :
    (evictIfFull sel msg b).sizeByType t = b.sizeByType t := by
  unfold evictIfFull
  split
  · exact evict_sizeByType_ne sel msg.type t h b
  · rfl

theorem evictIfFull_sublist (sel sel' : ListSel) (msg : HilogMsg) (b : HilogBuffer) :
    ((evictIfFull sel msg b).getList sel').Sublist (b.getList sel') := by
  unfold evictIfFull
  split
  · by_cases h : sel' = sel
    · subst h
      rw [evict_getList_same]
      exact dropOld_sublist _ _ _ _
    · rw [evict_getList_ne _ _ _ _ h]
  · exact List.Sublist.refl _

theorem evictIfFull_typeSum_ne (sel sel' : ListSel) (msg : HilogMsg) (b : HilogBuffer)
    (t : Nat) (h : t ≠ msg.type) :
    typeSum t ((evictIfFull sel msg b).getList sel') = typeSum t (b.getList sel') := by
  unfold evictIfFull
  split
  · by_cases hs : sel' = sel
    · subst hs
      rw [evict_getList_same, dropOld_typeSum_ne _ _ _ h]
    · rw [evict_getList_ne _ _ _ _ hs]
  · rfl

/-- The eviction step on a buffer whose counter for the type of the message is the sum over
the list: the counter stays the sum over the list and does not grow, and when the step is
entered it ends below the threshold or at zero. -/
theorem evictIfFull_own (sel : ListSel) (msg : HilogMsg) (b : HilogBuffer)
    (hsum : b.sizeByType msg.type = typeSum msg.type (b.getList sel))
    (hlt : b.sizeByType msg.type < SIZE_MOD) :
    (evictIfFull sel msg b).sizeByType msg.type =
        typeSum msg.type ((evictIfFull sel msg b).getList sel) ∧
      (evictIfFull sel msg b).sizeByType msg.type ≤ b.sizeByType msg.type ∧
      (addSz (CONTENT_LEN msg) (b.sizeByType msg.type) ≥
          intToSz (b.g_maxBufferSizeByType msg.type) →
        exceedsDropLimit ((evictIfFull sel msg b).sizeByType msg.type)
            (b.g_maxBufferSizeByType msg.type) = false ∨
          (evictIfFull sel msg b).sizeByType msg.type = 0) ∧
      (¬ addSz (CONTENT_LEN msg) (b.sizeByType msg.type) ≥
          intToSz (b.g_maxBufferSizeByType msg.type) → evictIfFull sel msg b = b) := by
  obtain ⟨i1, i2, i3⟩ := dropOld_account sel msg.type (b.getList sel) b hsum (by omega)
  unfold evictIfFull
  by_cases hg : addSz (CONTENT_LEN msg) (b.sizeByType msg.type) ≥
      intToSz (b.g_maxBufferSizeByType msg.type)
  · rw [if_pos hg]
    refine ⟨?_, ?_, fun _ => ?_, fun h => absurd hg h⟩
    · rw [evict_getList_same]; unfold evict; rw [setList_sizeByType]; exact i1
    · unfold evict; rw [setList_sizeByType]; exact i3
    · unfold evict; rw [setList_sizeByType]; exact i2
  · rw [if_neg hg]
    exact ⟨hsum, Nat.le_refl _, fun h => absurd h hg, fun _ => rfl⟩

theorem Insert_sizeByType_own (D : Decls) (slot : LogTimeStamp) (msg : HilogMsg)
    (b : HilogBuffer) (h : msg.accepted) :
    (Insert D slot msg b).2.sizeByType msg.type =
      addSz ((evictIfFull (listOfType D msg.type) msg b).sizeByType msg.type)
        (CONTENT_LEN msg) := by
  rw [Insert_of_accepted D slot msg b h]
  simp [account]

theorem Insert_sizeByType_ne (D : Decls) (slot : LogTimeStamp) (msg : HilogMsg)
    (b : HilogBuffer) (t : Nat) (ht : t ≠ msg.type) :
    (Insert D slot msg b).2.sizeByType t = b.sizeByType t := by
  by_cases h : msg.accepted
  · rw [Insert_of_accepted D slot msg b h]
    simp [account, ht, evictIfFull_sizeByType_ne _ _ _ _ ht]
  · rw [Insert_of_not_accepted D slot msg b h]

theorem Insert_caps (D : Decls) (slot : LogTimeStamp) (msg : HilogMsg) (b : HilogBuffer) :
    (Insert D slot msg b).2.g_maxBufferSizeByType = b.g_maxBufferSizeByType := by
  by_cases h : msg.accepted
  · rw [Insert_of_accepted D slot msg b h]
    show (emplace D slot _ msg _).g_maxBufferSizeByType = _
    rw [emplace_caps, evictIfFull_caps]
  · rw [Insert_of_not_accepted D slot msg b h]

theorem Insert_getList_same (D : Decls) (slot : LogTimeStamp) (msg : HilogMsg)
    (b : HilogBuffer) (h : msg.accepted) :
    (Insert D slot msg b).2.getList (listOfType D msg.type) =
      place slot msg.stamp
        ⟨(evictIfFull (listOfType D msg.type) msg b).nextId, HilogData.ofMsg D msg⟩
        ((evictIfFull (listOfType D msg.type) msg b).getList (listOfType D msg.type)) := by
  rw [Insert_of_accepted D slot msg b h]
  simp

theorem Insert_getList_ne (D : Decls) (slot : LogTimeStamp) (msg : HilogMsg)
    (b : HilogBuffer) (sel : ListSel) (hs : sel ≠ listOfType D msg.type) :
    (Insert D slot msg b).2.getList sel = b.getList sel := by
  by_cases h : msg.accepted
  · rw [Insert_of_accepted D slot msg b h]
    simp only [account_getList]
    rw [emplace_getList_ne _ _ _ _ _ _ hs]
    unfold evictIfFull
    split
    · exact evict_getList_ne _ _ _ _ hs
    · rfl
  · rw [Insert_of_not_accepted D slot msg b h]

theorem Sound_init (D : Decls) : Sound D HilogBuffer.init where
  sums := by intro t; cases h : listOfType D t <;> rfl
  home := by intro sel x hx; cases sel <;> simp [HilogBuffer.init, HilogBuffer.getList] at hx
  made := by intro sel x hx; cases sel <;> simp [HilogBuffer.init, HilogBuffer.getList] at hx
  caps := by
    intro t
    show 0 ≤ (if t < 5 then (262144 : Int) else 0) ∧ (if t < 5 then (262144 : Int) else 0) < 2 ^ 31
    split <;> decide
  room := by
    intro t
    show ((0 : Nat) : Int) ≤ (if t < 5 then (262144 : Int) else 0) + 1024
    split <;> decide
  fits := by
    intro t _
    show ((0 : Nat) : Int) ≤ (if t < 5 then (262144 : Int) else 0)
    split <;> decide

/-- The size of the type of an accepted message after `Insert`, in a buffer that satisfies
the invariant: the size after the eviction step plus the content length, within the cap
when the cap is 20480 bytes or more, and within the cap plus 1024 bytes otherwise. -/
theorem Insert_own_bounds (D : Decls) (slot : LogTimeStamp) (msg : HilogMsg)
    (b : HilogBuffer) (hb : Sound D b) (h : msg.accepted) :
    (Insert D slot msg b).2.sizeByType msg.type =
        (evictIfFull (listOfType D msg.type) msg b).sizeByType msg.type + CONTENT_LEN msg ∧
      ((Insert D slot msg b).2.sizeByType msg.type : Int) ≤
        b.g_maxBufferSizeByType msg.type + 1024 ∧
      (20480 ≤ b.g_maxBufferSizeByType msg.type →
        ((Insert D slot msg b).2.sizeByType msg.type : Int) ≤
          b.g_maxBufferSizeByType msg.type) := by
  obtain ⟨hc1, hc2⟩ := accepted_content_len msg h
  obtain ⟨hcap0, hcap1⟩ := hb.caps msg.type
  have hroom := hb.room msg.type
  have hS : b.sizeByType msg.type < SIZE_MOD := by unfold SIZE_MOD; omega
  obtain ⟨e1, e2, e3, e4⟩ := evictIfFull_own (listOfType D msg.type) msg b (hb.sums msg.type) hS
  obtain ⟨k1, k2⟩ := intToSz_of_cap _ hcap0 hcap1
  have hadd : addSz ((evictIfFull (listOfType D msg.type) msg b).sizeByType msg.type)
      (CONTENT_LEN msg) =
      (evictIfFull (listOfType D msg.type) msg b).sizeByType msg.type + CONTENT_LEN msg :=
    addSz_of_lt _ _ (by unfold SIZE_MOD; omega)
  rw [Insert_sizeByType_own D slot msg b h, hadd]
  refine ⟨rfl, ?_⟩
  by_cases hg : addSz (CONTENT_LEN msg) (b.sizeByType msg.type) ≥
      intToSz (b.g_maxBufferSizeByType msg.type)
  · rcases e3 hg with hx | hx
    · have := exceedsDropLimit_false_approx _ _ hcap0 hx
      constructor
      · push_cast; omega
      · intro h20; push_cast; omega
    · rw [hx]
      constructor
      · push_cast; omega
      · intro h20; push_cast; omega
  · rw [e4 hg]
    have hadd2 : addSz (CONTENT_LEN msg) (b.sizeByType msg.type) =
        CONTENT_LEN msg + b.sizeByType msg.type := addSz_of_lt _ _ (by unfold SIZE_MOD; omega)
    rw [hadd2] at hg
    constructor
    · push_cast; omega
    · intro h20; push_cast; omega

theorem Sound_Insert (D : Decls) (hD : storesContentLength D) (slot : LogTimeStamp)
    (msg : HilogMsg) (b : HilogBuffer) (hb : Sound D b) : Sound D (Insert D slot msg b).2 := by
  by_cases h : msg.accepted
  swap
  · rw [Insert_of_not_accepted D slot msg b h]; exact hb
  obtain ⟨hc1, hc2⟩ := accepted_content_len msg h
  obtain ⟨o1, o2, o3⟩ := Insert_own_bounds D slot msg b hb h
  have hS : b.sizeByType msg.type < SIZE_MOD := by
    have := hb.room msg.type
    have := (hb.caps msg.type).2
    unfold SIZE_MOD; omega
  obtain ⟨e1, -, -, -⟩ := evictIfFull_own (listOfType D msg.type) msg b (hb.sums msg.type) hS
  have hmem : ∀ sel x, x ∈ (Insert D slot msg b).2.getList sel →
      (sel = listOfType D msg.type ∧ x.data = HilogData.ofMsg D msg) ∨ x ∈ b.getList sel := by
    intro sel x hx
    by_cases hs : sel = listOfType D msg.type
    · subst hs
      rw [Insert_getList_same D slot msg b h, mem_place] at hx
      rcases hx with hx | hx
      · exact Or.inl ⟨rfl, by rw [hx]⟩
      · exact Or.inr ((evictIfFull_sublist _ _ _ _).subset hx)
    · rw [Insert_getList_ne D slot msg b sel hs] at hx
      exact Or.inr hx
  constructor
  · intro t
    by_cases ht : t = msg.type
    · subst ht
      rw [o1, Insert_getList_same D slot msg b h, typeSum_place, e1]
      simp [HilogData.ofMsg, cLen_ofMsg D hD msg h]
      have := cLen_ofMsg D hD msg h
      simpa [HilogData.ofMsg] using this.symm
    · rw [Insert_sizeByType_ne D slot msg b t ht, hb.sums t]
      by_cases hs : listOfType D t = listOfType D msg.type
      · rw [hs, Insert_getList_same D slot msg b h, typeSum_place,
          evictIfFull_typeSum_ne _ _ _ _ _ ht]
        have : ¬ (HilogData.ofMsg D msg).type = t := fun e => ht e.symm
        simp [this]
      · rw [Insert_getList_ne D slot msg b _ hs]
  · intro sel x hx
    rcases hmem sel x hx with ⟨hs, hd⟩ | hx'
    · rw [hd, hs]; rfl
    · exact hb.home sel x hx'
  · intro sel x hx
    rcases hmem sel x hx with ⟨hs, hd⟩ | hx'
    · exact ⟨msg, h, hd, by rw [hd]; exact cLen_ofMsg D hD msg h⟩
    · exact hb.made sel x hx'
  · intro t
    rw [Insert_caps]; exact hb.caps t
  · intro t
    rw [Insert_caps]
    by_cases ht : t = msg.type
    · subst ht; exact o2
    · rw [Insert_sizeByType_ne D slot msg b t ht]; exact hb.room t
  · intro t
    rw [Insert_caps]
    by_cases ht : t = msg.type
    · subst ht; exact o3
    · rw [Insert_sizeByType_ne D slot msg b t ht]; exact hb.fits t

theorem Delete_of_lt (D : Decls) (t : Nat) (b : HilogBuffer) (h : t < D.LOG_TYPE_MAX) :
    (Delete D t b).2 =
      (deleteLoop (listOfMask D t) t (b.getList (listOfMask D t)) 0 b).2.2.setList
        (listOfMask D t) (deleteLoop (listOfMask D t) t (b.getList (listOfMask D t)) 0 b).1 := by
  unfold Delete
  rw [if_neg (by omega)]

theorem Delete_of_ge (D : Decls) (t : Nat) (b : HilogBuffer) (h : D.LOG_TYPE_MAX ≤ t) :
    (Delete D t b).2 = b := by
  unfold Delete
  rw [if_pos h]

theorem Delete_caps (D : Decls) (t : Nat) (b : HilogBuffer) :
    (Delete D t b).2.g_maxBufferSizeByType = b.g_maxBufferSizeByType := by
  by_cases h : t < D.LOG_TYPE_MAX
  · rw [Delete_of_lt D t b h, setList_caps, deleteLoop_caps]
  · rw [Delete_of_ge D t b (by omega)]

theorem Delete_sizeByType_ne (D : Decls) (t t' : Nat) (b : HilogBuffer) (h : t' ≠ t) :
    (Delete D t b).2.sizeByType t' = b.sizeByType t' := by
  by_cases hlt : t < D.LOG_TYPE_MAX
  · rw [Delete_of_lt D t b hlt, setList_sizeByType, deleteLoop_sizeByType_ne _ _ _ h]
  · rw [Delete_of_ge D t b (by omega)]

theorem Delete_sublist (D : Decls) (t : Nat) (b : HilogBuffer) (sel : ListSel) :
    ((Delete D t b).2.getList sel).Sublist (b.getList sel) := by
  by_cases hlt : t < D.LOG_TYPE_MAX
  · rw [Delete_of_lt D t b hlt]
    by_cases hs : sel = listOfMask D t
    · subst hs
      rw [getList_setList_same]
      exact deleteLoop_sublist _ _ _ _ _
    · rw [getList_setList_ne _ _ _ _ hs, deleteLoop_getList]
  · rw [Delete_of_ge D t b (by omega)]

theorem Delete_typeSum_ne (D : Decls) (t t' : Nat) (b : HilogBuffer) (h : t' ≠ t)
    (sel : ListSel) :
    typeSum t' ((Delete D t b).2.getList sel) = typeSum t' (b.getList sel) := by
  by_cases hlt : t < D.LOG_TYPE_MAX
  · rw [Delete_of_lt D t b hlt]
    by_cases hs : sel = listOfMask D t
    · subst hs
      rw [getList_setList_same, deleteLoop_typeSum_ne _ _ _ h]
    · rw [getList_setList_ne _ _ _ _ hs, deleteLoop_getList]
  · rw [Delete_of_ge D t b (by omega)]

/-- What `Delete(t)` does to the counter of `t` in a buffer that satisfies the invariant:
when the list it walks is the list of type `t`, the counter and the sum over that list
become zero; otherwise the call changes nothing. -/
theorem Delete_own (D : Decls) (t : Nat) (b : HilogBuffer) (hb : Sound D b)
    (hlt : t < D.LOG_TYPE_MAX) :
    ((Delete D t b).2.sizeByType t = 0 ∧
        typeSum t ((Delete D t b).2.getList (listOfType D t)) = 0) ∨
      (Delete D t b).2 = b := by
  have hS : typeSum t (b.getList (listOfType D t)) < SIZE_MOD := by
    have := hb.room t
    have := (hb.caps t).2
    rw [← hb.sums t]
    unfold SIZE_MOD; omega
  by_cases hs : listOfMask D t = listOfType D t
  · left
    rw [Delete_of_lt D t b hlt, hs, setList_sizeByType, getList_setList_same]
    exact deleteLoop_account _ t _ 0 b (hb.sums t) hS
  · right
    rw [Delete_of_lt D t b hlt]
    have hno : ∀ x ∈ b.getList (listOfMask D t), x.data.type ≠ t := by
      intro x hx e
      have := hb.home _ x hx
      rw [e] at this
      exact hs this.symm
    rw [deleteLoop_nil_of_no_type _ _ _ _ _ hno]
    cases listOfMask D t <;> rfl

theorem Sound_Delete (D : Decls) (t : Nat) (b : HilogBuffer) (hb : Sound D b) :
    Sound D (Delete D t b).2 := by
  by_cases hlt : t < D.LOG_TYPE_MAX
  swap
  · rw [Delete_of_ge D t b (by omega)]; exact hb
  rcases Delete_own D t b hb hlt with ⟨z1, z2⟩ | hsame
  swap
  · rw [hsame]; exact hb
  constructor
  · intro t'
    by_cases ht : t' = t
    · subst ht; rw [z1, z2]
    · rw [Delete_sizeByType_ne D t t' b ht, Delete_typeSum_ne D t t' b ht, hb.sums t']
  · intro sel x hx
    exact hb.home sel x ((Delete_sublist D t b sel).subset hx)
  · intro sel x hx
    exact hb.made sel x ((Delete_sublist D t b sel).subset hx)
  · intro t'
    rw [Delete_caps]; exact hb.caps t'
  · intro t'
    rw [Delete_caps]
    by_cases ht : t' = t
    · subst ht; rw [z1]; have := (hb.caps t').1; push_cast; omega
    · rw [Delete_sizeByType_ne D t t' b ht]; exact hb.room t'
  · intro t'
    rw [Delete_caps]
    by_cases ht : t' = t
    · subst ht; rw [z1]; intro h20; push_cast; omega
    · rw [Delete_sizeByType_ne D t t' b ht]; exact hb.fits t'

theorem toInt32_of_lt (n : Nat) (h : n < 2 ^ 31) : toInt32 (n : Int) = n := by
  unfold toInt32
  omega

theorem Sound_SetBuffLen (D : Decls) (t n : Nat) (b : HilogBuffer) (hb : Sound D b)
    (hn : n < 2 ^ 31) (hroom : b.sizeByType t ≤ n + 1024)
    (hfits : 20480 ≤ n → b.sizeByType t ≤ n) : Sound D (SetBuffLen D t n b).2 := by
  unfold SetBuffLen
  split
  · exact hb
  · split
    · exact hb
    · have hcap := toInt32_of_lt n hn
      constructor
      · exact hb.sums
      · exact hb.home
      · exact hb.made
      · intro t'
        show 0 ≤ (if t' = t then toInt32 n else b.g_maxBufferSizeByType t') ∧
          (if t' = t then toInt32 n else b.g_maxBufferSizeByType t') < 2 ^ 31
        split
        · rw [hcap]; omega
        · exact hb.caps t'
      · intro t'
        show (b.sizeByType t' : Int) ≤
          (if t' = t then toInt32 n else b.g_maxBufferSizeByType t') + 1024
        split
        · rename_i e; rw [hcap, e]; omega
        · exact hb.room t'
      · intro t'
        show 20480 ≤ (if t' = t then toInt32 n else b.g_maxBufferSizeByType t') →
          (b.sizeByType t' : Int) ≤ (if t' = t then toInt32 n else b.g_maxBufferSizeByType t')
        split
        · rename_i e; rw [hcap, e]; intro h20; have := hfits (by omega); omega
        · exact hb.fits t'

/-- Every state reached through `Insert`, `Delete` and calls of `SetBuffLen` that keep the
resident bytes within the new cap satisfies the accounting invariant. -/
theorem Sound_of_reachable (D : Decls) (hD : storesContentLength D)
    (ok : Nat → Nat → HilogBuffer → Prop)
    (hok : ∀ t n b, ok t n b → n < 2 ^ 31 ∧ b.sizeByType t ≤ n + 1024 ∧
      (20480 ≤ n → b.sizeByType t ≤ n))
    (b : HilogBuffer) (h : BufferReachable D ok b) : Sound D b := by
  induction h with
  | init => exact Sound_init D
  | insert slot msg b _ _ ih => exact Sound_Insert D hD slot msg b ih
  | delete t b _ ih => exact Sound_Delete D t b ih
  | setBuffLen t n b hk _ ih =>
    obtain ⟨h1, h2, h3⟩ := hok t n b hk
    exact Sound_SetBuffLen D t n b ih h1 h2 h3

end Hilog

namespace Hilog

/-! ## C5: the resident bytes of a type stay within its cap -/

theorem caps_of_roomy (D : Decls) (b : HilogBuffer) (h : BufferReachable D roomyResize b) :
    ∀ t, t < 5 → 20480 ≤ b.g_maxBufferSizeByType t := by
  induction h with
  | init =>
    intro t ht
    show (20480 : Int) ≤ if t < 5 then 262144 else 0
    rw [if_pos ht]; decide
  | insert slot msg b _ _ ih => intro t ht; rw [Insert_caps]; exact ih t ht
  | delete t0 b _ ih => intro t ht; rw [Delete_caps]; exact ih t ht
  | setBuffLen t0 n b hk _ ih =>
    intro t ht
    obtain ⟨h1, h2, -⟩ := hk
    unfold SetBuffLen
    split
    · exact ih t ht
    · split
      · exact ih t ht
      · show (20480 : Int) ≤ if t = t0 then toInt32 n else b.g_maxBufferSizeByType t
        split
        · rw [toInt32_of_lt n h2]; omega
        · exact ih t ht

/-- C5, as it stands: after `Insert` of one message of three bytes of type 0 and
`SetBuffLen(0, 1)`, a state reached through `Insert` and `SetBuffLen`, the counter
`sizeByType[0]` is 3 and the cap of type 0 is 1. -/
theorem SetBuffLen_below_resident_breaks_cap :
    BufferReachable sampleDecls anyResize shrunkBelowResident ∧
      shrunkBelowResident.sizeByType 0 = 3 ∧
      shrunkBelowResident.g_maxBufferSizeByType 0 = 1 ∧
      ¬ ((shrunkBelowResident.sizeByType 0 : Int) ≤
        shrunkBelowResident.g_maxBufferSizeByType 0) :=
  ⟨BufferReachable.setBuffLen 0 1 _ trivial
      (BufferReachable.insert _ _ _ (by decide) BufferReachable.init),
    by decide, by decide, by decide⟩

/-- C5, amended: in every state reached from the initial buffer through `Insert` (of
messages whose type is an index of the per-type arrays), `Delete`, and those calls of
`SetBuffLen` that set a cap of at least 20480 bytes, below `2^31`, and not below the bytes
resident for the type, `sizeByType[t] ≤ g_maxBufferSizeByType[t]` holds for each of the
five types `t` that have an initial cap; the stored record length being tag plus content. -/
theorem sizes_within_caps (D : Decls) (hD : storesContentLength D) (b : HilogBuffer)
    (h : BufferReachable D roomyResize b) (t : Nat) (ht : t < 5) :
    (b.sizeByType t : Int) ≤ b.g_maxBufferSizeByType t := by
  have hs : Sound D b := by
    refine Sound_of_reachable D hD roomyResize ?_ b h
    intro t n b hk
    obtain ⟨h1, h2, h3⟩ := hk
    exact ⟨h2, by omega, fun _ => h3⟩
  exact hs.fits t (caps_of_roomy D b h t ht)

/-- Witness for C5, amended: the buffer after one message of type 0 and
`SetBuffLen(0, 30000)`. -/
theorem sizes_within_caps_witness :
    (resizedRoomy.sizeByType 0 : Int) ≤ resizedRoomy.g_maxBufferSizeByType 0 :=
  sizes_within_caps sampleDecls (fun _ => rfl) resizedRoomy
    (BufferReachable.setBuffLen 0 30000 _ ⟨by decide, by decide, by decide⟩
      (BufferReachable.insert _ _ _ (by decide) BufferReachable.init)) 0 (by decide)

end Hilog

namespace Hilog

/-! ## C6: the bound on the resident bytes after an eviction -/

/-- The eviction loop on a list that starts with records of type `t` of one size `c`, when
the threshold is exceeded before each of them is removed: all of them are removed. -/
theorem dropOld_uniform_prefix (sel : ListSel) (t c : Nat) (rest : List Node) :
    ∀ (pre : List Node) (b : HilogBuffer),
      (∀ x ∈ pre, x.data.type = t ∧ cLen x.data = c) →
      pre.length * c ≤ b.sizeByType t → b.sizeByType t < SIZE_MOD →
      (∀ j, j < pre.length →
        exceedsDropLimit (b.sizeByType t - j * c) (b.g_maxBufferSizeByType t) = true) →
      ∃ b', dropOld sel t (pre ++ rest) b = dropOld sel t rest b' ∧
        b'.sizeByType t = b.sizeByType t - pre.length * c ∧
        b'.g_maxBufferSizeByType = b.g_maxBufferSizeByType := by
  intro pre
  induction pre with
  | nil => intro b _ _ _ _; exact ⟨b, rfl, by simp, rfl⟩
  | cons x xs ih =>
    intro b hall hle hlt hex
    obtain ⟨hx1, hx2⟩ := hall x (List.mem_cons_self _ _)
    have hg := hex 0 (by simp)
    simp only [Nat.zero_mul, Nat.sub_zero] at hg
    have hlen : (x :: xs).length * c = xs.length * c + c := by
      simp only [List.length_cons]; ring
    rw [hlen] at hle
    have hstep : dropOld sel t (x :: xs ++ rest) b =
        dropOld sel t (xs ++ rest) (eraseStep sel x (xs ++ rest) b) := by
      show dropOld sel t (x :: (xs ++ rest)) b = _
      conv_lhs => unfold dropOld
      rw [if_pos hg, if_neg (not_not.mpr hx1)]
    have hsz : (eraseStep sel x (xs ++ rest) b).sizeByType t = b.sizeByType t - c := by
      have := eraseStep_sizeByType_same sel x (xs ++ rest) b
      rw [hx1, hx2] at this
      rw [this, subSz_of_le _ _ (by omega) hlt]
    obtain ⟨b', h1, h2, h3⟩ := ih (eraseStep sel x (xs ++ rest) b)
      (fun y hy => hall y (List.mem_cons_of_mem _ hy)) (by rw [hsz]; omega)
      (by rw [hsz]; omega)
      (by
        intro j hj
        rw [hsz, eraseStep_caps]
        have := hex (j + 1) (by simp only [List.length_cons]; omega)
        have e : b.sizeByType t - (j + 1) * c = b.sizeByType t - c - j * c := by
          rw [Nat.add_mul, Nat.one_mul, Nat.add_comm, Nat.sub_add_eq]
        rw [e] at this
        exact this)
    refine ⟨b', hstep.trans h1, ?_, h3⟩
    rw [h2, hsz, hlen]
    omega

theorem wideOld_uniform : ∀ x ∈ wideOld, x.data.type = 0 ∧ cLen x.data = 1024 := by
  intro x hx
  unfold wideOld at hx
  rw [List.mem_map] at hx
  obtain ⟨i, -, rfl⟩ := hx
  constructor
  · rfl
  · show intToSz (((1024 + 2 : Nat) : Int) - ((2 : Nat) : Int)) = 1024
    decide

theorem wideOld_length : wideOld.length = 107 := by
  unfold wideOld
  rw [List.length_map, List.length_range]

theorem typeSum_wideKept : typeSum 0 wideKept = 2097164 := by
  unfold wideKept
  rw [typeSum_append, typeSum_uniform 0 1024]
  · rw [List.length_map, List.length_range]
    decide
  · intro x hx
    rw [List.mem_map] at hx
    obtain ⟨i, -, rfl⟩ := hx
    constructor
    · rfl
    · show intToSz (((1024 + 2 : Nat) : Int) - ((2 : Nat) : Int)) = 1024
      decide

theorem typeSum_wideList : typeSum 0 wideList = 2206732 := by
  unfold wideList
  rw [typeSum_append, typeSum_uniform 0 1024 wideOld wideOld_uniform, wideOld_length,
    typeSum_wideKept]

/-- The eviction loop on `wideBuffer` removes the 107 oldest records and stops with
2097164 bytes resident. -/
theorem dropOld_wide :
    (dropOld ListSel.main 0 wideList wideBuffer).1 = wideKept ∧
      (dropOld ListSel.main 0 wideList wideBuffer).2.sizeByType 0 = 2097164 := by
  have hex : ∀ j, j < 107 →
      exceedsDropLimit (2206732 - j * 1024) (2207541 : Int) = true := by decide
  obtain ⟨b', h1, h2, h3⟩ := dropOld_uniform_prefix ListSel.main 0 1024 wideKept wideOld
    wideBuffer wideOld_uniform (by rw [wideOld_length]; decide) (by decide)
    (by rw [wideOld_length]; exact hex)
  rw [wideOld_length] at h2
  have h2' : b'.sizeByType 0 = 2097164 := by rw [h2]; decide
  have hstop : exceedsDropLimit (b'.sizeByType 0) (b'.g_maxBufferSizeByType 0) = false := by
    rw [h2', h3]; decide
  unfold wideList
  rw [h1, dropOld_of_not_exceeds _ _ _ _ hstop]
  exact ⟨rfl, h2'⟩

theorem evictIfFull_wide :
    (evictIfFull ListSel.main (fullMsg 3000) wideBuffer).getList ListSel.main = wideKept ∧
      (evictIfFull ListSel.main (fullMsg 3000) wideBuffer).sizeByType 0 = 2097164 := by
  have hg : addSz (CONTENT_LEN (fullMsg 3000)) (wideBuffer.sizeByType (fullMsg 3000).type) ≥
      intToSz (wideBuffer.g_maxBufferSizeByType (fullMsg 3000).type) := by decide
  have t0 : (fullMsg 3000).type = 0 := rfl
  have l0 : wideBuffer.getList ListSel.main = wideList := rfl
  unfold evictIfFull
  rw [if_pos hg]
  constructor
  · rw [evict_getList_same, t0, l0]; exact dropOld_wide.1
  · unfold evict; rw [setList_sizeByType, t0, l0]; exact dropOld_wide.2

/-- C6, as it stands: `wideBuffer` holds 2206732 bytes of type 0 in 2156 records under a cap
of 2207541 bytes.  `Insert` of a message of 1024 bytes enters the eviction step; the loop
stops at 2097164 bytes, because the single-precision product `2207541 × 0.95f` is
2097164.0, and the call returns with 2098188 bytes resident, above
`2207541 × 0.95 + 1024 = 2098187.95`. -/
theorem Insert_eviction_exceeds_95_percent :
    (fullMsg 3000).accepted ∧
      accounted sampleDecls wideBuffer 0 ∧
      wideBuffer.g_maxBufferSizeByType 0 = 2207541 ∧
      CONTENT_LEN (fullMsg 3000) = 1024 ∧
      addSz (CONTENT_LEN (fullMsg 3000)) (wideBuffer.sizeByType 0) ≥
        intToSz (wideBuffer.g_maxBufferSizeByType 0) ∧
      (Insert sampleDecls ⟨0, 0⟩ (fullMsg 3000) wideBuffer).2.sizeByType 0 = 2098188 ∧
      ¬ withinDropBound
        ((Insert sampleDecls ⟨0, 0⟩ (fullMsg 3000) wideBuffer).2.sizeByType 0)
        (wideBuffer.g_maxBufferSizeByType 0) (CONTENT_LEN (fullMsg 3000)) := by
  have hacc : (fullMsg 3000).accepted := by decide
  have hsize : (Insert sampleDecls ⟨0, 0⟩ (fullMsg 3000) wideBuffer).2.sizeByType 0 =
      2098188 := by
    have := Insert_sizeByType_own sampleDecls ⟨0, 0⟩ (fullMsg 3000) wideBuffer hacc
    have e : listOfType sampleDecls (fullMsg 3000).type = ListSel.main := by decide
    rw [e] at this
    have t0 : (fullMsg 3000).type = 0 := rfl
    rw [t0] at this
    rw [this, evictIfFull_wide.2]
    decide
  refine ⟨hacc, ?_, by decide, by decide, by decide, hsize, ?_⟩
  · unfold accounted
    have e : listOfType sampleDecls 0 = ListSel.main := by decide
    rw [e]
    exact typeSum_wideList.symm
  · rw [hsize]; decide

/-- C6, amended: let the counter of the type of a valid message be the sum over the records
of that type in its list, and the cap an `int` that is not negative.  If `Insert` enters the
eviction step, then on return `sizeByType[type] ≤ cap × 0.9500002 + content_len`, and
`sizeByType[type] ≤ cap × (1 − 0.05) + content_len` when the cap is at most `2^21` bytes. -/
theorem Insert_eviction_bound (D : Decls) (slot : LogTimeStamp) (msg : HilogMsg)
    (b : HilogBuffer) (hacc : msg.accepted) (hsum : accounted D b msg.type)
    (hS : b.sizeByType msg.type < SIZE_MOD)
    (hc0 : 0 ≤ b.g_maxBufferSizeByType msg.type)
    (hc1 : b.g_maxBufferSizeByType msg.type < 2 ^ 31)
    (htrig : addSz (CONTENT_LEN msg) (b.sizeByType msg.type) ≥
      intToSz (b.g_maxBufferSizeByType msg.type)) :
    10000000 * ((Insert D slot msg b).2.sizeByType msg.type : Int) ≤
        9500002 * b.g_maxBufferSizeByType msg.type + 10000000 * (CONTENT_LEN msg : Int) ∧
      (b.g_maxBufferSizeByType msg.type ≤ 2 ^ 21 →
        withinDropBound ((Insert D slot msg b).2.sizeByType msg.type)
          (b.g_maxBufferSizeByType msg.type) (CONTENT_LEN msg)) := by
  obtain ⟨hl1, hl2⟩ := accepted_content_len msg hacc
  obtain ⟨-, e2, e3, -⟩ := evictIfFull_own (listOfType D msg.type) msg b hsum hS
  rw [Insert_sizeByType_own D slot msg b hacc]
  unfold withinDropBound
  rcases e3 htrig with hx | hx
  · have ha := exceedsDropLimit_false_approx _ _ hc0 hx
    have hadd : addSz ((evictIfFull (listOfType D msg.type) msg b).sizeByType msg.type)
        (CONTENT_LEN msg) =
        (evictIfFull (listOfType D msg.type) msg b).sizeByType msg.type + CONTENT_LEN msg :=
      addSz_of_lt _ _ (by unfold SIZE_MOD; omega)
    rw [hadd]
    constructor
    · push_cast; omega
    · intro h21
      have := exceedsDropLimit_false_exact _ _ hc0 h21 hx
      push_cast; omega
  · rw [hx]
    have hadd : addSz 0 (CONTENT_LEN msg) = CONTENT_LEN msg := by
      rw [addSz_of_lt _ _ (by unfold SIZE_MOD; omega)]; omega
    rw [hadd]
    constructor
    · omega
    · intro _; omega

/-- Witness for C6, amended: the list 1000.0 (type 1), 1001.0, 1002.0, 1003.0 (type 0) with
a cap of 7 bytes for type 0 and the message 1004.0 of type 0. -/
theorem Insert_eviction_bound_witness :
    10000000 * ((Insert sampleDecls ⟨0, 0⟩ (sampleMsg 0 1004 0)
          (mixedWith secondRecordReader)).2.sizeByType 0 : Int) ≤
        9500002 * (mixedWith secondRecordReader).g_maxBufferSizeByType 0 +
          10000000 * (CONTENT_LEN (sampleMsg 0 1004 0) : Int) ∧
      ((mixedWith secondRecordReader).g_maxBufferSizeByType 0 ≤ 2 ^ 21 →
        withinDropBound ((Insert sampleDecls ⟨0, 0⟩ (sampleMsg 0 1004 0)
            (mixedWith secondRecordReader)).2.sizeByType 0)
          ((mixedWith secondRecordReader).g_maxBufferSizeByType 0)
          (CONTENT_LEN (sampleMsg 0 1004 0))) :=
  Insert_eviction_bound sampleDecls ⟨0, 0⟩ (sampleMsg 0 1004 0) (mixedWith secondRecordReader)
    (by decide) (by unfold accounted; decide) (by decide) (by decide) (by decide) (by decide)

end Hilog

namespace Hilog

/-! ## C21: exclusion terms only reject -/

theorem maskBit8_of_or_eq_zero (k m n : Nat) (h : maskBit8 k (m ||| n) = 0) :
    maskBit8 k m = 0 := by
  unfold maskBit8 at h ⊢
  apply Nat.zero_of_testBit_eq_false
  intro i
  have hi : (((1 <<< k) &&& (m ||| n)) % 2 ^ 8).testBit i = false := by
    rw [show (256 : Nat) = 2 ^ 8 from rfl] at h
    rw [h]; exact Nat.zero_testBit i
  rw [show (256 : Nat) = 2 ^ 8 from rfl]
  rw [Nat.testBit_mod_two_pow, Nat.testBit_and, Nat.testBit_or] at hi
  rw [Nat.testBit_mod_two_pow, Nat.testBit_and]
  cases h1 : decide (i < 8) <;> cases h2 : (1 <<< k).testBit i <;>
    cases h3 : m.testBit i <;> simp_all

/-- C21: a record that `ConditionMatch` rejects stays rejected when an entry is appended to
`noPids`, to `noDomains` or to `noTags`, and when further bits are set in `noTypes` or in
`noLevels`. -/
theorem ConditionMatch_exclusion_only_rejects (r : HilogData) (c : QueryCondition)
    (p d m : Nat) (t : String) :
    (ConditionMatch r c = false →
      ConditionMatch r { c with noPids := c.noPids ++ [p] } = false) ∧
    (ConditionMatch r c = false →
      ConditionMatch r { c with noDomains := c.noDomains ++ [d] } = false) ∧
    (ConditionMatch r c = false →
      ConditionMatch r { c with noTags := c.noTags ++ [t] } = false) ∧
    (ConditionMatch r c = false →
      ConditionMatch r { c with noTypes := c.noTypes ||| m } = false) ∧
    (ConditionMatch r c = false →
      ConditionMatch r { c with noLevels := c.noLevels ||| m } = false) := by
  have key : ∀ c' : QueryCondition,
      (ConditionMatch r c' = true → ConditionMatch r c = true) →
      ConditionMatch r c = false → ConditionMatch r c' = false := by
    intro c' h hc
    cases h' : ConditionMatch r c' with
    | false => rfl
    | true => rw [h h'] at hc; exact absurd hc (by decide)
  refine ⟨key _ ?_, key _ ?_, key _ ?_, key _ ?_, key _ ?_⟩
  · intro h
    rw [ConditionMatch_iff] at h ⊢
    obtain ⟨h1, h2, h3, h4, h5, h6, h7, h8⟩ := h
    exact ⟨h1, h2, h3, h4, fun hm => h5 (List.mem_append_left _ hm), h6, h7, h8⟩
  · intro h
    rw [ConditionMatch_iff] at h ⊢
    obtain ⟨h1, h2, h3, h4, h5, h6, h7, h8⟩ := h
    exact ⟨h1, h2, h3, h4, h5, fun x hx => h6 x (List.mem_append_left _ hx), h7, h8⟩
  · intro h
    rw [ConditionMatch_iff] at h ⊢
    obtain ⟨h1, h2, h3, h4, h5, h6, h7, h8⟩ := h
    exact ⟨h1, h2, h3, h4, h5, h6, fun hm => h7 (List.mem_append_left _ hm), h8⟩
  · intro h
    rw [ConditionMatch_iff] at h ⊢
    obtain ⟨h1, h2, h3, h4, h5, h6, h7, h8, h9⟩ := h
    exact ⟨h1, h2, h3, h4, h5, h6, h7, maskBit8_of_or_eq_zero _ _ _ h8, h9⟩
  · intro h
    rw [ConditionMatch_iff] at h ⊢
    obtain ⟨h1, h2, h3, h4, h5, h6, h7, h8, h9⟩ := h
    exact ⟨h1, h2, h3, h4, h5, h6, h7, h8, maskBit8_of_or_eq_zero _ _ _ h9⟩

end Hilog

namespace Hilog

/-! ## C22: `size` is the sum of the counters per type -/

theorem cast_addSz (a c : Nat) : ((addSz a c : Nat) : ZMod SIZE_MOD) = a + c := by
  unfold addSz
  rw [ZMod.natCast_mod]
  push_cast
  rfl

theorem cast_subSz (a c : Nat) : ((subSz a c : Nat) : ZMod SIZE_MOD) = a - c := by
  unfold subSz
  have hle : c % SIZE_MOD ≤ SIZE_MOD := Nat.le_of_lt (Nat.mod_lt _ (by decide))
  rw [ZMod.natCast_mod, Nat.cast_add, Nat.cast_sub hle, ZMod.natCast_mod, ZMod.natCast_mod,
    ZMod.natCast_self]
  ring

theorem sum_range_update_of_ge (f : Nat → Nat) (τ v : Nat) :
    ∀ n, n ≤ τ →
      ((List.range n).map (fun i => if i = τ then v else f i)).sum =
        ((List.range n).map f).sum := by
  intro n
  induction n with
  | zero => intro _; rfl
  | succ n ih =>
    intro h
    rw [List.range_succ, List.map_append, List.map_append, List.sum_append, List.sum_append,
      ih (by omega)]
    simp only [List.map_cons, List.map_nil, List.sum_cons, List.sum_nil]
    rw [if_neg (by omega)]

theorem sum_range_update (f : Nat → Nat) (τ v : Nat) :
    ∀ n, τ < n →
      ((List.range n).map (fun i => if i = τ then v else f i)).sum + f τ =
        ((List.range n).map f).sum + v := by
  intro n
  induction n with
  | zero => intro h; omega
  | succ n ih =>
    intro h
    rw [List.range_succ, List.map_append, List.map_append, List.sum_append, List.sum_append]
    simp only [List.map_cons, List.map_nil, List.sum_cons, List.sum_nil]
    by_cases hn : τ = n
    · subst hn
      rw [if_pos rfl, sum_range_update_of_ge f τ v τ (Nat.le_refl _)]
      omega
    · rw [if_neg (fun e => hn e.symm)]
      have := ih (by omega)
      omega

theorem sum_range_le (f : Nat → Nat) (B : Nat) (h : ∀ i, f i ≤ B) :
    ∀ n, ((List.range n).map f).sum ≤ n * B := by
  intro n
  induction n with
  | zero => simp
  | succ n ih =>
    rw [List.range_succ, List.map_append, List.sum_append]
    simp only [List.map_cons, List.map_nil, List.sum_cons, List.sum_nil]
    have := h n
    rw [Nat.succ_mul]
    omega

/-- The removal of a node whose type is an index of the array keeps `size` congruent to the
sum of the counters. -/
theorem eraseStep_total (sel : ListSel) (x : Node) (xs : List Node) (b : HilogBuffer)
    (n : Nat) (hx : x.data.type < n)
    (h : ((b.size : Nat) : ZMod SIZE_MOD) = ((sizeTotal b n : Nat) : ZMod SIZE_MOD)) :
    (((eraseStep sel x xs b).size : Nat) : ZMod SIZE_MOD) =
      ((sizeTotal (eraseStep sel x xs b) n : Nat) : ZMod SIZE_MOD) := by
  have hu := sum_range_update b.sizeByType x.data.type
    (subSz (b.sizeByType x.data.type) (cLen x.data)) n hx
  have hu' := congrArg (fun k : Nat => (k : ZMod SIZE_MOD)) hu
  simp only [Nat.cast_add, cast_subSz] at hu'
  show ((subSz b.size (cLen x.data) : Nat) : ZMod SIZE_MOD) =
    ((((List.range n).map (fun i => if i = x.data.type then
      subSz (b.sizeByType i) (cLen x.data) else b.sizeByType i)).sum : Nat) : ZMod SIZE_MOD)
  have hfun : (fun i => if i = x.data.type then
      subSz (b.sizeByType i) (cLen x.data) else b.sizeByType i) =
      (fun i => if i = x.data.type then
        subSz (b.sizeByType x.data.type) (cLen x.data) else b.sizeByType i) := by
    funext i
    by_cases e : i = x.data.type
    · rw [if_pos e, if_pos e, e]
    · rw [if_neg e, if_neg e]
  rw [hfun, cast_subSz, h]
  unfold sizeTotal
  linear_combination -hu'

theorem eraseStep_size_lt (sel : ListSel) (x : Node) (xs : List Node) (b : HilogBuffer) :
    (eraseStep sel x xs b).size < SIZE_MOD := Nat.mod_lt _ (by decide)

theorem dropOld_total (sel : ListSel) (t n : Nat) (ht : t < n) (l : List Node) :
    ∀ b : HilogBuffer,
      ((b.size : Nat) : ZMod SIZE_MOD) = ((sizeTotal b n : Nat) : ZMod SIZE_MOD) →
      b.size < SIZE_MOD →
      (((dropOld sel t l b).2.size : Nat) : ZMod SIZE_MOD) =
        ((sizeTotal (dropOld sel t l b).2 n : Nat) : ZMod SIZE_MOD) ∧
      (dropOld sel t l b).2.size < SIZE_MOD := by
  induction l with
  | nil => intro b h h2; exact ⟨h, h2⟩
  | cons x xs ih =>
    intro b h h2
    unfold dropOld
    split
    · split
      · exact ih b h h2
      · rename_i hx
        have hx' : x.data.type = t := not_not.mp hx
        exact ih _ (eraseStep_total sel x xs b n (by rw [hx']; exact ht) h)
          (eraseStep_size_lt sel x xs b)
    · exact ⟨h, h2⟩

theorem deleteLoop_total (sel : ListSel) (t n : Nat) (ht : t < n) (l : List Node) :
    ∀ (sum : Nat) (b : HilogBuffer),
      ((b.size : Nat) : ZMod SIZE_MOD) = ((sizeTotal b n : Nat) : ZMod SIZE_MOD) →
      b.size < SIZE_MOD →
      (((deleteLoop sel t l sum b).2.2.size : Nat) : ZMod SIZE_MOD) =
        ((sizeTotal (deleteLoop sel t l sum b).2.2 n : Nat) : ZMod SIZE_MOD) ∧
      (deleteLoop sel t l sum b).2.2.size < SIZE_MOD := by
  induction l with
  | nil => intro sum b h h2; exact ⟨h, h2⟩
  | cons x xs ih =>
    intro sum b h h2
    unfold deleteLoop
    split
    · exact ih sum b h h2
    · rename_i hx
      have hx' : x.data.type = t := not_not.mp hx
      exact ih _ _ (eraseStep_total sel x xs b n (by rw [hx']; exact ht) h)
        (eraseStep_size_lt sel x xs b)

theorem sizeTotal_congr (b b' : HilogBuffer) (n : Nat) (h : b'.sizeByType = b.sizeByType) :
    sizeTotal b' n = sizeTotal b n := by
  unfold sizeTotal; rw [h]

theorem Insert_total (D : Decls) (slot : LogTimeStamp) (msg : HilogMsg) (b : HilogBuffer)
    (n : Nat) (ht : msg.type < n)
    (h : ((b.size : Nat) : ZMod SIZE_MOD) = ((sizeTotal b n : Nat) : ZMod SIZE_MOD))
    (h2 : b.size < SIZE_MOD) :
    (((Insert D slot msg b).2.size : Nat) : ZMod SIZE_MOD) =
        ((sizeTotal (Insert D slot msg b).2 n : Nat) : ZMod SIZE_MOD) ∧
      (Insert D slot msg b).2.size < SIZE_MOD := by
  by_cases hacc : msg.accepted
  swap
  · rw [Insert_of_not_accepted D slot msg b hacc]; exact ⟨h, h2⟩
  rw [Insert_of_accepted D slot msg b hacc]
  have hev : (((evictIfFull (listOfType D msg.type) msg b).size : Nat) : ZMod SIZE_MOD) =
      ((sizeTotal (evictIfFull (listOfType D msg.type) msg b) n : Nat) : ZMod SIZE_MOD) := by
    unfold evictIfFull
    split
    · unfold evict
      rw [setList_size, sizeTotal_congr _ _ n (setList_sizeByType _ _ _)]
      exact (dropOld_total _ _ n ht _ b h h2).1
    · exact h
  refine ⟨?_, Nat.mod_lt _ (by decide)⟩
  generalize evictIfFull (listOfType D msg.type) msg b = b1 at hev
  have hsize : (emplace D slot (listOfType D msg.type) msg b1).size = b1.size := by
    cases listOfType D msg.type <;> rfl
  have hu := sum_range_update b1.sizeByType msg.type
    (addSz (b1.sizeByType msg.type) (CONTENT_LEN msg)) n ht
  have hu' := congrArg (fun k : Nat => (k : ZMod SIZE_MOD)) hu
  simp only [Nat.cast_add, cast_addSz] at hu'
  show ((addSz (emplace D slot (listOfType D msg.type) msg b1).size (CONTENT_LEN msg) : Nat) :
      ZMod SIZE_MOD) =
    ((((List.range n).map (fun i => if i = msg.type then
      addSz ((emplace D slot (listOfType D msg.type) msg b1).sizeByType i) (CONTENT_LEN msg)
      else (emplace D slot (listOfType D msg.type) msg b1).sizeByType i)).sum : Nat) :
      ZMod SIZE_MOD)
  rw [hsize, emplace_sizeByType]
  have hfun : (fun i => if i = msg.type then
      addSz (b1.sizeByType i) (CONTENT_LEN msg) else b1.sizeByType i) =
      (fun i => if i = msg.type then
        addSz (b1.sizeByType msg.type) (CONTENT_LEN msg) else b1.sizeByType i) := by
    funext i
    by_cases e : i = msg.type
    · rw [if_pos e, if_pos e, e]
    · rw [if_neg e, if_neg e]
  rw [hfun, cast_addSz, hev]
  unfold sizeTotal
  linear_combination -hu'

theorem Delete_total (D : Decls) (t : Nat) (b : HilogBuffer)
    (h : ((b.size : Nat) : ZMod SIZE_MOD) =
      ((sizeTotal b D.LOG_TYPE_MAX : Nat) : ZMod SIZE_MOD))
    (h2 : b.size < SIZE_MOD) :
    (((Delete D t b).2.size : Nat) : ZMod SIZE_MOD) =
        ((sizeTotal (Delete D t b).2 D.LOG_TYPE_MAX : Nat) : ZMod SIZE_MOD) ∧
      (Delete D t b).2.size < SIZE_MOD := by
  by_cases hlt : t < D.LOG_TYPE_MAX
  · rw [Delete_of_lt D t b hlt, setList_size,
      sizeTotal_congr _ _ _ (setList_sizeByType _ _ _)]
    exact deleteLoop_total _ t _ hlt _ 0 b h h2
  · rw [Delete_of_ge D t b (by omega)]; exact ⟨h, h2⟩

theorem total_of_reachable (D : Decls) (b : HilogBuffer)
    (h : BufferReachable D noResize b) :
    ((b.size : Nat) : ZMod SIZE_MOD) = ((sizeTotal b D.LOG_TYPE_MAX : Nat) : ZMod SIZE_MOD) ∧
      b.size < SIZE_MOD := by
  induction h with
  | init =>
    have : sizeTotal HilogBuffer.init D.LOG_TYPE_MAX = 0 := by
      have := sum_range_le (fun _ => 0) 0 (fun _ => Nat.le_refl _) D.LOG_TYPE_MAX
      unfold sizeTotal
      show ((List.range D.LOG_TYPE_MAX).map (fun _ => 0)).sum = 0
      omega
    rw [this]
    exact ⟨rfl, by decide⟩
  | insert slot msg b ht _ ih => exact Insert_total D slot msg b _ ht ih.1 ih.2
  | delete t b _ ih => exact Delete_total D t b ih.1 ih.2
  | setBuffLen t n b hk _ _ => exact absurd hk (fun hf => hf)

/-- C22, as it stands: `Insert` does not compare the 4-bit type of the message with
`LOG_TYPE_MAX`.  With five entries in the per-type arrays, the accepted message of type 7
and three content bytes adds 3 to `size` and nothing to `sizeByType[0]` to `sizeByType[4]`:
after this one `Insert` into the initial buffer `size` is 3 and the sum of the counters
is 0. -/
theorem Insert_type_beyond_array_breaks_total :
    (sampleMsg 7 1000 0).accepted ∧ (sampleMsg 7 1000 0).inRange ∧
      sampleDecls.LOG_TYPE_MAX = 5 ∧
      (Insert sampleDecls ⟨0, 0⟩ (sampleMsg 7 1000 0) HilogBuffer.init).2.size = 3 ∧
      sizeTotal (Insert sampleDecls ⟨0, 0⟩ (sampleMsg 7 1000 0) HilogBuffer.init).2
        sampleDecls.LOG_TYPE_MAX = 0 := by
  decide

/-- C22, amended: in every state reached from the initial buffer through `Insert` of
messages whose type is below `LOG_TYPE_MAX`, an index of the per-type arrays, and through
`Delete`, `size` is the sum of the counters `sizeByType[t]` over the indices of the array,
in `size_t` arithmetic; and it is that sum without any wrap-around when the stored record
length is tag plus content and the array has at most 16 entries (the type is a 4-bit
field). -/
theorem size_is_sum_of_sizeByType (D : Decls) (b : HilogBuffer)
    (h : BufferReachable D noResize b) :
    b.size = sizeTotal b D.LOG_TYPE_MAX % SIZE_MOD ∧
      (storesContentLength D → D.LOG_TYPE_MAX ≤ 16 → b.size = sizeTotal b D.LOG_TYPE_MAX) := by
  obtain ⟨h1, h2⟩ := total_of_reachable D b h
  have hmod : b.size = sizeTotal b D.LOG_TYPE_MAX % SIZE_MOD := by
    have := (ZMod.natCast_eq_natCast_iff' _ _ _).mp h1
    rw [Nat.mod_eq_of_lt h2] at this
    exact this
  refine ⟨hmod, fun hD h16 => ?_⟩
  have hs : Sound D b := Sound_of_reachable D hD noResize (fun _ _ _ hk => absurd hk id) b h
  have hB : ∀ i, b.sizeByType i ≤ 2 ^ 31 + 1024 := by
    intro i
    have := hs.room i
    have := (hs.caps i).2
    omega
  have hle := sum_range_le b.sizeByType _ hB D.LOG_TYPE_MAX
  have h16' : D.LOG_TYPE_MAX * (2 ^ 31 + 1024) ≤ 16 * (2 ^ 31 + 1024) :=
    Nat.mul_le_mul_right _ h16
  rw [hmod]
  exact Nat.mod_eq_of_lt (by unfold sizeTotal SIZE_MOD; omega)

/-- Witness for C22, amended: the buffer after one message of three bytes of type 0. -/
theorem size_is_sum_of_sizeByType_witness :
    oneRecord.size = sizeTotal oneRecord sampleDecls.LOG_TYPE_MAX % SIZE_MOD ∧
      (storesContentLength sampleDecls → sampleDecls.LOG_TYPE_MAX ≤ 16 →
        oneRecord.size = sizeTotal oneRecord sampleDecls.LOG_TYPE_MAX) :=
  size_is_sum_of_sizeByType sampleDecls oneRecord
    (BufferReachable.insert _ _ _ (by decide) BufferReachable.init)

end Hilog

namespace Hilog

/-! ## C24: the counter of a type is the content resident for it -/

end Hilog

namespace Hilog

/-! ## C25: insertion into an empty list -/

theorem place_nil (slot ts : LogTimeStamp) (nd : Node) : place slot ts nd [] = [nd] := by
  unfold place
  have h : LogTimeStamp.ge ts (readStamp slot ([] : List Node).reverse) = true ∨
      LogTimeStamp.lt ts slot = true ∨
      LogTimeStamp.gt (LogTimeStamp.sub (readStamp slot ([] : List Node).reverse) ts)
        ⟨MAX_TIME_DIFF, 0⟩ = true := by
    show LogTimeStamp.ge ts slot = true ∨ _
    unfold LogTimeStamp.ge
    cases hlt : LogTimeStamp.lt ts slot
    · exact Or.inl rfl
    · exact Or.inr (Or.inl rfl)
  rw [if_pos h]
  rfl

/-- C25: `Insert` of a valid message into an empty target list leaves a list that holds
exactly the new record.  There is no record whose timestamp could be read: the value `slot`
that the call reads through `rbegin()` and `rend()` designates none, and whatever it is, the
test `msg >= slot || msg < slot` holds, so the record is appended by `emplace_back` and the
walk over the list is not entered. -/
theorem Insert_into_empty_list (D : Decls) (slot : LogTimeStamp) (msg : HilogMsg)
    (b : HilogBuffer) (hacc : msg.accepted)
    (hempty : b.getList (listOfType D msg.type) = []) :
    (Insert D slot msg b).2.getList (listOfType D msg.type) =
        [⟨b.nextId, HilogData.ofMsg D msg⟩] ∧
      (Insert D slot msg b).2.getList (listOfType D msg.type) =
        (evictIfFull (listOfType D msg.type) msg b).getList (listOfType D msg.type) ++
          [⟨b.nextId, HilogData.ofMsg D msg⟩] ∧
      (Insert D slot msg b).1 = CONTENT_LEN msg := by
  have hl : (evictIfFull (listOfType D msg.type) msg b).getList (listOfType D msg.type) = [] := by
    have := evictIfFull_sublist (listOfType D msg.type) (listOfType D msg.type) msg b
    rw [hempty] at this
    exact List.sublist_nil.mp this
  have h1 : (Insert D slot msg b).2.getList (listOfType D msg.type) =
      [⟨b.nextId, HilogData.ofMsg D msg⟩] := by
    rw [Insert_getList_same D slot msg b hacc, evictIfFull_nextId, hl, place_nil]
  refine ⟨h1, ?_, ?_⟩
  · rw [h1, hl]; rfl
  · rw [Insert_of_accepted D slot msg b hacc]

/-- Witness for C25: the first message into the initial buffer, with an arbitrary value read
through the end iterator. -/
theorem Insert_into_empty_list_witness :
    (Insert sampleDecls ⟨77, 5⟩ (sampleMsg 0 1000 0) HilogBuffer.init).2.getList
        (listOfType sampleDecls (sampleMsg 0 1000 0).type) =
      [⟨HilogBuffer.init.nextId, HilogData.ofMsg sampleDecls (sampleMsg 0 1000 0)⟩] :=
  (Insert_into_empty_list sampleDecls ⟨77, 5⟩ (sampleMsg 0 1000 0) HilogBuffer.init
    (by decide) (by decide)).1

end Hilog

namespace Hilog

/-! ## C26: the print counters -/

theorem queryLoop_true (sel : ListSel) (b : HilogBuffer) (s : List Node) :
    ∀ r : LogReader, (queryLoop sel s r b).1 = true →
      ∃ x ∈ s, (queryLoop sel s r b).2.1.written = r.written ++ [(SENDIDA, some x.data)] ∧
        (queryLoop sel s r b).2.2 =
          countPrinted (afterWrite r x.data) (recordWritten sel r x b) := by
  induction s with
  | nil => intro r h; exact absurd h (by simp [queryLoop])
  | cons x xs ih =>
    intro r h
    unfold queryLoop at h ⊢
    by_cases hm : ConditionMatch x.data r.queryCondition = true
    · rw [if_pos hm]
      exact ⟨x, List.mem_cons_self _ _, rfl, rfl⟩
    · rw [if_neg hm] at h ⊢
      obtain ⟨y, hy, h1, h2⟩ := ih _ h
      exact ⟨y, List.mem_cons_of_mem _ hy, h1, h2⟩

theorem recordWritten_counters (sel : ListSel) (r : LogReader) (x : Node) (b : HilogBuffer) :
    (recordWritten sel r x b).printLenByType = b.printLenByType ∧
      (recordWritten sel r x b).printLenByDomain = b.printLenByDomain ∧
      (recordWritten sel r x b).cacheLenByType = b.cacheLenByType ∧
      (recordWritten sel r x b).cacheLenByDomain = b.cacheLenByDomain := by
  unfold recordWritten
  split
  · cases sel <;> exact ⟨rfl, rfl, rfl, rfl⟩
  · exact ⟨rfl, rfl, rfl, rfl⟩

theorem afterWrite_fields (r : LogReader) (d : HilogData) :
    (afterWrite r d).type = d.type ∧ (afterWrite r d).domain = d.domain ∧
      (afterWrite r d).content =
        if r.rendering then markLines true d.content else d.content := by
  unfold afterWrite
  split <;> exact ⟨rfl, rfl, rfl⟩

theorem strlen_cons (c : Nat) (cs : List Nat) :
    strlen (c :: cs) = if c = 0 then 0 else strlen cs + 1 := by
  unfold strlen
  rw [List.takeWhile_cons]
  by_cases h : c = 0
  · simp [h]
  · simp [h]

theorem strlen_cons_ne (c : Nat) (cs : List Nat) (h : c ≠ 0) :
    strlen (c :: cs) = strlen cs + 1 := by
  rw [strlen_cons, if_neg h]

theorem strlen_markLines_le (l : List Nat) :
    ∀ fresh : Bool, strlen (markLines fresh l) ≤ strlen l := by
  induction l with
  | nil => intro fresh; exact Nat.le_refl _
  | cons c cs ih =>
    intro fresh
    unfold markLines
    by_cases h0 : c = 0
    · rw [if_pos h0]
    · rw [if_neg h0]
      have e2 := strlen_cons_ne c cs h0
      by_cases h10 : c = 10
      · rw [if_pos h10]
        cases fresh
        · simp only [Bool.false_eq_true, if_false]
          have e1 : strlen (0 :: markLines true cs) = 0 := by
            rw [strlen_cons, if_pos rfl]
          rw [e1]; exact Nat.zero_le _
        · simp only [if_true]
          have e1 := strlen_cons_ne c (markLines true cs) h0
          have := ih true
          rw [e1, e2]; omega
      · rw [if_neg h10]
        have e1 := strlen_cons_ne c (markLines false cs) h0
        have := ih false
        rw [e1, e2]; omega

theorem length_takeWhile_le (p : Nat → Bool) (l : List Nat) :
    (l.takeWhile p).length ≤ l.length := by
  induction l with
  | nil => exact Nat.le_refl _
  | cons a t ih =>
    rw [List.takeWhile_cons]
    split
    · simp only [List.length_cons]; omega
    · simp

theorem length_takeWhile_lt (p : Nat → Bool) (l : List Nat) (h : ∃ a ∈ l, p a = false) :
    (l.takeWhile p).length < l.length := by
  induction l with
  | nil => obtain ⟨a, ha, _⟩ := h; exact absurd ha (List.not_mem_nil a)
  | cons a t ih =>
    rw [List.takeWhile_cons]
    split
    · rename_i hp
      obtain ⟨c, hc, hpc⟩ := h
      have ht : ∃ a ∈ t, p a = false := by
        rcases List.mem_cons.mp hc with e | e
        · rw [e, hp] at hpc; exact absurd hpc (by decide)
        · exact ⟨c, e, hpc⟩
      have := ih ht
      simp only [List.length_cons]; omega
    · simp

theorem strlen_le (l : List Nat) : strlen l ≤ l.length := length_takeWhile_le _ l

theorem strlen_lt_of_mem (l : List Nat) (h : 0 ∈ l) : strlen l < l.length :=
  length_takeWhile_lt _ l ⟨0, h, by decide⟩

/-- C26, as it stands: the record of the message with the content "hi" and its terminating
zero byte, for which `Insert` added 3 bytes to `cacheLenByType[0]` and to the counter of its
domain.  The `Query` that delivers it adds 2 bytes to `printLenByType[0]` and to the print
counter of the domain.  For the record of ten content bytes with the lines aaaa and bbbb,
delivered to a `LogPersister`, whose `WriteData` overwrites the newline with a zero byte,
the `Query` adds 4 bytes. -/
theorem Query_counts_strlen_not_content_len :
    CONTENT_LEN (sampleMsg 0 1000 0) = 3 ∧
      oneRecord.cacheLenByType 0 = 3 ∧
      oneRecord.cacheLenByDomain 0xd000001 = some 3 ∧
      (Query sampleDecls sampleReader oneRecord).map
          (fun res => (res.1, res.2.2.printLenByType 0, res.2.2.printLenByDomain 0xd000001)) =
        some (true, 2, some 2) ∧
      CONTENT_LEN linesMsg = 10 ∧
      linesRecord.cacheLenByType 0 = 10 ∧
      (Query sampleDecls renderingReader linesRecord).map
          (fun res => (res.1, res.2.2.printLenByType 0, res.2.2.printLenByDomain 0xd000001,
            res.2.2.hilogDataList.map (fun x => x.data.content))) =
        some (true, 4, some 4, [[97, 97, 97, 97, 0, 98, 98, 98, 98, 0]]) := by
  decide

/-- C26, amended: a `Query` that returns true hands one record of the list to `WriteData`
and then increases `printLenByType[record.type]` and `printLenByDomain[record.domain]`
(created with that value if absent) by `strlen` of the content as `WriteData` left it: the
number of content bytes before the first zero byte, where the `WriteData` of a
`LogPersister` with no line waiting has overwritten with a zero byte every newline that
closes a non-empty line.  It changes no other print counter and no cache counter.  For a
record that holds the content bytes of an accepted message, the increase is at most the
content length that `Insert` returns and adds to the cache counters, and less when the
content holds a zero byte. -/
theorem Query_print_counters (D : Decls) (r r' : LogReader) (b b' : HilogBuffer)
    (h : Query D r b = some (true, r', b')) :
    ∃ x ∈ b.getList (listOfMask D r.queryCondition.types),
      r'.written = r.written ++ [(SENDIDA, some x.data)] ∧
      (∀ t, b'.printLenByType t =
        if t = x.data.type then
          addSz (b.printLenByType t) (strlen (afterWrite r x.data).content)
        else b.printLenByType t) ∧
      (∀ k, b'.printLenByDomain k =
        if k = x.data.domain then
          match b.printLenByDomain k with
          | none => some (strlen (afterWrite r x.data).content)
          | some v => some (addSz v (strlen (afterWrite r x.data).content))
        else b.printLenByDomain k) ∧
      b'.cacheLenByType = b.cacheLenByType ∧ b'.cacheLenByDomain = b.cacheLenByDomain ∧
      (afterWrite r x.data).content =
        (if r.rendering then markLines true x.data.content else x.data.content) ∧
      (∀ (m : HilogMsg) (slot : LogTimeStamp) (b0 : HilogBuffer), m.accepted →
        x.data.content.length = CONTENT_LEN m →
          strlen (afterWrite r x.data).content ≤ (Insert D slot m b0).1 ∧
          (0 ∈ x.data.content →
            strlen (afterWrite r x.data).content < (Insert D slot m b0).1)) := by
  unfold Query at h
  simp only [Option.bind_eq_some, Option.map_eq_some'] at h
  obtain ⟨r1, hr1, s, hs, hq⟩ := h
  have hw : r1.written = r.written := by
    rw [(applyNotified_keeps _ _ _ _ hr1).2, (applyReload_keeps _ _ _).2]
  have hrend : r1.rendering = r.rendering := by
    have e1 : (applyReload (listOfMask D r.queryCondition.types)
        (b.getList (listOfMask D r.queryCondition.types)) r).rendering = r.rendering := by
      unfold applyReload; split <;> rfl
    have e2 : r1.rendering = (applyReload (listOfMask D r.queryCondition.types)
        (b.getList (listOfMask D r.queryCondition.types)) r).rendering := by
      unfold applyNotified at hr1
      split at hr1
      · cases hn : nextIter (listOfMask D r.queryCondition.types)
            (b.getList (listOfMask D r.queryCondition.types))
            (applyReload (listOfMask D r.queryCondition.types)
              (b.getList (listOfMask D r.queryCondition.types)) r).lastPos with
        | none => rw [hn] at hr1; exact Option.noConfusion hr1
        | some p =>
          rw [hn] at hr1
          simp only [Option.map_some', Option.some.injEq] at hr1
          rw [← hr1]
      · simp only [Option.some.injEq] at hr1
        rw [← hr1]
    rw [e2, e1]
  have hsub : ∀ x ∈ s, x ∈ b.getList (listOfMask D r.queryCondition.types) := by
    intro x hx
    cases hp : r1.readPos with
    | pastEnd sl =>
      rw [hp] at hs
      have hs' : (if sl = listOfMask D r.queryCondition.types then some ([] : List Node)
          else none) = some s := hs
      split at hs'
      · simp only [Option.some.injEq] at hs'
        rw [← hs'] at hx
        exact absurd hx (List.not_mem_nil x)
      · exact Option.noConfusion hs'
    | node id =>
      rw [hp] at hs
      have : ∀ (l : List Node), suffixFrom id l = some s → ∀ y ∈ s, y ∈ l := by
        intro l
        induction l with
        | nil => intro hl; exact Option.noConfusion hl
        | cons a t ih =>
          intro hl y hy
          unfold suffixFrom at hl
          split at hl
          · simp only [Option.some.injEq] at hl
            rw [← hl] at hy
            exact hy
          · exact List.mem_cons_of_mem _ (ih hl y hy)
      exact this _ hs x hx
  have h1 : (queryLoop (listOfMask D r.queryCondition.types) s r1 b).1 = true := by rw [hq]
  obtain ⟨x, hx, e1, e2⟩ := queryLoop_true _ b s r1 h1
  rw [hq] at e1 e2
  simp only at e1 e2
  have haw : afterWrite r1 x.data = afterWrite r x.data := by
    unfold afterWrite; rw [hrend]
  rw [haw] at e2
  obtain ⟨c1, c2, c3, c4⟩ := recordWritten_counters (listOfMask D r.queryCondition.types)
    r1 x b
  obtain ⟨f1, f2, f3⟩ := afterWrite_fields r x.data
  have hle : strlen (afterWrite r x.data).content ≤ strlen x.data.content := by
    rw [f3]
    split
    · exact strlen_markLines_le _ _
    · exact Nat.le_refl _
  refine ⟨x, hsub x hx, by rw [e1, hw], ?_, ?_, ?_, ?_, f3, ?_⟩
  · intro t
    rw [e2]
    show (if t = (afterWrite r x.data).type then _ else _) = _
    rw [f1, c1]
  · intro k
    rw [e2]
    show (if k = (afterWrite r x.data).domain then _ else _) = _
    rw [f2, c2]
  · rw [e2]; exact c3
  · rw [e2]; exact c4
  · intro m slot b0 hm hlen
    rw [Insert_of_accepted D slot m b0 hm]
    show strlen (afterWrite r x.data).content ≤ CONTENT_LEN m ∧ _
    have h2 := strlen_le x.data.content
    refine ⟨by omega, fun h0 => ?_⟩
    have h3 := strlen_lt_of_mem x.data.content h0
    show strlen (afterWrite r x.data).content < CONTENT_LEN m
    omega

/-- Witness for C26, amended: the first `Query` of a reader on the buffer that holds one
record. -/
theorem Query_print_counters_witness :
    ∃ x ∈ oneRecord.getList (listOfMask sampleDecls sampleReader.queryCondition.types),
      firstQuery.2.1.written = sampleReader.written ++ [(SENDIDA, some x.data)] ∧
      (∀ t, firstQuery.2.2.printLenByType t =
        if t = x.data.type then
          addSz (oneRecord.printLenByType t) (strlen (afterWrite sampleReader x.data).content)
        else oneRecord.printLenByType t) :=
  (Query_print_counters sampleDecls sampleReader firstQuery.2.1 oneRecord firstQuery.2.2
    rfl).imp fun _ hx => ⟨hx.1, hx.2.1, hx.2.2.1⟩

end Hilog

namespace Hilog

/-! ## C27: resumption of a notified reader -/

/-- C27: the claim fails on the code.  A registered reader consumes the record 1000.0 of
type 0 and reaches the end of the list with `lastPos` on it.  The record 1001.0 of type 1 is
inserted behind it, `Delete(0)` erases the consumed record and moves `lastPos` to the record
1001.0, and the reader is notified.  The next `Query` sets `readPos` to `next(lastPos)`,
the end of the list, returns false and delivers nothing: the surviving record 1001.0, which
followed the consumed one, is skipped. -/
theorem Query_resume_skips_survivor :
    resumeAfterDelete.map cursorView =
        some ([(1, 1001)], some (Iter.pastEnd ListSel.main, Iter.node 1, true)) ∧
      resumeAfterDelete.bind (fun b => queryOf sampleDecls b 0) =
        some (false, [(SENDIDA, some (1000, 0)), (SENDIDN, none), (SENDIDN, none)]) ∧
      ConditionMatch (HilogData.ofMsg sampleDecls (sampleMsg 1 1001 0))
        sampleReader.queryCondition = true := by
  decide

end Hilog

namespace Hilog

/-! ## C23: which records the eviction step removes -/

theorem removeOldest_cons_ne (t k : Nat) (x : Node) (xs : List Node) (h : x.data.type ≠ t) :
    removeOldest t k (x :: xs) = x :: removeOldest t k xs := by
  cases k with
  | zero => cases xs <;> rfl
  | succ k => simp [removeOldest, h]

theorem removeOldest_zero (t : Nat) (l : List Node) : removeOldest t 0 l = l := by
  cases l <;> rfl

theorem oldestSum_zero (t : Nat) (l : List Node) : oldestSum t 0 l = 0 := by
  cases l <;> rfl

theorem oldestSum_cons_ne (t k : Nat) (x : Node) (xs : List Node) (h : x.data.type ≠ t) :
    oldestSum t k (x :: xs) = oldestSum t k xs := by
  cases k with
  | zero => rw [oldestSum_zero, oldestSum_zero]
  | succ k => simp [oldestSum, h]

theorem oldestSum_cons_eq (t k : Nat) (x : Node) (xs : List Node) (h : x.data.type = t) :
    oldestSum t (k + 1) (x :: xs) = cLen x.data + oldestSum t k xs := by
  simp [oldestSum, h]

theorem countOfType_cons (t : Nat) (x : Node) (xs : List Node) :
    countOfType t (x :: xs) = (if x.data.type = t then 1 else 0) + countOfType t xs := by
  unfold countOfType
  by_cases h : x.data.type = t
  · simp [List.filter_cons, h]; omega
  · simp [List.filter_cons, h]

/-- The eviction loop under a cap of at most `2^21` bytes removes the first `k` records of
its type, where `k` is the least number that brings the counter to at most 95% of the cap,
or the number of all records of the type when no number does. -/
theorem dropOld_removes_oldest (sel : ListSel) (t : Nat) (l : List Node) :
    ∀ b : HilogBuffer, b.sizeByType t = typeSum t l → typeSum t l < SIZE_MOD →
      0 ≤ b.g_maxBufferSizeByType t → b.g_maxBufferSizeByType t ≤ 2 ^ 21 →
      ∃ k, k ≤ countOfType t l ∧
        (dropOld sel t l b).1 = removeOldest t k l ∧
        (dropOld sel t l b).2.sizeByType t = b.sizeByType t - oldestSum t k l ∧
        (∀ j, j < k → 19 * b.g_maxBufferSizeByType t <
          20 * ((b.sizeByType t - oldestSum t j l : Nat) : Int)) ∧
        (20 * ((b.sizeByType t - oldestSum t k l : Nat) : Int) ≤
            19 * b.g_maxBufferSizeByType t ∨ k = countOfType t l) := by
  induction l with
  | nil =>
    intro b _ _ _ _
    refine ⟨0, Nat.le_refl _, rfl, rfl, fun j hj => absurd hj (Nat.not_lt_zero j), Or.inr rfl⟩
  | cons x xs ih =>
    intro b h hlt hc0 hc1
    by_cases hg : exceedsDropLimit (b.sizeByType t) (b.g_maxBufferSizeByType t) = true
    · by_cases hx : x.data.type = t
      · have hstep : dropOld sel t (x :: xs) b = dropOld sel t xs (eraseStep sel x xs b) := by
          conv_lhs => unfold dropOld
          rw [if_pos hg, if_neg (not_not.mpr hx)]
        have hsum : typeSum t (x :: xs) = cLen x.data + typeSum t xs := by
          simp [typeSum, hx]
        have hsz : (eraseStep sel x xs b).sizeByType t = b.sizeByType t - cLen x.data := by
          have := eraseStep_sizeByType_same sel x xs b
          rw [hx] at this
          rw [this, subSz_of_le _ _ (by omega) (by omega)]
        have hcap : (eraseStep sel x xs b).g_maxBufferSizeByType t =
            b.g_maxBufferSizeByType t := by rw [eraseStep_caps]
        obtain ⟨k, k1, k2, k3, k4, k5⟩ := ih (eraseStep sel x xs b) (by rw [hsz]; omega)
          (by omega) (by rw [hcap]; exact hc0) (by rw [hcap]; exact hc1)
        rw [hcap, hsz] at k4 k5
        rw [hsz] at k3
        have hfirst := exceedsDropLimit_true_exact _ _ hc0 hc1 hg
        refine ⟨k + 1, ?_, ?_, ?_, ?_, ?_⟩
        · rw [countOfType_cons, if_pos hx]; omega
        · rw [hstep, k2]; simp [removeOldest, hx]
        · rw [hstep, k3, oldestSum_cons_eq t k x xs hx, Nat.sub_sub]
        · intro j hj
          cases j with
          | zero => rw [oldestSum_zero, Nat.sub_zero]; exact hfirst
          | succ j =>
            rw [oldestSum_cons_eq t j x xs hx, ← Nat.sub_sub]
            exact k4 j (by omega)
        · rw [oldestSum_cons_eq t k x xs hx, ← Nat.sub_sub, countOfType_cons, if_pos hx]
          rcases k5 with k5 | k5
          · exact Or.inl k5
          · right; omega
      · have hstep : dropOld sel t (x :: xs) b =
            ((dropOld sel t xs b).1.cons x, (dropOld sel t xs b).2) := by
          conv_lhs => unfold dropOld
          rw [if_pos hg, if_pos hx]
        have hsum : typeSum t (x :: xs) = typeSum t xs := by simp [typeSum, hx]
        obtain ⟨k, k1, k2, k3, k4, k5⟩ := ih b (by omega) (by omega) hc0 hc1
        refine ⟨k, ?_, ?_, ?_, ?_, ?_⟩
        · rw [countOfType_cons, if_neg hx]; omega
        · rw [hstep, removeOldest_cons_ne t k x xs hx]
          show x :: (dropOld sel t xs b).1 = _
          rw [k2]
        · rw [hstep, oldestSum_cons_ne t k x xs hx]; exact k3
        · intro j hj
          rw [oldestSum_cons_ne t j x xs hx]; exact k4 j hj
        · rw [oldestSum_cons_ne t k x xs hx, countOfType_cons, if_neg hx]
          rcases k5 with k5 | k5
          · exact Or.inl k5
          · right; omega
    · have hg' : exceedsDropLimit (b.sizeByType t) (b.g_maxBufferSizeByType t) = false := by
        simpa using hg
      rw [dropOld_of_not_exceeds sel t _ b hg']
      refine ⟨0, Nat.zero_le _, (removeOldest_zero t _).symm, ?_,
        fun j hj => absurd hj (Nat.not_lt_zero j), Or.inl ?_⟩
      · rw [oldestSum_zero, Nat.sub_zero]
      · rw [oldestSum_zero, Nat.sub_zero]
        exact exceedsDropLimit_false_exact _ _ hc0 hc1 hg'

/-- C23, as it stands: on `wideBuffer` (2156 records of type 0, 2206732 bytes, cap 2207541)
the eviction step of `Insert` removes the 107 oldest records and stops with 2097164 bytes
resident, which is above `2207541 × 0.95 = 2097163.95`, although records of type 0 remain in
the list: it removes fewer records than are needed to bring the counter to 95% of the cap,
because the threshold it compares with is the single-precision product, 2097164.0. -/
theorem Insert_eviction_stops_above_95_percent :
    addSz (CONTENT_LEN (fullMsg 3000)) (wideBuffer.sizeByType 0) ≥
        intToSz (wideBuffer.g_maxBufferSizeByType 0) ∧
      wideBuffer.hilogDataList = wideOld ++ wideKept ∧
      wideOld.length = 107 ∧
      (Insert sampleDecls ⟨0, 0⟩ (fullMsg 3000) wideBuffer).2.hilogDataList =
        place ⟨0, 0⟩ (fullMsg 3000).stamp
          ⟨2156, HilogData.ofMsg sampleDecls (fullMsg 3000)⟩ wideKept ∧
      (evictIfFull ListSel.main (fullMsg 3000) wideBuffer).sizeByType 0 = 2097164 ∧
      ¬ (20 * (2097164 : Int) ≤ 19 * wideBuffer.g_maxBufferSizeByType 0) ∧
      (∃ x ∈ wideKept, x.data.type = 0) := by
  refine ⟨by decide, rfl, wideOld_length, ?_, evictIfFull_wide.2, by decide, ?_⟩
  · have h := Insert_getList_same sampleDecls ⟨0, 0⟩ (fullMsg 3000) wideBuffer (by decide)
    have e : listOfType sampleDecls (fullMsg 3000).type = ListSel.main := by decide
    rw [e, evictIfFull_wide.1, evictIfFull_nextId] at h
    exact h
  · refine ⟨⟨2155, recordOfSize 12 2155⟩, ?_, rfl⟩
    unfold wideKept
    exact List.mem_append_right _ (List.mem_singleton.mpr rfl)

/-- C23, amended: let the counter of the type of a valid message be the sum over the records
of that type in its list, and the cap between 0 and `2^21` bytes.  When
`content_len + sizeByType[type] ≥ cap`, `Insert` removes exactly the `k` oldest records of
the type, where every smaller number leaves the counter above `cap × (1 − 0.05)` and `k`
brings it to at most that value or is the number of all records of the type; the new record
is then placed among those that remain.  When `content_len + sizeByType[type] < cap`, it
removes no record. -/
theorem Insert_evicts_oldest_of_type (D : Decls) (slot : LogTimeStamp) (msg : HilogMsg)
    (b : HilogBuffer) (hacc : msg.accepted) (hsum : accounted D b msg.type)
    (hS : b.sizeByType msg.type < SIZE_MOD)
    (hc0 : 0 ≤ b.g_maxBufferSizeByType msg.type)
    (hc1 : b.g_maxBufferSizeByType msg.type ≤ 2 ^ 21) :
    (addSz (CONTENT_LEN msg) (b.sizeByType msg.type) ≥
        intToSz (b.g_maxBufferSizeByType msg.type) →
      ∃ k, k ≤ countOfType msg.type (b.getList (listOfType D msg.type)) ∧
        (Insert D slot msg b).2.getList (listOfType D msg.type) =
          place slot msg.stamp ⟨b.nextId, HilogData.ofMsg D msg⟩
            (removeOldest msg.type k (b.getList (listOfType D msg.type))) ∧
        (evictIfFull (listOfType D msg.type) msg b).sizeByType msg.type =
          b.sizeByType msg.type - oldestSum msg.type k (b.getList (listOfType D msg.type)) ∧
        (∀ j, j < k → 19 * b.g_maxBufferSizeByType msg.type <
          20 * ((b.sizeByType msg.type -
            oldestSum msg.type j (b.getList (listOfType D msg.type)) : Nat) : Int)) ∧
        (20 * ((b.sizeByType msg.type -
            oldestSum msg.type k (b.getList (listOfType D msg.type)) : Nat) : Int) ≤
            19 * b.g_maxBufferSizeByType msg.type ∨
          k = countOfType msg.type (b.getList (listOfType D msg.type)))) ∧
    (¬ addSz (CONTENT_LEN msg) (b.sizeByType msg.type) ≥
        intToSz (b.g_maxBufferSizeByType msg.type) →
      (Insert D slot msg b).2.getList (listOfType D msg.type) =
        place slot msg.stamp ⟨b.nextId, HilogData.ofMsg D msg⟩
          (b.getList (listOfType D msg.type))) ∧
    (∀ sel, sel ≠ listOfType D msg.type →
      (Insert D slot msg b).2.getList sel = b.getList sel) := by
  refine ⟨fun hg => ?_, fun hg => ?_, fun sel hs => Insert_getList_ne D slot msg b sel hs⟩
  · obtain ⟨k, k1, k2, k3, k4, k5⟩ := dropOld_removes_oldest (listOfType D msg.type) msg.type
      (b.getList (listOfType D msg.type)) b hsum (by rw [← hsum]; exact hS) hc0 hc1
    have hev : evictIfFull (listOfType D msg.type) msg b =
        evict (listOfType D msg.type) msg.type b := by
      unfold evictIfFull; rw [if_pos hg]
    refine ⟨k, k1, ?_, ?_, k4, k5⟩
    · rw [Insert_getList_same D slot msg b hacc, evictIfFull_nextId, hev, evict_getList_same, k2]
    · rw [hev]; unfold evict; rw [setList_sizeByType]; exact k3
  · have hev : evictIfFull (listOfType D msg.type) msg b = b := by
      unfold evictIfFull; rw [if_neg hg]
    rw [Insert_getList_same D slot msg b hacc, hev]

/-- Witness for C23, amended: the list 1000.0 (type 1), 1001.0, 1002.0, 1003.0 (type 0)
with a cap of 7 bytes for type 0 and the message 1004.0 of type 0. -/
theorem Insert_evicts_oldest_of_type_witness :
    (mixedWith secondRecordReader).sizeByType 0 = 9 ∧
      countOfType 0 ((mixedWith secondRecordReader).getList ListSel.main) = 3 ∧
      ((addSz (CONTENT_LEN (sampleMsg 0 1004 0))
            ((mixedWith secondRecordReader).sizeByType (sampleMsg 0 1004 0).type) ≥
          intToSz ((mixedWith secondRecordReader).g_maxBufferSizeByType
            (sampleMsg 0 1004 0).type) →
        ∃ k, k ≤ countOfType (sampleMsg 0 1004 0).type
            ((mixedWith secondRecordReader).getList
              (listOfType sampleDecls (sampleMsg 0 1004 0).type)) ∧
          (Insert sampleDecls ⟨0, 0⟩ (sampleMsg 0 1004 0)
              (mixedWith secondRecordReader)).2.getList
              (listOfType sampleDecls (sampleMsg 0 1004 0).type) =
            place ⟨0, 0⟩ (sampleMsg 0 1004 0).stamp
              ⟨(mixedWith secondRecordReader).nextId,
                HilogData.ofMsg sampleDecls (sampleMsg 0 1004 0)⟩
              (removeOldest (sampleMsg 0 1004 0).type k
                ((mixedWith secondRecordReader).getList
                  (listOfType sampleDecls (sampleMsg 0 1004 0).type))) ∧
          (evictIfFull (listOfType sampleDecls (sampleMsg 0 1004 0).type) (sampleMsg 0 1004 0)
              (mixedWith secondRecordReader)).sizeByType (sampleMsg 0 1004 0).type =
            (mixedWith secondRecordReader).sizeByType (sampleMsg 0 1004 0).type -
              oldestSum (sampleMsg 0 1004 0).type k
                ((mixedWith secondRecordReader).getList
                  (listOfType sampleDecls (sampleMsg 0 1004 0).type)) ∧
          (∀ j, j < k →
            19 * (mixedWith secondRecordReader).g_maxBufferSizeByType
                (sampleMsg 0 1004 0).type <
              20 * (((mixedWith secondRecordReader).sizeByType (sampleMsg 0 1004 0).type -
                oldestSum (sampleMsg 0 1004 0).type j
                  ((mixedWith secondRecordReader).getList
                    (listOfType sampleDecls (sampleMsg 0 1004 0).type)) : Nat) : Int)) ∧
          (20 * (((mixedWith secondRecordReader).sizeByType (sampleMsg 0 1004 0).type -
                oldestSum (sampleMsg 0 1004 0).type k
                  ((mixedWith secondRecordReader).getList
                    (listOfType sampleDecls (sampleMsg 0 1004 0).type)) : Nat) : Int) ≤
              19 * (mixedWith secondRecordReader).g_maxBufferSizeByType
                (sampleMsg 0 1004 0).type ∨
            k = countOfType (sampleMsg 0 1004 0).type
              ((mixedWith secondRecordReader).getList
                (listOfType sampleDecls (sampleMsg 0 1004 0).type)))) ∧
      (¬ addSz (CONTENT_LEN (sampleMsg 0 1004 0))
            ((mixedWith secondRecordReader).sizeByType (sampleMsg 0 1004 0).type) ≥
          intToSz ((mixedWith secondRecordReader).g_maxBufferSizeByType
            (sampleMsg 0 1004 0).type) →
        (Insert sampleDecls ⟨0, 0⟩ (sampleMsg 0 1004 0)
            (mixedWith secondRecordReader)).2.getList
            (listOfType sampleDecls (sampleMsg 0 1004 0).type) =
          place ⟨0, 0⟩ (sampleMsg 0 1004 0).stamp
            ⟨(mixedWith secondRecordReader).nextId,
              HilogData.ofMsg sampleDecls (sampleMsg 0 1004 0)⟩
            ((mixedWith secondRecordReader).getList
              (listOfType sampleDecls (sampleMsg 0 1004 0).type))) ∧
      (∀ sel, sel ≠ listOfType sampleDecls (sampleMsg 0 1004 0).type →
        (Insert sampleDecls ⟨0, 0⟩ (sampleMsg 0 1004 0)
            (mixedWith secondRecordReader)).2.getList sel =
          (mixedWith secondRecordReader).getList sel)) :=
  ⟨by decide, by decide,
    Insert_evicts_oldest_of_type sampleDecls ⟨0, 0⟩ (sampleMsg 0 1004 0)
      (mixedWith secondRecordReader) (by decide) (by unfold accounted; decide) (by decide)
      (by decide) (by decide)⟩

end Hilog
